import Mathlib

/-!
# Starfield: a shallow embedding of `starfield.c`

The development embeds the rendering core of `starfield.c` (saturating
compositing, the reference disc, sprite scaling, the star field and the frame
renderer) and proves properties of it.

Conventions of the embedding.

* `unsigned int` values are natural numbers; every operation that the source
  performs in `unsigned int` is reduced modulo `2 ^ 32`.  An `int` is an
  integer, converted to `unsigned int` by `to_unsigned` wherever the usual
  arithmetic conversions of C do so.
* `unsigned char` values are `Fin 256`.
* A `bitmap_t` is a record of its dimensions and strides together with the
  position `data` of its first byte inside an allocation `mem`.  A view made
  by `bitmap_sub` shares the allocation of its parent; the function that
  writes through a view hands the allocation back to the parent.  Two bitmaps
  passed to one function are separate objects with separate allocations.
* `float` and `double` values are elements of an ordered field `α` with a
  floor function.  The rounding of an operation to `float` (binary32) or
  `double` (binary64) is the function `fl32` or `fl64`: round to nearest, ties
  to even, every operation rounded to the precision of its type, no fused
  operations; infinities and NaN are not represented, so the definitions
  follow the code for magnitudes below the overflow threshold.
* The viewer offset and the depth of a star (`frame_pos`, `wrapped_z`,
  `star_dz`) and the star field (`init_stars`) carry the rounding of every
  operation.  The other locals of `scale_circle` and `render_frame` are
  embedded as exact field expressions; the locals whose rounding decides a
  property are embedded a second time with the rounding of every operation,
  under the name of the local followed by `32` (`canvas_sub_size32`,
  `star_vx32`, ...).
* The functions of the C mathematics library that are not field operations
  (`sqrtf`, `cosf`, `sinf`) are parameters of the definitions that use them;
  `fmodf` and `floorf` are exact in IEEE arithmetic and are embedded as such.
* The bitmap library behind `api.h` is not part of the program.  Its
  operations `bitmap_new_empty` and `bitmap_sub` are modelled from the
  specification, `bitmap_scale` is a parameter, `bitmap_free` has no effect on
  values.
* The namespace `Heap` holds a second embedding of the same functions, on a
  memory of allocations with bitmaps as pointers.  It serves the properties
  that speak of what a call leaves unchanged; the theorems of the last part
  relate it to the embedding on values.
-/

namespace Starfield

/-! ## Machine integers -/

/-- Number of values of an `unsigned int`. -/
def UINT_MOD : Nat := 4294967296

/-- Conversion of an `int` to `unsigned int`. -/
def to_unsigned (z : Int) : Nat := (z % 4294967296).toNat

/-- Addition of two `unsigned int` values. -/
def uadd (a b : Nat) : Nat := (a + b) % UINT_MOD

/-- Subtraction of two `unsigned int` values. -/
def usub (a b : Nat) : Nat := (a + (UINT_MOD - b % UINT_MOD)) % UINT_MOD

/-- Conversion of an `unsigned int` to `unsigned char`. -/
def to_uchar (v : Nat) : Fin 256 := Fin.ofNat v

/-! ## Bitmaps -/

/-- The bitmap record of `api.h`: dimensions, strides and the data pointer,
given as the position `data` of the first byte inside the allocation `mem`.
The dimensions and strides are `unsigned int` fields: the program compares
them with and assigns them to `unsigned int` variables throughout. -/
structure bitmap_t where
  width : Nat
  height : Nat
  pixel_stride : Nat
  row_stride : Nat
  data : Nat
  mem : Nat → Fin 256

/-- The index expression `y * row_stride + x * pixel_stride + i`, evaluated in
`unsigned int`. -/
def bitmap_t.index (b : bitmap_t) (x y i : Nat) : Nat :=
  (y * b.row_stride + x * b.pixel_stride + i) % UINT_MOD

/-- Channel `i` of pixel `(x, y)`: the byte `data[y * row_stride + x * pixel_stride + i]`. -/
def bitmap_t.get (b : bitmap_t) (x y i : Nat) : Fin 256 :=
  b.mem (b.data + b.index x y i)

/-- Layout of an RGB bitmap: a pixel holds at least three bytes, a row holds
its pixels, the rows fit the range of the `unsigned int` index, and the
dimensions fit an `int` offset. -/
def bitmap_t.wf (b : bitmap_t) : Prop :=
  3 ≤ b.pixel_stride ∧ b.width * b.pixel_stride ≤ b.row_stride ∧
  b.height * b.row_stride ≤ 4294967296 ∧ b.width < 2147483648 ∧ b.height < 2147483648

instance (b : bitmap_t) : Decidable b.wf := by
  unfold bitmap_t.wf
  infer_instance

/-- Modelled from the spec: `bitmap_new_empty` of the bitmap library, which is
not part of the program.  It allocates a packed RGB bitmap (three bytes per
pixel, rows without padding).  The content is cleared, as the `memset` that
follows each call in the program does. -/
def bitmap_new_empty (width height : Nat) : bitmap_t :=
  { width := width, height := height, pixel_stride := 3, row_stride := 3 * width,
    data := 0, mem := fun _ => 0 }

/-- Modelled from the spec: `bitmap_sub` of the bitmap library, which is not
part of the program.  It makes a cropping view of the rectangle with corner
`(x, y)` and the given size, sharing the bytes of `super`; a rectangle that
does not lie inside `super` is refused. -/
def bitmap_sub (super : bitmap_t) (x y width height : Nat) : Option bitmap_t :=
  if x + width ≤ super.width ∧ y + height ≤ super.height then
    some { width := width, height := height, pixel_stride := super.pixel_stride,
           row_stride := super.row_stride,
           data := super.data + (y * super.row_stride + x * super.pixel_stride),
           mem := super.mem }
  else none

/-- The body of `bitmap_set_pixel`; `none` is a failed assertion. -/
def bitmap_set_pixel (bitmap : bitmap_t) (x y : Nat) (r g b : Fin 256) : Option bitmap_t :=
  if x < bitmap.width ∧ y < bitmap.height then
    let m0 := Function.update bitmap.mem (bitmap.data + bitmap.index x y 0) r
    let m1 := Function.update m0 (bitmap.data + bitmap.index x y 1) g
    let m2 := Function.update m1 (bitmap.data + bitmap.index x y 2) b
    some { bitmap with mem := m2 }
  else none

/-- The body of the innermost loop of `bitmap_add`, on the bytes `m` of the
destination. -/
def bitmap_add_step (dest src : bitmap_t) (y x : Nat) (m : Nat → Fin 256) (i : Nat) :
    Nat → Fin 256 :=
  let v1 := (m (dest.data + dest.index x y i)).val
  let v2 := (src.mem (src.data + src.index x y i)).val
  let v := uadd v1 v2
  let v := if v > 255 then 255 else v
  Function.update m (dest.data + dest.index x y i) (to_uchar v)

/-- The three nested loops of `bitmap_add`. -/
def bitmap_add_loops (dest src : bitmap_t) : Nat → Fin 256 :=
  (List.range dest.height).foldl (fun m y =>
    (List.range dest.width).foldl (fun m x =>
      (List.range 3).foldl (bitmap_add_step dest src y x) m) m) dest.mem

/-- The function `bitmap_add`: the destination after the call, or `none` when
the assertion on the dimensions fails. -/
def bitmap_add (dest src : bitmap_t) : Option bitmap_t :=
  if dest.width = src.width ∧ dest.height = src.height then
    some { dest with mem := bitmap_add_loops dest src }
  else none

/-- The local `sub_x` (and `sub_y`) of `bitmap_add_with_crop`. -/
def crop_sub_pos (x : Int) : Nat := if x ≥ 0 then 0 else to_unsigned (-x)

/-- The local `sub_width` (and `sub_height`) of `bitmap_add_with_crop`, from
the extent of the destination and of the source along one axis. -/
def crop_sub_size (dest_size src_size : Nat) (x : Int) : Nat :=
  if uadd (to_unsigned x) src_size < dest_size then usub src_size (crop_sub_pos x)
  else usub (usub dest_size (to_unsigned x)) (crop_sub_pos x)

/-- The guard of `bitmap_add_with_crop`.  The operands of each comparison are
an `int` and an `unsigned int`, so the comparison is made in `unsigned int`. -/
def crop_outside (dest src : bitmap_t) (x y : Int) : Prop :=
  uadd (to_unsigned x) src.width ≤ 0 ∨ uadd (to_unsigned y) src.height ≤ 0 ∨
  to_unsigned x ≥ dest.width ∨ to_unsigned y ≥ dest.height

instance (dest src : bitmap_t) (x y : Int) : Decidable (crop_outside dest src x y) := by
  unfold crop_outside
  infer_instance

/-- The function `bitmap_add_with_crop`: the destination after the call, or
`none` when a sub-rectangle is refused or an assertion fails. -/
def bitmap_add_with_crop (dest src : bitmap_t) (x y : Int) : Option bitmap_t :=
  if crop_outside dest src x y then some dest
  else
    let sub_x := crop_sub_pos x
    let sub_y := crop_sub_pos y
    let sub_width := crop_sub_size dest.width src.width x
    let sub_height := crop_sub_size dest.height src.height y
    match bitmap_sub src sub_x sub_y sub_width sub_height with
    | none => none
    | some cropped_src =>
      match bitmap_sub dest (uadd (to_unsigned x) sub_x) (uadd (to_unsigned y) sub_y)
          sub_width sub_height with
      | none => none
      | some cropped_dest =>
        match bitmap_add cropped_dest cropped_src with
        | none => none
        | some added => some { dest with mem := added.mem }

/-! ## Sample bitmaps -/

/-- A bitmap of the given size with every byte equal to `v`. -/
def bitmap_filled (width height : Nat) (v : Fin 256) : bitmap_t :=
  { bitmap_new_empty width height with mem := fun _ => v }

/-- A single pixel of channel value 200. -/
def gray200 : bitmap_t := bitmap_filled 1 1 200

/-- A single pixel of channel value 100. -/
def gray100 : bitmap_t := bitmap_filled 1 1 100

/-- A black bitmap of 10x10 pixels. -/
def black10 : bitmap_t := bitmap_new_empty 10 10

/-- A white bitmap of 4x4 pixels. -/
def white4 : bitmap_t := bitmap_filled 4 4 255

/-! ## Configuration constants -/

def OUTPUT_WIDTH : Nat := 720
def OUTPUT_HEIGHT : Nat := 576
def NUM_STARS : Nat := 500
def FULL_WIDTH : Nat := 768 * 4
def FULL_HEIGHT : Nat := 576 * 4
def MAX_STAR_SIZE : Nat := 20
def CYLINDER_DIAMETER : Nat := 1000
def CYLINDER_LENGTH : Nat := 1500
def CORRIDOR_DIAMETER : Nat := 100
def CIRCLE_CANVAS_SIZE : Nat := 128
def CIRCLE_SIZE : Nat := 32

section Floats

variable {α : Type} [LinearOrderedField α] [FloorRing α]

def SPEED : α := 1 / 2
def VIEWPORT_DISTANCE : α := 10
def VIEWPORT_WIDTH : α := 10
def VIEWPORT_HEIGHT : α := VIEWPORT_WIDTH * (FULL_HEIGHT : α) / (FULL_WIDTH : α)

/-- Conversion of a floating value to `int`: the fractional part is discarded. -/
def float_to_int (q : α) : Int := if 0 ≤ q then Int.floor q else Int.ceil q

/-- Conversion of a floating value to `unsigned int` or `unsigned char`: the
fractional part is discarded.  C defines it for values in the range of the
target type only. -/
def float_to_unsigned (q : α) : Nat := Nat.floor q

/-- The function `floorf` of the C library. -/
def floorf (q : α) : α := ((Int.floor q : Int) : α)

/-- The function `fmodf` of the C library: `x - n * y` with `n` the quotient
`x / y` with its fractional part discarded. -/
def fmodf (x y : α) : α := x - ((float_to_int (x / y) : Int) : α) * y

/-! ## Rounding to `float` and `double` -/

/-- Rounding of `q` to an integer: to the nearest one, and to the even one of
the two when `q` lies halfway. -/
def round_even (q : α) : Int :=
  if q - (Int.floor q : α) < 1 / 2 then Int.floor q
  else if 1 / 2 < q - (Int.floor q : α) then Int.floor q + 1
  else if Int.floor q % 2 = 0 then Int.floor q else Int.floor q + 1

/-- Exponent of the unit in the last place of a binary floating format with
`prec` significant bits and least exponent `emin`, at the magnitude `x`. -/
def ulp_exp (prec : Nat) (emin : Int) (x : α) : Int :=
  max (Int.log 2 x) emin - ((prec : Int) - 1)

/-- Rounding of a magnitude `x` to the format: to the nearest multiple of the
unit in the last place, ties to even. -/
def round_mag (prec : Nat) (emin : Int) (x : α) : α :=
  ((round_even (x / (2 : α) ^ ulp_exp prec emin x) : Int) : α) * (2 : α) ^ ulp_exp prec emin x

/-- Rounding of `x` to a binary floating format with `prec` significant bits
and least exponent `emin` (round to nearest, ties to even; the sign is kept).
Overflow to infinity is not represented. -/
def round_to (prec : Nat) (emin : Int) (x : α) : α :=
  if 0 ≤ x then round_mag prec emin x else -round_mag prec emin (-x)

/-- Rounding to `float` (IEEE 754 binary32). -/
def fl32 (x : α) : α := round_to 24 (-126) x

/-- Rounding to `double` (IEEE 754 binary64). -/
def fl64 (x : α) : α := round_to 53 (-1022) x

/-- The values of a binary floating format with `prec` significant bits and
least exponent `emin`. -/
def representable (prec : Nat) (emin : Int) (x : α) : Prop :=
  ∃ m k : Int, x = (m : α) * (2 : α) ^ k ∧ |m| < 2 ^ prec ∧ emin - ((prec : Int) - 1) ≤ k

/-! ## The reference disc -/

/-- The local `circle_x` (and `circle_y`) of `init_circle`. -/
def circle_coord (x : Nat) : α := ((x : α) + 1 / 2) / (CIRCLE_SIZE : α) * 2 - 1

/-- The local `bitmap_x` (and `bitmap_y`) of `init_circle`. -/
def circle_bitmap_coord (x : Nat) : Nat :=
  to_unsigned ((CIRCLE_CANVAS_SIZE : Int) / 2 - (CIRCLE_SIZE : Int) / 2 + (x : Int))

/-- The local `gray` of `init_circle`. -/
def circle_gray (α : Type) [LinearOrderedField α] (x y : Nat) : Fin 256 :=
  if (circle_coord x : α) * circle_coord x + circle_coord y * circle_coord y ≤ 1 then 255 else 0

/-- The body of the inner loop of `init_circle`; `none` is a failed assertion. -/
def init_circle_body (α : Type) [LinearOrderedField α] (y : Nat) (circle : bitmap_t) (x : Nat) :
    Option bitmap_t :=
  if (circle_coord x : α) > -1 ∧ (circle_coord x : α) < 1 ∧
      (circle_coord y : α) > -1 ∧ (circle_coord y : α) < 1 then
    bitmap_set_pixel circle (circle_bitmap_coord x) (circle_bitmap_coord y)
      (circle_gray α x y) (circle_gray α x y) (circle_gray α x y)
  else none

/-- The three bytes that one iteration of the inner loop of `init_circle`
writes, on the bytes `m` of the canvas. -/
def init_circle_write (α : Type) [LinearOrderedField α] (y x : Nat) (m : Nat → Fin 256) :
    Nat → Fin 256 :=
  (List.range 3).foldl (fun (m : Nat → Fin 256) c =>
    Function.update m
      ((bitmap_new_empty 128 128).data + (bitmap_new_empty 128 128).index (48 + x) (48 + y) c)
      (circle_gray α x y)) m

/-- The bytes of the canvas after the loops of `init_circle`, when no assertion
fails. -/
def init_circle_loops (α : Type) [LinearOrderedField α] : Nat → Fin 256 :=
  (List.range 32).foldl (fun m y =>
    (List.range 32).foldl (fun m x => init_circle_write α y x m) m) (fun _ => 0)

/-- The function `init_circle`: the reference disc it leaves in `circle`. -/
def init_circle (α : Type) [LinearOrderedField α] : Option bitmap_t :=
  (List.range CIRCLE_SIZE).foldlM (fun circle y =>
    (List.range CIRCLE_SIZE).foldlM (init_circle_body α y) circle)
    (bitmap_new_empty CIRCLE_CANVAS_SIZE CIRCLE_CANVAS_SIZE)

/-! ## Sprites -/

/-- The local `canvas_ideal_pixel_size` of `scale_circle`. -/
def canvas_ideal_pixel_size (size : α) : α := (CIRCLE_CANVAS_SIZE : α) * (size / (CIRCLE_SIZE : α))

/-- The local `canvas_real_pixel_size` of `scale_circle`. -/
def canvas_real_pixel_size (size : α) : Nat :=
  float_to_unsigned (floorf (canvas_ideal_pixel_size size))

/-- The local `canvas_sub_size` of `scale_circle`. -/
def canvas_sub_size (size : α) : Nat :=
  float_to_unsigned ((CIRCLE_CANVAS_SIZE : α) *
    (((canvas_real_pixel_size size : Nat) : α) / canvas_ideal_pixel_size size))

/-- The local `canvas_border` of `scale_circle`. -/
def canvas_border (size : α) : Nat := usub CIRCLE_CANVAS_SIZE (canvas_sub_size size) / 2

/-- The local `gray` of `scale_circle`. -/
def scale_gray (size : α) : Fin 256 := to_uchar (float_to_unsigned (size * 255))

/-- The local `canvas_ideal_pixel_size` of `scale_circle` with the rounding of
the division and of the product, both of `float`. -/
def canvas_ideal_pixel_size32 (size : α) : α :=
  fl32 ((CIRCLE_CANVAS_SIZE : α) * fl32 (size / (CIRCLE_SIZE : α)))

/-- The local `canvas_real_pixel_size` of `scale_circle`, from the rounded
ideal size. -/
def canvas_real_pixel_size32 (size : α) : Nat :=
  float_to_unsigned (floorf (canvas_ideal_pixel_size32 size))

/-- The local `canvas_sub_size` of `scale_circle` with the rounding of the
conversion to `float`, of the division and of the product. -/
def canvas_sub_size32 (size : α) : Nat :=
  float_to_unsigned (fl32 ((CIRCLE_CANVAS_SIZE : α) *
    fl32 (fl32 ((canvas_real_pixel_size32 size : Nat) : α) / canvas_ideal_pixel_size32 size)))

/-- The function `scale_circle`, with the global `circle` and the library
function `bitmap_scale` (with its filter fixed) as parameters; `none` is a
failed assertion or a refused sub-rectangle. -/
def scale_circle (bitmap_scale : bitmap_t → Nat → Nat → bitmap_t) (circle : bitmap_t)
    (size : α) : Option bitmap_t :=
  if size ≤ 1 then
    bitmap_set_pixel (bitmap_new_empty 1 1) 0 0 (scale_gray size) (scale_gray size)
      (scale_gray size)
  else
    if canvas_sub_size size ≥ CIRCLE_SIZE then
      match bitmap_sub circle (canvas_border size) (canvas_border size)
          (canvas_sub_size size) (canvas_sub_size size) with
      | none => none
      | some canvas_sub =>
        some (bitmap_scale canvas_sub (canvas_real_pixel_size size) (canvas_real_pixel_size size))
    else none

/-! ## The star field -/

/-- The record `star_t`. -/
structure star_t (α : Type) where
  x : α
  y : α
  z : α
  size : α

/-- Modelled from the spec: the constant `M_PI` of `math.h`, which is not part
of the program: the `double` nearest to the decimal literal
`3.14159265358979323846`. -/
def M_PI : α := fl64 (314159265358979323846 / 100000000000000000000)

/-- The local `distance` of `init_stars`, from the value `r` of `random()`: the
integer is converted to `float`, the quotient by `1000.0` is a `double`, and
the result is stored in a `float`. -/
def star_distance (r : Nat) : α :=
  fl32 (fl64 (fl32 ((r % ((CYLINDER_DIAMETER - CORRIDOR_DIAMETER) * 500)
    + CORRIDOR_DIAMETER * 500 : Nat) : α) / 1000))

/-- The local `angle` of `init_stars`, from the value `r` of `random()`: the
integer is converted to `float`, the two quotients and the product with `M_PI`
are of `double`, and the result is stored in a `float`. -/
def star_angle (r : Nat) : α :=
  fl32 (fl64 (fl64 (fl64 (fl32 ((r % (360 * 1000) : Nat) : α) / 1000) / 180) * M_PI))

/-- The local `z` of `init_stars`, from the value `r` of `random()`. -/
def star_z (r : Nat) : α := fl32 (fl64 (fl32 ((r % (CYLINDER_LENGTH * 1000) : Nat) : α) / 1000))

/-- The local `size` of `init_stars`, from the value `r` of `random()`. -/
def star_size (r : Nat) : α := fl32 (fl64 (fl32 ((r % (MAX_STAR_SIZE * 1000) : Nat) : α) / 1000))

/-- The body of the loop of `init_stars`: the star built from four successive
values of `random()`.  The products with the values of `cosf` and `sinf`, the
functions of the C library, are of `float`. -/
def init_star (cosf sinf : α → α) (r0 r1 r2 r3 : Nat) : star_t α :=
  { x := fl32 (star_distance r0 * cosf (star_angle r1)),
    y := fl32 (star_distance r0 * sinf (star_angle r1)),
    z := star_z r2,
    size := star_size r3 }

/-- The function `init_stars`: the array `stars` it fills, where `random k` is
the value of the call number `k` of `random()`. -/
def init_stars (cosf sinf : α → α) (random : Nat → Nat) : List (star_t α) :=
  (List.range NUM_STARS).map fun i =>
    init_star cosf sinf (random (4 * i)) (random (4 * i + 1)) (random (4 * i + 2))
      (random (4 * i + 3))

/-! ## The frame renderer -/

/-- The local `pos` of `render_frame`.  The product `frame * SPEED` is a
`double`, the argument of `fmodf` is its conversion to `float`; the
conversion of `CYLINDER_LENGTH` to `float` is exact, and so is `fmodf`. -/
def frame_pos (frame : Int) : α := fmodf (fl32 (fl64 ((frame : α) * SPEED))) (CYLINDER_LENGTH : α)

/-- The local `z` of the loop of `render_frame`; the subtraction is one of
`float`. -/
def wrapped_z (pos z : α) : α := if z ≥ pos then fl32 (z - (CYLINDER_LENGTH : α)) else z

/-- The local `dz` of the loop of `render_frame`: the difference `pos - z` is
a `float`, the sum with `VIEWPORT_DISTANCE` a `double`, stored in a
`float`. -/
def star_dz (pos z : α) : α := fl32 (fl64 (fl32 (pos - wrapped_z pos z) + VIEWPORT_DISTANCE))

/-- The local `a` of `render_frame`. -/
def frame_a (sqrtf : α → α) : α :=
  let ndz : α := VIEWPORT_DISTANCE * (CORRIDOR_DIAMETER : α) / VIEWPORT_HEIGHT
  let nd : α := sqrtf (ndz * ndz + (CORRIDOR_DIAMETER : α) * (CORRIDOR_DIAMETER : α) / 4)
  (MAX_STAR_SIZE : α) * nd

/-- The body of the loop of `render_frame` for one star. -/
def render_star (bitmap_scale : bitmap_t → Nat → Nat → bitmap_t) (sqrtf : α → α)
    (circle : bitmap_t) (pos : α) (canvas : bitmap_t) (s : star_t α) : Option bitmap_t :=
  let x := s.x
  let y := s.y
  let dz := star_dz pos s.z
  let rx := x * VIEWPORT_DISTANCE / dz
  let ry := y * VIEWPORT_DISTANCE / dz
  let d := sqrtf (x * x + y * y + dz * dz)
  let vx := rx / VIEWPORT_WIDTH * (FULL_WIDTH : α) / 2 + (FULL_WIDTH : α) / 2
  let vy := ry / VIEWPORT_HEIGHT * (FULL_HEIGHT : α) / 2 + (FULL_HEIGHT : α) / 2
  if vx ≥ -(MAX_STAR_SIZE : α) / 2 ∧ vy ≥ -(MAX_STAR_SIZE : α) / 2 ∧
      vx ≤ (FULL_WIDTH : α) + (MAX_STAR_SIZE : α) / 2 ∧
      vy ≤ (FULL_HEIGHT : α) + (MAX_STAR_SIZE : α) / 2 then
    let size := frame_a sqrtf / d
    match scale_circle bitmap_scale circle size with
    | none => none
    | some star =>
      bitmap_add_with_crop canvas star (float_to_int (vx - (star.width : α) / 2))
        (float_to_int (vy - (star.width : α) / 2))
  else some canvas

/-- The function `render_frame`, with the globals `stars` and `circle` and the
library functions as parameters. -/
def render_frame (bitmap_scale : bitmap_t → Nat → Nat → bitmap_t) (sqrtf : α → α)
    (stars : List (star_t α)) (circle : bitmap_t) (frame : Int) : Option bitmap_t :=
  match stars.foldlM (render_star bitmap_scale sqrtf circle (frame_pos frame))
      (bitmap_new_empty FULL_WIDTH FULL_HEIGHT) with
  | none => none
  | some canvas => some (bitmap_scale canvas OUTPUT_WIDTH OUTPUT_HEIGHT)

/-- The local `vx` of the loop of `render_frame`, from the coordinate `x` of
the star and the depth `dz`. -/
def star_vx (x dz : α) : α :=
  x * VIEWPORT_DISTANCE / dz / VIEWPORT_WIDTH * (FULL_WIDTH : α) / 2 + (FULL_WIDTH : α) / 2

/-- The local `vy` of the loop of `render_frame`, from the coordinate `y` of
the star and the depth `dz`. -/
def star_vy (y dz : α) : α :=
  y * VIEWPORT_DISTANCE / dz / VIEWPORT_HEIGHT * (FULL_HEIGHT : α) / 2 + (FULL_HEIGHT : α) / 2

/-- The local `rx` (or `ry`) of the loop of `render_frame` with the rounding of
every operation: the product with `VIEWPORT_DISTANCE` and the quotient by `dz`
are of `double`, the result is stored in a `float`. -/
def star_rx32 (x dz : α) : α := fl32 (fl64 (fl64 (x * VIEWPORT_DISTANCE) / dz))

/-- The local `vx` of the loop of `render_frame` with the rounding of every
operation, all of `double`; the result is stored in a `float`.  The constant
`FULL_WIDTH / 2.0` is exact. -/
def star_vx32 (x dz : α) : α :=
  fl32 (fl64 (fl64 (fl64 (fl64 (star_rx32 x dz / VIEWPORT_WIDTH) * (FULL_WIDTH : α)) / 2)
    + (FULL_WIDTH : α) / 2))

/-- The local `vy` of the loop of `render_frame` with the rounding of every
operation, all of `double`; the result is stored in a `float`.  The constants
`VIEWPORT_HEIGHT` (7.5) and `FULL_HEIGHT / 2.0` are exact. -/
def star_vy32 (y dz : α) : α :=
  fl32 (fl64 (fl64 (fl64 (fl64 (star_rx32 y dz / VIEWPORT_HEIGHT) * (FULL_HEIGHT : α)) / 2)
    + (FULL_HEIGHT : α) / 2))

/-- The local `d` of the loop of `render_frame`. -/
def star_d (sqrtf : α → α) (x y dz : α) : α := sqrtf (x * x + y * y + dz * dz)

/-- The local `ndz` of `render_frame`. -/
def frame_ndz : α := VIEWPORT_DISTANCE * (CORRIDOR_DIAMETER : α) / VIEWPORT_HEIGHT

/-- The local `size` of the loop of `render_frame`: the apparent size `a / d`. -/
def apparent_size (sqrtf : α → α) (x y dz : α) : α := frame_a sqrtf / star_d sqrtf x y dz

/-- The cull test of the loop of `render_frame` on the canvas coordinates. -/
def cull_test (vx vy : α) : Prop :=
  vx ≥ -(MAX_STAR_SIZE : α) / 2 ∧ vy ≥ -(MAX_STAR_SIZE : α) / 2 ∧
    vx ≤ (FULL_WIDTH : α) + (MAX_STAR_SIZE : α) / 2 ∧
    vy ≤ (FULL_HEIGHT : α) + (MAX_STAR_SIZE : α) / 2

instance (vx vy : α) : Decidable (cull_test vx vy) := by
  unfold cull_test
  infer_instance

/-- A stand-in for `bitmap_scale` that returns a cleared bitmap of the
requested size. -/
def scale_blank (_b : bitmap_t) (width height : Nat) : bitmap_t := bitmap_new_empty width height


/-- The bitmap `b` with the bytes `m` in its allocation. -/
def bitmap_t.set_mem (b : bitmap_t) (m : Nat → Fin 256) : bitmap_t := { b with mem := m }

/-- The effect of the body of the loop of `render_frame` on the bytes of a
canvas with the dimensions, strides and data pointer of `c0`. -/
def render_mem_step (bitmap_scale : bitmap_t → Nat → Nat → bitmap_t) (sqrtf : α → α)
    (circle : bitmap_t) (pos : α) (c0 : bitmap_t) (acc : Option (Nat → Fin 256))
    (s : star_t α) : Option (Nat → Fin 256) :=
  acc.bind fun m =>
    (render_star bitmap_scale sqrtf circle pos (c0.set_mem m) s).map fun c => c.mem


/-- A step on a canvas with the dimensions, strides and data pointer of `c0`
either fails whatever the bytes of the canvas are, or adds to every byte an
amount that does not depend on the bytes of the canvas, with saturation. -/
def saturating_effect (c0 : bitmap_t) (step : bitmap_t → Option bitmap_t) : Prop :=
  (∀ m, step (c0.set_mem m) = none) ∨
  ∃ k : Nat → Nat, ∀ m, ∃ m1, step (c0.set_mem m) = some (c0.set_mem m1) ∧
    ∀ a, (m1 a).val = min 255 ((m a).val + k a)


/-! ## The program on an explicit memory

The definitions above pass bitmaps as values.  The definitions of this part
follow the same source functions on a memory of allocations, with bitmaps as
pointers, so that every store of the program is a store into the allocation
that the pointer at hand refers to.  `bitmap_free` does not change the bytes
of an allocation and is left out. -/

/-- The memory of the program: the bytes of every allocation and the number of
allocations made so far. -/
structure heap where
  bytes : Nat → Nat → Fin 256
  next : Nat

/-- A pointer to a bitmap record of `api.h`; its data pointer is the position
`data` inside the allocation `alloc`. -/
structure bitmap_ptr where
  width : Nat
  height : Nat
  pixel_stride : Nat
  row_stride : Nat
  alloc : Nat
  data : Nat

/-- The bitmap behind a pointer, as a value, when its allocation holds the
bytes `m`. -/
def bitmap_ptr.value (p : bitmap_ptr) (m : Nat → Fin 256) : bitmap_t :=
  { width := p.width, height := p.height, pixel_stride := p.pixel_stride,
    row_stride := p.row_stride, data := p.data, mem := m }

/-- The bitmap behind a pointer, as a value. -/
def bitmap_ptr.load (p : bitmap_ptr) (h : heap) : bitmap_t := p.value (h.bytes p.alloc)

/-- The index expression `y * row_stride + x * pixel_stride + i`, evaluated in
`unsigned int`. -/
def bitmap_ptr.index (p : bitmap_ptr) (x y i : Nat) : Nat :=
  (y * p.row_stride + x * p.pixel_stride + i) % UINT_MOD

/-- The memory with the bytes `m` in the allocation `a`. -/
def heap.store (h : heap) (a : Nat) (m : Nat → Fin 256) : heap :=
  { h with bytes := Function.update h.bytes a m }

/-- A store of the byte `v` at position `addr` of the allocation `a`. -/
def heap.write (h : heap) (a addr : Nat) (v : Fin 256) : heap :=
  h.store a (Function.update (h.bytes a) addr v)

/-- A new allocation that holds the bytes `m`. -/
def heap.allocate (h : heap) (m : Nat → Fin 256) : heap :=
  { bytes := Function.update h.bytes h.next m, next := h.next + 1 }

namespace Heap

/-- Modelled from the spec: `bitmap_new_empty` of the bitmap library, on the
memory: a packed RGB bitmap in a new allocation, cleared as by the `memset`
that follows the call. -/
def bitmap_new_empty (h : heap) (width height : Nat) : bitmap_ptr × heap :=
  ({ width := width, height := height, pixel_stride := 3, row_stride := 3 * width,
     alloc := h.next, data := 0 }, h.allocate (fun _ => 0))

/-- Modelled from the spec: `bitmap_sub` of the bitmap library, on the memory:
a view into the allocation of `super`. -/
def bitmap_sub (super : bitmap_ptr) (x y width height : Nat) : Option bitmap_ptr :=
  if x + width ≤ super.width ∧ y + height ≤ super.height then
    some { width := width, height := height, pixel_stride := super.pixel_stride,
           row_stride := super.row_stride, alloc := super.alloc,
           data := super.data + (y * super.row_stride + x * super.pixel_stride) }
  else none

/-- Modelled from the spec: `bitmap_scale` of the bitmap library, on the
memory: the resampled image, a function `scale` of the source image and the
requested size, in a new allocation. -/
def bitmap_scale (scale : bitmap_t → Nat → Nat → bitmap_t) (h : heap) (orig : bitmap_ptr)
    (width height : Nat) : bitmap_ptr × heap :=
  ({ width := (scale (orig.load h) width height).width,
     height := (scale (orig.load h) width height).height,
     pixel_stride := (scale (orig.load h) width height).pixel_stride,
     row_stride := (scale (orig.load h) width height).row_stride,
     alloc := h.next,
     data := (scale (orig.load h) width height).data },
   h.allocate (scale (orig.load h) width height).mem)

/-- The body of `bitmap_set_pixel` on the memory. -/
def bitmap_set_pixel (h : heap) (bitmap : bitmap_ptr) (x y : Nat) (r g b : Fin 256) :
    Option heap :=
  if x < bitmap.width ∧ y < bitmap.height then
    let h0 := h.write bitmap.alloc (bitmap.data + bitmap.index x y 0) r
    let h1 := h0.write bitmap.alloc (bitmap.data + bitmap.index x y 1) g
    let h2 := h1.write bitmap.alloc (bitmap.data + bitmap.index x y 2) b
    some h2
  else none

/-- The body of the innermost loop of `bitmap_add` on the memory. -/
def bitmap_add_step (dest src : bitmap_ptr) (y x : Nat) (h : heap) (i : Nat) : heap :=
  let v1 := (h.bytes dest.alloc (dest.data + dest.index x y i)).val
  let v2 := (h.bytes src.alloc (src.data + src.index x y i)).val
  let v := uadd v1 v2
  let v := if v > 255 then 255 else v
  h.write dest.alloc (dest.data + dest.index x y i) (to_uchar v)

/-- The function `bitmap_add` on the memory. -/
def bitmap_add (h : heap) (dest src : bitmap_ptr) : Option heap :=
  if dest.width = src.width ∧ dest.height = src.height then
    some ((List.range dest.height).foldl (fun h y =>
      (List.range dest.width).foldl (fun h x =>
        (List.range 3).foldl (bitmap_add_step dest src y x) h) h) h)
  else none

/-- The function `bitmap_add_with_crop` on the memory. -/
def bitmap_add_with_crop (h : heap) (dest src : bitmap_ptr) (x y : Int) : Option heap :=
  if uadd (to_unsigned x) src.width ≤ 0 ∨ uadd (to_unsigned y) src.height ≤ 0 ∨
      to_unsigned x ≥ dest.width ∨ to_unsigned y ≥ dest.height then some h
  else
    let sub_x := crop_sub_pos x
    let sub_y := crop_sub_pos y
    let sub_width := crop_sub_size dest.width src.width x
    let sub_height := crop_sub_size dest.height src.height y
    match bitmap_sub src sub_x sub_y sub_width sub_height with
    | none => none
    | some cropped_src =>
      match bitmap_sub dest (uadd (to_unsigned x) sub_x) (uadd (to_unsigned y) sub_y)
          sub_width sub_height with
      | none => none
      | some cropped_dest => bitmap_add h cropped_dest cropped_src

/-- The function `scale_circle` on the memory: the sprite and the memory after
the call. -/
def scale_circle (scale : bitmap_t → Nat → Nat → bitmap_t) (circle : bitmap_ptr) (h : heap)
    (size : α) : Option (bitmap_ptr × heap) :=
  if size ≤ 1 then
    match bitmap_set_pixel (bitmap_new_empty h 1 1).2 (bitmap_new_empty h 1 1).1 0 0
        (scale_gray size) (scale_gray size) (scale_gray size) with
    | none => none
    | some h2 => some ((bitmap_new_empty h 1 1).1, h2)
  else
    if canvas_sub_size size ≥ CIRCLE_SIZE then
      match bitmap_sub circle (canvas_border size) (canvas_border size)
          (canvas_sub_size size) (canvas_sub_size size) with
      | none => none
      | some canvas_sub =>
        some (bitmap_scale scale h canvas_sub (canvas_real_pixel_size size)
          (canvas_real_pixel_size size))
    else none

/-- The body of the loop of `render_frame` on the memory. -/
def render_star (scale : bitmap_t → Nat → Nat → bitmap_t) (sqrtf : α → α)
    (circle : bitmap_ptr) (pos : α) (canvas : bitmap_ptr) (h : heap) (s : star_t α) :
    Option heap :=
  if cull_test (star_vx s.x (star_dz pos s.z)) (star_vy s.y (star_dz pos s.z)) then
    match scale_circle scale circle h (apparent_size sqrtf s.x s.y (star_dz pos s.z)) with
    | none => none
    | some (star, h1) =>
      bitmap_add_with_crop h1 canvas star
        (float_to_int (star_vx s.x (star_dz pos s.z) - (star.width : α) / 2))
        (float_to_int (star_vy s.y (star_dz pos s.z) - (star.width : α) / 2))
  else some h

/-- The function `render_frame` on the memory: the image it returns and the
memory after the call. -/
def render_frame (scale : bitmap_t → Nat → Nat → bitmap_t) (sqrtf : α → α)
    (stars : List (star_t α)) (circle : bitmap_ptr) (h : heap) (frame : Int) :
    Option (bitmap_ptr × heap) :=
  match stars.foldlM (render_star scale sqrtf circle (frame_pos frame)
      (bitmap_new_empty h FULL_WIDTH FULL_HEIGHT).1)
      (bitmap_new_empty h FULL_WIDTH FULL_HEIGHT).2 with
  | none => none
  | some h2 =>
    some (bitmap_scale scale h2 (bitmap_new_empty h FULL_WIDTH FULL_HEIGHT).1
      OUTPUT_WIDTH OUTPUT_HEIGHT)

end Heap


/-- A pointer to a reference canvas of 128x128 pixels in allocation 0. -/
def sample_disc : bitmap_ptr :=
  { width := 128, height := 128, pixel_stride := 3, row_stride := 384, alloc := 0, data := 0 }


/-- A stand-in for `bitmap_scale`: a new packed RGB bitmap of the requested
size whose pixel `(u, v)` is the pixel of the source nearest to it (nearest
neighbour resampling). -/
def scale_nearest (b : bitmap_t) (width height : Nat) : bitmap_t :=
  { width := width, height := height, pixel_stride := 3, row_stride := 3 * width, data := 0,
    mem := fun a => b.get (a % (3 * width) / 3 * b.width / width)
      (a / (3 * width) * b.height / height) (a % 3) }

/-- A memory whose allocation 0 holds the bytes that `init_circle` leaves in
the reference canvas. -/
def disc_heap : heap :=
  { bytes := fun a => if a = 0 then init_circle_loops ℚ else fun _ => 0, next := 1 }

end Floats

/-! ## Loops that write bytes -/

/-- A loop nest over a product of lists is one loop over the pairs. -/
theorem foldl_product {β κ ι : Type} (f : β → κ × ι → β) (l1 : List κ) (l2 : List ι) (m : β) :
    (l1.product l2).foldl f m = l1.foldl (fun m a => l2.foldl (fun m b => f m (a, b)) m) m := by
  induction l1 generalizing m with
  | nil => rfl
  | cons a t ih =>
    simp only [List.product, List.flatMap_cons, List.foldl_append, List.foldl_map,
      List.foldl_cons] at ih ⊢
    exact ih _

/-- A byte that no iteration addresses keeps its value. -/
theorem foldl_write_frame {κ : Type} (addr : κ → Nat) (val : κ → Fin 256 → Fin 256)
    (l : List κ) (m : Nat → Fin 256) (a : Nat) (ha : ∀ k ∈ l, addr k ≠ a) :
    l.foldl (fun (m : Nat → Fin 256) k => Function.update m (addr k) (val k (m (addr k)))) m a = m a := by
  induction l generalizing m with
  | nil => rfl
  | cons k t ih =>
    rw [List.foldl_cons, ih _ (fun k1 hk1 => ha k1 (List.mem_cons_of_mem _ hk1))]
    exact Function.update_noteq (Ne.symm (ha k (List.mem_cons_self _ _))) _ _

/-- A byte that exactly one iteration addresses holds the value that this
iteration computes from the initial one. -/
theorem foldl_write_hit {κ : Type} (addr : κ → Nat) (val : κ → Fin 256 → Fin 256)
    (l : List κ) (m : Nat → Fin 256) (hnd : l.Nodup)
    (hinj : ∀ k ∈ l, ∀ k1 ∈ l, addr k = addr k1 → k = k1) (k : κ) (hk : k ∈ l) :
    l.foldl (fun (m : Nat → Fin 256) k => Function.update m (addr k) (val k (m (addr k)))) m (addr k)
      = val k (m (addr k)) := by
  induction l generalizing m with
  | nil => cases hk
  | cons k0 t ih =>
    rw [List.foldl_cons]
    have hnd0 := List.nodup_cons.mp hnd
    by_cases hkk : k = k0
    · subst hkk
      rw [foldl_write_frame]
      · exact Function.update_same _ _ _
      · intro k1 hk1 heq
        have := hinj k1 (List.mem_cons_of_mem _ hk1) k (List.mem_cons_self _ _) heq
        exact hnd0.1 (this ▸ hk1)
    · have hkt : k ∈ t := by
        rcases List.mem_cons.mp hk with h | h
        · exact absurd h hkk
        · exact h
      rw [ih _ hnd0.2 (fun a ha b hb => hinj a (List.mem_cons_of_mem _ ha) b
        (List.mem_cons_of_mem _ hb)) hkt]
      have hne : addr k ≠ addr k0 := fun heq =>
        hkk (hinj k hk k0 (List.mem_cons_self _ _) heq)
      rw [Function.update_noteq hne]

/-- What a nest of three loops that writes one byte per iteration leaves
behind, when distinct iterations address distinct bytes. -/
theorem loops_write (addr : Nat → Nat → Nat → Nat) (val : Nat → Nat → Nat → Fin 256 → Fin 256)
    (h w : Nat) (m : Nat → Fin 256)
    (hinj : ∀ y x i y1 x1 i1, y < h → x < w → i < 3 → y1 < h → x1 < w → i1 < 3 →
      addr y x i = addr y1 x1 i1 → y = y1 ∧ x = x1 ∧ i = i1) :
    (∀ y x i, y < h → x < w → i < 3 →
      (List.range h).foldl (fun m y => (List.range w).foldl (fun m x =>
        (List.range 3).foldl (fun (m : Nat → Fin 256) i =>
          Function.update m (addr y x i) (val y x i (m (addr y x i)))) m) m) m (addr y x i)
        = val y x i (m (addr y x i))) ∧
    (∀ a, (∀ y x i, y < h → x < w → i < 3 → addr y x i ≠ a) →
      (List.range h).foldl (fun m y => (List.range w).foldl (fun m x =>
        (List.range 3).foldl (fun (m : Nat → Fin 256) i =>
          Function.update m (addr y x i) (val y x i (m (addr y x i)))) m) m) m a = m a) := by
  have hflat : (List.range h).foldl (fun m y => (List.range w).foldl (fun m x =>
        (List.range 3).foldl (fun (m : Nat → Fin 256) i =>
          Function.update m (addr y x i) (val y x i (m (addr y x i)))) m) m) m
      = ((List.range h).product ((List.range w).product (List.range 3))).foldl
          (fun (m : Nat → Fin 256) (k : Nat × Nat × Nat) =>
            Function.update m (addr k.1 k.2.1 k.2.2)
              (val k.1 k.2.1 k.2.2 (m (addr k.1 k.2.1 k.2.2)))) m := by
    rw [foldl_product]
    congr 1
    funext m y
    rw [foldl_product]
  rw [hflat]
  have hmem : ∀ k : Nat × Nat × Nat,
      k ∈ (List.range h).product ((List.range w).product (List.range 3)) ↔
        k.1 < h ∧ k.2.1 < w ∧ k.2.2 < 3 := by
    rintro ⟨y, x, i⟩
    simp [List.mem_product, List.mem_range]
  constructor
  · intro y x i hy hx hi
    have hnd : ((List.range h).product ((List.range w).product (List.range 3))).Nodup :=
      (List.nodup_range h).product ((List.nodup_range w).product (List.nodup_range 3))
    exact foldl_write_hit (fun k : Nat × Nat × Nat => addr k.1 k.2.1 k.2.2)
      (fun k : Nat × Nat × Nat => val k.1 k.2.1 k.2.2) _ m hnd
      (by
        rintro ⟨y0, x0, i0⟩ hk ⟨y1, x1, i1⟩ hk1 heq
        obtain ⟨a1, a2, a3⟩ := (hmem _).mp hk
        obtain ⟨b1, b2, b3⟩ := (hmem _).mp hk1
        obtain ⟨e1, e2, e3⟩ := hinj y0 x0 i0 y1 x1 i1 a1 a2 a3 b1 b2 b3 heq
        subst e1 e2 e3
        rfl)
      (y, x, i) ((hmem _).mpr ⟨hy, hx, hi⟩)
  · intro a ha
    exact foldl_write_frame (fun k : Nat × Nat × Nat => addr k.1 k.2.1 k.2.2)
      (fun k : Nat × Nat × Nat => val k.1 k.2.1 k.2.2) _ m a
      (by
        rintro ⟨y0, x0, i0⟩ hk
        obtain ⟨a1, a2, a3⟩ := (hmem _).mp hk
        exact ha y0 x0 i0 a1 a2 a3)

/-! ## Addresses of the bytes of a bitmap -/

theorem lin_inj (s a b a1 b1 : Nat) (hb : b < s) (hb1 : b1 < s)
    (h : a * s + b = a1 * s + b1) : a = a1 ∧ b = b1 := by
  have ha : a = a1 := by
    rcases Nat.lt_trichotomy a a1 with hlt | heq | hgt
    · have h1 : (a + 1) * s ≤ a1 * s := Nat.mul_le_mul_right s hlt
      have h2 : (a + 1) * s = a * s + s := by ring
      omega
    · exact heq
    · have h1 : (a1 + 1) * s ≤ a * s := Nat.mul_le_mul_right s hgt
      have h2 : (a1 + 1) * s = a1 * s + s := by ring
      omega
  subst ha
  exact ⟨rfl, by omega⟩

/-- Inside a row, the bytes of a pixel end before the row does. -/
theorem pixel_in_row (b : bitmap_t) (hwf : b.wf) (x i : Nat) (hx : x < b.width) (hi : i < 3) :
    x * b.pixel_stride + i < b.row_stride := by
  obtain ⟨h3, hrow, -, -, -⟩ := hwf
  have h1 : (x + 1) * b.pixel_stride ≤ b.width * b.pixel_stride := Nat.mul_le_mul_right _ hx
  have h2 : (x + 1) * b.pixel_stride = x * b.pixel_stride + b.pixel_stride := by ring
  omega

/-- The index of a byte of a pixel inside the bitmap does not wrap. -/
theorem index_eq (b : bitmap_t) (hwf : b.wf) (x y i : Nat) (hx : x < b.width)
    (hy : y < b.height) (hi : i < 3) :
    b.index x y i = y * b.row_stride + x * b.pixel_stride + i := by
  have hrow := pixel_in_row b hwf x i hx hi
  obtain ⟨-, -, hsz, -, -⟩ := hwf
  have h1 : (y + 1) * b.row_stride ≤ b.height * b.row_stride := Nat.mul_le_mul_right _ hy
  have h2 : (y + 1) * b.row_stride = y * b.row_stride + b.row_stride := by ring
  unfold bitmap_t.index UINT_MOD
  apply Nat.mod_eq_of_lt
  omega

/-- Distinct channels of pixels inside the bitmap occupy distinct bytes. -/
theorem index_inj (b : bitmap_t) (hwf : b.wf) (x y i x1 y1 i1 : Nat) (hx : x < b.width)
    (hy : y < b.height) (hi : i < 3) (hx1 : x1 < b.width) (hy1 : y1 < b.height) (hi1 : i1 < 3)
    (h : b.index x y i = b.index x1 y1 i1) : x = x1 ∧ y = y1 ∧ i = i1 := by
  rw [index_eq b hwf x y i hx hy hi, index_eq b hwf x1 y1 i1 hx1 hy1 hi1] at h
  have hr := pixel_in_row b hwf x i hx hi
  have hr1 := pixel_in_row b hwf x1 i1 hx1 hi1
  have h3 : 3 ≤ b.pixel_stride := hwf.1
  obtain ⟨hyy, hrest⟩ := lin_inj b.row_stride y (x * b.pixel_stride + i) y1
    (x1 * b.pixel_stride + i1) hr hr1 (by omega)
  obtain ⟨hxx, hii⟩ := lin_inj b.pixel_stride x i x1 i1 (by omega) (by omega) hrest
  exact ⟨hxx, hyy, hii⟩

/-! ## Saturating addition -/

/-- The value that `bitmap_add` stores is the sum of the two channels, capped
at 255. -/
theorem sat_value (a b : Fin 256) :
    (to_uchar (if uadd a.val b.val > 255 then 255 else uadd a.val b.val)).val
      = min 255 (a.val + b.val) := by
  have ha := a.isLt
  have hb := b.isLt
  have hu : uadd a.val b.val = a.val + b.val := by
    unfold uadd UINT_MOD
    omega
  rw [hu]
  unfold to_uchar
  split
  · show 255 % 256 = _
    omega
  · show (a.val + b.val) % 256 = _
    omega

/-- The bytes that the loops of `bitmap_add` leave behind. -/
theorem bitmap_add_loops_spec (dest src : bitmap_t) (hwf : dest.wf) :
    (∀ x y i, x < dest.width → y < dest.height → i < 3 →
      (bitmap_add_loops dest src (dest.data + dest.index x y i)).val
        = min 255 ((dest.get x y i).val + (src.get x y i).val)) ∧
    (∀ a, (∀ x y i, x < dest.width → y < dest.height → i < 3 →
        dest.data + dest.index x y i ≠ a) → bitmap_add_loops dest src a = dest.mem a) := by
  have hinj : ∀ y x i y1 x1 i1, y < dest.height → x < dest.width → i < 3 → y1 < dest.height →
      x1 < dest.width → i1 < 3 →
      dest.data + dest.index x y i = dest.data + dest.index x1 y1 i1 →
      y = y1 ∧ x = x1 ∧ i = i1 := by
    intro y x i y1 x1 i1 hy hx hi hy1 hx1 hi1 heq
    obtain ⟨e1, e2, e3⟩ := index_inj dest hwf x y i x1 y1 i1 hx hy hi hx1 hy1 hi1 (by omega)
    exact ⟨e2, e1, e3⟩
  obtain ⟨hhit, hframe⟩ := loops_write (fun y x i => dest.data + dest.index x y i)
    (fun y x i old => to_uchar
      (if uadd old.val (src.mem (src.data + src.index x y i)).val > 255 then 255
        else uadd old.val (src.mem (src.data + src.index x y i)).val))
    dest.height dest.width dest.mem hinj
  constructor
  · intro x y i hx hy hi
    have := hhit y x i hy hx hi
    unfold bitmap_add_loops bitmap_add_step
    rw [this]
    exact sat_value _ _
  · intro a ha
    exact hframe a (fun y x i hy hx hi => ha x y i hx hy hi)

/-- C1: for bitmaps of equal width and height (the destination laid out as an
RGB bitmap), `bitmap_add` succeeds, keeps the dimensions, and leaves in every
channel of every pixel of the destination the minimum of 255 and the sum of the
old destination value and the source value; the value is at most 255. -/
theorem bitmap_add_saturates (dest src : bitmap_t) (hwf : dest.wf)
    (hw : dest.width = src.width) (hh : dest.height = src.height) :
    ∃ d, bitmap_add dest src = some d ∧ d.width = dest.width ∧ d.height = dest.height ∧
      ∀ x y i, x < dest.width → y < dest.height → i < 3 →
        (d.get x y i).val = min 255 ((dest.get x y i).val + (src.get x y i).val) ∧
        (d.get x y i).val ≤ 255 := by
  refine ⟨{ dest with mem := bitmap_add_loops dest src }, ?_, rfl, rfl, ?_⟩
  · unfold bitmap_add
    rw [if_pos ⟨hw, hh⟩]
  · intro x y i hx hy hi
    have h := (bitmap_add_loops_spec dest src hwf).1 x y i hx hy hi
    have hget : ({ dest with mem := bitmap_add_loops dest src } : bitmap_t).get x y i
        = bitmap_add_loops dest src (dest.data + dest.index x y i) := rfl
    rw [hget, h]
    exact ⟨rfl, Nat.min_le_left _ _⟩

/-- Adding the channel value 100 to the channel value 200 gives 255, not the
wrapped 44. -/
theorem bitmap_add_saturates_witness :
    ∃ d, bitmap_add gray200 gray100 = some d ∧ (d.get 0 0 0).val = 255 := by
  obtain ⟨d, hd, -, -, hpix⟩ := bitmap_add_saturates gray200 gray100 (by decide) rfl rfl
  exact ⟨d, hd, (hpix 0 0 0 (by decide) (by decide) (by decide)).1⟩

/-! ## Clipped compositing -/

theorem to_unsigned_natCast (n : Nat) (hn : n < 4294967296) : to_unsigned (n : Int) = n := by
  unfold to_unsigned
  omega

theorem crop_sub_pos_natCast (n : Nat) : crop_sub_pos (n : Int) = 0 := by
  unfold crop_sub_pos
  rw [if_pos (by omega)]

/-- For an offset inside the destination the extent of the sub-rectangle is the
part of the source that fits. -/
theorem crop_sub_size_natCast (dest_size src_size n : Nat) (hn : n < dest_size)
    (hd : dest_size < 2147483648) (hs : src_size < 2147483648) :
    crop_sub_size dest_size src_size (n : Int) = min src_size (dest_size - n) := by
  unfold crop_sub_size
  rw [crop_sub_pos_natCast, to_unsigned_natCast n (by omega)]
  unfold uadd usub UINT_MOD
  split <;> omega

/-- The view that `bitmap_sub` makes of a rectangle inside a bitmap has the
layout of an RGB bitmap, and its pixels are the pixels of the rectangle. -/
theorem view_spec (b : bitmap_t) (hwf : b.wf) (x y w h : Nat) (hx : x + w ≤ b.width)
    (hy : y + h ≤ b.height) :
    ∃ v, bitmap_sub b x y w h = some v ∧ v.wf ∧ v.width = w ∧ v.height = h ∧ v.mem = b.mem ∧
      ∀ u t i, u < w → t < h → i < 3 →
        v.data + v.index u t i = b.data + b.index (x + u) (y + t) i := by
  refine ⟨{ width := w, height := h, pixel_stride := b.pixel_stride,
            row_stride := b.row_stride,
            data := b.data + (y * b.row_stride + x * b.pixel_stride), mem := b.mem },
    ?_, ?_, rfl, rfl, rfl, ?_⟩
  · unfold bitmap_sub
    rw [if_pos ⟨hx, hy⟩]
  · obtain ⟨h3, hrow, hsz, hw31, hh31⟩ := hwf
    refine ⟨h3, ?_, ?_, ?_, ?_⟩
    · have : w * b.pixel_stride ≤ b.width * b.pixel_stride :=
        Nat.mul_le_mul_right _ (by omega)
      exact le_trans this hrow
    · have : h * b.row_stride ≤ b.height * b.row_stride :=
        Nat.mul_le_mul_right _ (by omega)
      exact le_trans this hsz
    · show w < 2147483648
      omega
    · show h < 2147483648
      omega
  · intro u t i hu ht hi
    have e1 := index_eq b hwf (x + u) (y + t) i (by omega) (by omega) hi
    have hmod : ∀ k : Nat, k % UINT_MOD ≤ k := fun k => Nat.mod_le _ _
    have e2 : (t * b.row_stride + u * b.pixel_stride + i) % UINT_MOD
        = t * b.row_stride + u * b.pixel_stride + i := by
      apply Nat.mod_eq_of_lt
      have hlt : b.index (x + u) (y + t) i < UINT_MOD := Nat.mod_lt _ (by decide)
      rw [e1] at hlt
      have e3 : (y + t) * b.row_stride + (x + u) * b.pixel_stride
          = y * b.row_stride + x * b.pixel_stride
            + (t * b.row_stride + u * b.pixel_stride) := by ring
      omega
    show b.data + (y * b.row_stride + x * b.pixel_stride)
        + (t * b.row_stride + u * b.pixel_stride + i) % UINT_MOD = _
    rw [e1, e2]
    ring

/-- A view of a rectangle at the corner of a bitmap shows the pixels of the
bitmap. -/
theorem corner_view_spec (b : bitmap_t) (w h : Nat) (hw : w ≤ b.width) (hh : h ≤ b.height) :
    ∃ v, bitmap_sub b 0 0 w h = some v ∧ v.width = w ∧ v.height = h ∧
      ∀ u t i, v.get u t i = b.get u t i := by
  refine ⟨{ width := w, height := h, pixel_stride := b.pixel_stride,
            row_stride := b.row_stride,
            data := b.data + (0 * b.row_stride + 0 * b.pixel_stride), mem := b.mem },
    ?_, rfl, rfl, ?_⟩
  · unfold bitmap_sub
    rw [if_pos ⟨by omega, by omega⟩]
  · intro u t i
    unfold bitmap_t.get bitmap_t.index
    simp

/-- The effect of `bitmap_add_with_crop` for an offset inside the destination:
the sub-rectangles lie inside both bitmaps, the call succeeds, the pixels that
the source covers hold the saturating sum and the others keep their value. -/
theorem crop_inside_spec (dest src : bitmap_t) (x y : Int) (hwf : dest.wf)
    (hsw : src.width < 2147483648) (hsh : src.height < 2147483648)
    (hx0 : 0 ≤ x) (hx1 : x < dest.width) (hy0 : 0 ≤ y) (hy1 : y < dest.height) :
    (crop_sub_pos x + crop_sub_size dest.width src.width x ≤ src.width ∧
     crop_sub_pos y + crop_sub_size dest.height src.height y ≤ src.height ∧
     uadd (to_unsigned x) (crop_sub_pos x) + crop_sub_size dest.width src.width x
       ≤ dest.width ∧
     uadd (to_unsigned y) (crop_sub_pos y) + crop_sub_size dest.height src.height y
       ≤ dest.height) ∧
    ∃ d, bitmap_add_with_crop dest src x y = some d ∧ d.width = dest.width ∧
      d.height = dest.height ∧
      ∀ u v i, u < dest.width → v < dest.height → i < 3 →
        (d.get u v i).val =
          if x ≤ u ∧ (u : Int) < min (dest.width : Int) (x + src.width) ∧
             y ≤ v ∧ (v : Int) < min (dest.height : Int) (y + src.height)
          then min 255 ((dest.get u v i).val + (src.get (u - x.toNat) (v - y.toNat) i).val)
          else (dest.get u v i).val := by
  lift x to ℕ using hx0 with X
  lift y to ℕ using hy0 with Y
  have hX : X < dest.width := by exact_mod_cast hx1
  have hY : Y < dest.height := by exact_mod_cast hy1
  have hw31 : dest.width < 2147483648 := hwf.2.2.2.1
  have hh31 : dest.height < 2147483648 := hwf.2.2.2.2
  have eX := to_unsigned_natCast X (by omega)
  have eY := to_unsigned_natCast Y (by omega)
  have eW := crop_sub_size_natCast dest.width src.width X hX hw31 hsw
  have eH := crop_sub_size_natCast dest.height src.height Y hY hh31 hsh
  have ua : ∀ n : Nat, n < 2147483648 → uadd n 0 = n := by
    intro n hn
    unfold uadd UINT_MOD
    omega
  rw [crop_sub_pos_natCast, crop_sub_pos_natCast, eW, eH, eX, eY, ua X (by omega),
    ua Y (by omega)]
  refine ⟨by omega, ?_⟩
  by_cases hg : crop_outside dest src X Y
  · refine ⟨dest, ?_, rfl, rfl, ?_⟩
    · unfold bitmap_add_with_crop
      rw [if_pos hg]
    · intro u v i hu hv hi
      unfold crop_outside uadd UINT_MOD at hg
      rw [eX, eY] at hg
      rw [if_neg (by omega)]
  · obtain ⟨vs, hvs, hvsw, hvsh, hvsget⟩ := corner_view_spec src
      (min src.width (dest.width - X)) (min src.height (dest.height - Y))
      (Nat.min_le_left _ _) (Nat.min_le_left _ _)
    obtain ⟨vd, hvd, hvdwf, hvdw, hvdh, hvdm, hvda⟩ := view_spec dest hwf X Y
      (min src.width (dest.width - X)) (min src.height (dest.height - Y))
      (by omega) (by omega)
    obtain ⟨hhit, hframe⟩ := bitmap_add_loops_spec vd vs hvdwf
    refine ⟨{ dest with mem := bitmap_add_loops vd vs }, ?_, rfl, rfl, ?_⟩
    · unfold bitmap_add_with_crop
      rw [if_neg hg]
      simp only [crop_sub_pos_natCast, eW, eH, eX, eY, ua X (by omega), ua Y (by omega), hvs,
        hvd]
      unfold bitmap_add
      rw [if_pos ⟨by rw [hvdw, hvsw], by rw [hvdh, hvsh]⟩]
    · intro u v i hu hv hi
      have hget : ({ dest with mem := bitmap_add_loops vd vs } : bitmap_t).get u v i
          = bitmap_add_loops vd vs (dest.data + dest.index u v i) := rfl
      rw [hget]
      by_cases hin : (X : Int) ≤ u ∧ (u : Int) < min (dest.width : Int) (X + src.width) ∧
          (Y : Int) ≤ v ∧ (v : Int) < min (dest.height : Int) (Y + src.height)
      · rw [if_pos hin]
        have hu1 : u - X < min src.width (dest.width - X) := by omega
        have hv1 : v - Y < min src.height (dest.height - Y) := by omega
        have ha := hvda (u - X) (v - Y) i hu1 hv1 hi
        have hxu : X + (u - X) = u := by omega
        have hyv : Y + (v - Y) = v := by omega
        rw [hxu, hyv] at ha
        have := hhit (u - X) (v - Y) i (by rw [hvdw]; exact hu1) (by rw [hvdh]; exact hv1) hi
        rw [ha] at this
        rw [this, hvsget]
        have hdg : vd.get (u - X) (v - Y) i = dest.get u v i := by
          unfold bitmap_t.get
          rw [ha, hvdm]
        rw [hdg]
        simp
      · rw [if_neg hin, hframe, hvdm]
        · rfl
        · intro u1 v1 i1 hu1 hv1 hi1 heq
          rw [hvdw] at hu1
          rw [hvdh] at hv1
          rw [hvda u1 v1 i1 hu1 hv1 hi1] at heq
          obtain ⟨e1, e2, -⟩ := index_inj dest hwf (X + u1) (Y + v1) i1 u v i (by omega)
            (by omega) hi1 hu hv hi (by omega)
          apply hin
          omega

/-- C3: for an offset inside the destination, `bitmap_add_with_crop` requests
sub-rectangles inside both bitmaps, succeeds, adds the source with saturation
to the destination pixels that the source covers (the source cut at the right
and bottom edge of the destination), and leaves every other pixel of the
destination unchanged. -/
theorem bitmap_add_with_crop_inside (dest src : bitmap_t) (x y : Int) (hwf : dest.wf)
    (hsw : src.width < 2147483648) (hsh : src.height < 2147483648)
    (hx0 : 0 ≤ x) (hx1 : x < dest.width) (hy0 : 0 ≤ y) (hy1 : y < dest.height) :
    (crop_sub_pos x + crop_sub_size dest.width src.width x ≤ src.width ∧
     crop_sub_pos y + crop_sub_size dest.height src.height y ≤ src.height ∧
     uadd (to_unsigned x) (crop_sub_pos x) + crop_sub_size dest.width src.width x
       ≤ dest.width ∧
     uadd (to_unsigned y) (crop_sub_pos y) + crop_sub_size dest.height src.height y
       ≤ dest.height) ∧
    ∃ d, bitmap_add_with_crop dest src x y = some d ∧ d.width = dest.width ∧
      d.height = dest.height ∧
      ∀ u v i, u < dest.width → v < dest.height → i < 3 →
        (d.get u v i).val =
          if x ≤ u ∧ (u : Int) < min (dest.width : Int) (x + src.width) ∧
             y ≤ v ∧ (v : Int) < min (dest.height : Int) (y + src.height)
          then min 255 ((dest.get u v i).val + (src.get (u - x.toNat) (v - y.toNat) i).val)
          else (dest.get u v i).val :=
  crop_inside_spec dest src x y hwf hsw hsh hx0 hx1 hy0 hy1

/-- A white 4x4 source at offset (8, 8) on a black 10x10 destination extends
past the right and bottom edge: pixel (9, 9) turns white, pixel (7, 9) stays
black. -/
theorem bitmap_add_with_crop_inside_witness :
    ∃ d, bitmap_add_with_crop black10 white4 8 8 = some d ∧
      (d.get 9 9 0).val = 255 ∧ (d.get 7 9 0).val = 0 := by
  obtain ⟨-, d, hd, -, -, hpix⟩ := bitmap_add_with_crop_inside black10 white4 8 8
    (by decide) (by decide) (by decide) (by decide) (by decide) (by decide) (by decide)
  refine ⟨d, hd, ?_, ?_⟩
  · have h := hpix 9 9 0 (by decide) (by decide) (by decide)
    rw [if_pos (by decide)] at h
    exact h
  · have h := hpix 7 9 0 (by decide) (by decide) (by decide)
    rw [if_neg (by decide)] at h
    exact h

/-- The guard of `bitmap_add_with_crop` holds when the source, placed at the
offset, does not overlap the destination. -/
theorem crop_outside_of_disjoint (dest src : bitmap_t) (x y : Int)
    (hw : dest.width < 2147483648) (hh : dest.height < 2147483648)
    (hx : -2147483648 ≤ x ∧ x < 2147483648) (hy : -2147483648 ≤ y ∧ y < 2147483648)
    (h : x + src.width ≤ 0 ∨ y + src.height ≤ 0 ∨ x ≥ dest.width ∨ y ≥ dest.height) :
    crop_outside dest src x y := by
  unfold crop_outside uadd to_unsigned UINT_MOD
  omega

/-- C4: when the source placed at the offset does not overlap the destination
(as mathematical integers), `bitmap_add_with_crop` returns without error and
the destination is unchanged. -/
theorem bitmap_add_with_crop_disjoint (dest src : bitmap_t) (x y : Int)
    (hw : dest.width < 2147483648) (hh : dest.height < 2147483648)
    (hx : -2147483648 ≤ x ∧ x < 2147483648) (hy : -2147483648 ≤ y ∧ y < 2147483648)
    (h : x + src.width ≤ 0 ∨ y + src.height ≤ 0 ∨ x ≥ dest.width ∨ y ≥ dest.height) :
    bitmap_add_with_crop dest src x y = some dest := by
  unfold bitmap_add_with_crop
  rw [if_pos (crop_outside_of_disjoint dest src x y hw hh hx hy h)]

/-- A white 4x4 source far to the right of a black 10x10 destination leaves the
destination as it is. -/
theorem bitmap_add_with_crop_disjoint_witness :
    bitmap_add_with_crop black10 white4 25 3 = some black10 :=
  bitmap_add_with_crop_disjoint black10 white4 25 3 (by decide) (by decide)
    (by decide) (by decide) (by decide)

/-- C2, the code at the failing input: with a white 4x4 source at offset
(-2, -2) on a black 10x10 destination the guard of `bitmap_add_with_crop`
holds, because `x >= dest->width` compares `(unsigned) -2` with 10; the call
returns at once and pixel (0, 0), which the source covers with its white pixel
(2, 2), stays black. -/
theorem bitmap_add_with_crop_negative_offset :
    to_unsigned (-2) = 4294967294 ∧
    bitmap_add_with_crop black10 white4 (-2) (-2) = some black10 ∧
    (black10.get 0 0 0).val = 0 ∧ (white4.get 2 2 0).val = 255 := by
  refine ⟨by decide, ?_, rfl, rfl⟩
  unfold bitmap_add_with_crop
  rw [if_pos (by decide)]

/-! ## Sprites -/

section FloatTheorems

variable {α : Type} [LinearOrderedField α] [FloorRing α]

/-- The single pixel that `scale_circle` makes for a small star. -/
theorem set_single_pixel (g : Fin 256) :
    ∃ d, bitmap_set_pixel (bitmap_new_empty 1 1) 0 0 g g g = some d ∧ d.width = 1 ∧
      d.height = 1 ∧ ∀ i, i < 3 → d.get 0 0 i = g := by
  refine ⟨_, rfl, rfl, rfl, ?_⟩
  intro i hi
  interval_cases i <;> rfl

/-- C5, as the code has it: for an apparent size `s` with `0 ≤ s ≤ 1`,
`scale_circle` returns a 1x1 image whose three channels all equal `s * 255`
with its fractional part discarded (the floor, not the nearest integer). -/
theorem scale_circle_small (bitmap_scale : bitmap_t → Nat → Nat → bitmap_t)
    (circle : bitmap_t) (s : α) (_h0 : 0 ≤ s) (h1 : s ≤ 1) :
    ∃ d, scale_circle bitmap_scale circle s = some d ∧ d.width = 1 ∧ d.height = 1 ∧
      ∀ i, i < 3 → (d.get 0 0 i).val = Nat.floor (s * 255) := by
  obtain ⟨d, hd, hw, hh, hpix⟩ := set_single_pixel (scale_gray s)
  refine ⟨d, ?_, hw, hh, ?_⟩
  · unfold scale_circle
    rw [if_pos h1]
    exact hd
  · intro i hi
    rw [hpix i hi]
    have hle : Nat.floor (s * 255) ≤ 255 := Nat.floor_le_of_le (by
      push_cast
      nlinarith)
    show Nat.floor (s * 255) % 256 = _
    omega

/-- The apparent size 0.5 gives the gray value 127. -/
theorem scale_circle_small_witness :
    ∃ d, scale_circle (fun b _ _ => b) (bitmap_new_empty 128 128) (1 / 2 : ℚ) = some d ∧
      d.width = 1 ∧ d.height = 1 ∧
      ∀ i, i < 3 → (d.get 0 0 i).val = Nat.floor ((1 / 2 : ℚ) * 255) :=
  scale_circle_small (fun b _ _ => b) (bitmap_new_empty 128 128) (1 / 2 : ℚ)
    (by norm_num) (by norm_num)

/-- C5 fails as stated: for the apparent size 0.5 the gray value that
`scale_circle` stores is 127, while `0.5 * 255` rounded to the nearest
integer is 128. -/
theorem scale_circle_half_not_rounded :
    ∃ d, scale_circle (fun b _ _ => b) (bitmap_new_empty 128 128) (1 / 2 : ℚ) = some d ∧
      (d.get 0 0 0).val = 127 ∧ round ((1 / 2 : ℚ) * 255) = 128 ∧
      ((d.get 0 0 0).val : Int) ≠ round ((1 / 2 : ℚ) * 255) := by
  obtain ⟨d, hd, hw, hh, hpix⟩ := set_single_pixel (scale_gray (1 / 2 : ℚ))
  have hfl : Nat.floor ((1 / 2 : ℚ) * 255) = 127 := by
    rw [Nat.floor_eq_iff (by norm_num)]
    norm_num
  have hval : (d.get 0 0 0).val = 127 := by
    rw [hpix 0 (by norm_num)]
    show Nat.floor ((1 / 2 : ℚ) * 255) % 256 = 127
    rw [hfl]
  have hround : round ((1 / 2 : ℚ) * 255) = 128 := by
    rw [round_eq, Int.floor_eq_iff]
    norm_num
  refine ⟨d, ?_, hval, hround, ?_⟩
  · unfold scale_circle
    rw [if_pos (by norm_num)]
    exact hd
  · rw [hval, hround]
    decide

/-- The ideal size of the sprite is four times the apparent size. -/
theorem canvas_ideal_pixel_size_eq {α : Type} [LinearOrderedField α] (s : α) :
    canvas_ideal_pixel_size s = 4 * s := by
  unfold canvas_ideal_pixel_size CIRCLE_CANVAS_SIZE CIRCLE_SIZE
  push_cast
  ring

/-- The whole-pixel size of the sprite, as a number. -/
theorem canvas_real_pixel_size_spec (s : α) (hs : 1 < s) :
    4 ≤ canvas_real_pixel_size s ∧ ((canvas_real_pixel_size s : Nat) : α) ≤ 4 * s ∧
      4 * s < ((canvas_real_pixel_size s : Nat) : α) + 1 ∧
      (canvas_real_pixel_size s : Int) = Int.floor (canvas_ideal_pixel_size s) := by
  have hfl0 : 0 ≤ Int.floor (4 * s) := Int.floor_nonneg.mpr (by linarith)
  have hreal : canvas_real_pixel_size s = (Int.floor (4 * s)).toNat := by
    unfold canvas_real_pixel_size float_to_unsigned floorf
    rw [canvas_ideal_pixel_size_eq]
    have h : ((Int.floor (4 * s) : Int) : α) = (((Int.floor (4 * s)).toNat : Nat) : α) := by
      rw [← Int.cast_natCast, Int.toNat_of_nonneg hfl0]
    rw [h, Nat.floor_natCast]
  have hcast : ((canvas_real_pixel_size s : Nat) : α) = ((Int.floor (4 * s) : Int) : α) := by
    rw [hreal, ← Int.cast_natCast, Int.toNat_of_nonneg hfl0]
  have h4 : (4 : Int) ≤ Int.floor (4 * s) := Int.le_floor.mpr (by
    push_cast
    linarith)
  refine ⟨?_, ?_, ?_, ?_⟩
  · rw [hreal]
    omega
  · rw [hcast]
    exact Int.floor_le _
  · rw [hcast]
    exact Int.lt_floor_add_one _
  · rw [hreal, canvas_ideal_pixel_size_eq, Int.toNat_of_nonneg hfl0]

/-- C6: for every apparent size greater than 1 the side `canvas_sub_size` of
the extracted sub-region is the truncation of
`CIRCLE_CANVAS_SIZE * floor(ideal) / ideal` with
`ideal = CIRCLE_CANVAS_SIZE * s / CIRCLE_SIZE`, and it is at least
`CIRCLE_SIZE`, so the assertion of `scale_circle` holds. -/
theorem canvas_sub_size_ge_circle_size (s : α) (hs : 1 < s) :
    canvas_sub_size s = Nat.floor ((CIRCLE_CANVAS_SIZE : α) *
        ((Int.floor ((CIRCLE_CANVAS_SIZE : α) * s / (CIRCLE_SIZE : α)) : Int) : α) /
        ((CIRCLE_CANVAS_SIZE : α) * s / (CIRCLE_SIZE : α))) ∧
      CIRCLE_SIZE ≤ canvas_sub_size s := by
  obtain ⟨h4, hle, hlt, hfl⟩ := canvas_real_pixel_size_spec s hs
  constructor
  · unfold canvas_sub_size float_to_unsigned
    have e1 : (CIRCLE_CANVAS_SIZE : α) * s / (CIRCLE_SIZE : α) = canvas_ideal_pixel_size s := by
      unfold canvas_ideal_pixel_size
      ring
    rw [e1, ← hfl, Int.cast_natCast, mul_div_assoc]
  · unfold canvas_sub_size float_to_unsigned
    apply Nat.le_floor
    rw [canvas_ideal_pixel_size_eq]
    unfold CIRCLE_SIZE CIRCLE_CANVAS_SIZE
    push_cast
    have hpos : (0 : α) < 4 * s := by linarith
    rw [← mul_div_assoc, le_div_iff₀ hpos]
    nlinarith

/-- The apparent size 2 gives a sub-region of side 128. -/
theorem canvas_sub_size_ge_circle_size_witness :
    canvas_sub_size (2 : ℚ) = Nat.floor ((CIRCLE_CANVAS_SIZE : ℚ) *
        ((Int.floor ((CIRCLE_CANVAS_SIZE : ℚ) * 2 / (CIRCLE_SIZE : ℚ)) : Int) : ℚ) /
        ((CIRCLE_CANVAS_SIZE : ℚ) * 2 / (CIRCLE_SIZE : ℚ))) ∧
      CIRCLE_SIZE ≤ canvas_sub_size (2 : ℚ) :=
  canvas_sub_size_ge_circle_size (2 : ℚ) (by norm_num)

/-! ## Rounding to `float` and `double` -/

theorem round_even_intCast (n : Int) : round_even (n : α) = n := by
  unfold round_even
  simp

theorem floor_le_round_even (q : α) : Int.floor q ≤ round_even q := by
  unfold round_even
  split_ifs <;> omega

theorem round_even_le_floor_add_one (q : α) : round_even q ≤ Int.floor q + 1 := by
  unfold round_even
  split_ifs <;> omega

theorem round_even_mono {q1 q2 : α} (h : q1 ≤ q2) : round_even q1 ≤ round_even q2 := by
  have hf : Int.floor q1 ≤ Int.floor q2 := Int.floor_mono h
  rcases lt_or_eq_of_le hf with hlt | heq
  · calc round_even q1 ≤ Int.floor q1 + 1 := round_even_le_floor_add_one q1
      _ ≤ Int.floor q2 := hlt
      _ ≤ round_even q2 := floor_le_round_even q2
  · have hr : q1 - (Int.floor q1 : α) ≤ q2 - (Int.floor q2 : α) := by
      rw [heq]; linarith
    unfold round_even
    rw [heq]
    split_ifs <;> first | omega | (exfalso; linarith)

theorem abs_round_even_sub (q : α) : |((round_even q : Int) : α) - q| ≤ 1 / 2 := by
  have h1 := Int.floor_le q
  have h2 := Int.lt_floor_add_one q
  unfold round_even
  rw [abs_le]
  split_ifs <;> push_cast <;> constructor <;> linarith

theorem round_even_eq_of_near (q : α) (n : Int) (h1 : (n : α) - 1 / 2 < q)
    (h2 : q < (n : α) + 1 / 2) : round_even q = n := by
  rcases le_or_lt (n : α) q with hq | hq
  · have hf : Int.floor q = n := by
      rw [Int.floor_eq_iff]; constructor <;> linarith
    unfold round_even
    rw [hf, if_pos (by linarith)]
  · have hf : Int.floor q = n - 1 := by
      rw [Int.floor_eq_iff]; push_cast; constructor <;> linarith
    unfold round_even
    rw [hf]
    push_cast
    rw [if_neg (by linarith), if_pos (by linarith)]
    omega

theorem two_zpow_pos (e : Int) : (0 : α) < (2 : α) ^ e := zpow_pos (by norm_num) e

theorem two_zpow_le {a b : Int} (h : a ≤ b) : (2 : α) ^ a ≤ (2 : α) ^ b :=
  zpow_le_zpow_right₀ (by norm_num) h

theorem two_zpow_log_le {x : α} (hx : 0 < x) : (2 : α) ^ Int.log 2 x ≤ x := by
  have h := @Int.zpow_log_le_self α _ _ 2 x (by norm_num) hx
  simpa using h

theorem lt_two_zpow_log {x : α} : x < (2 : α) ^ (Int.log 2 x + 1) := by
  have h := @Int.lt_zpow_succ_log_self α _ _ 2 (by norm_num) x
  simpa using h

theorem log_two_lt_of_lt {x : α} {e : Int} (hx : 0 < x) (h : x < (2 : α) ^ e) :
    Int.log 2 x < e := by
  have h1 := (@Int.lt_zpow_iff_log_lt α _ _ 2 (by norm_num) e x hx).1 (by simpa using h)
  exact h1

theorem le_log_two_of_le {x : α} {e : Int} (hx : 0 < x) (h : (2 : α) ^ e ≤ x) :
    e ≤ Int.log 2 x := by
  have h1 := (@Int.zpow_le_iff_le_log α _ _ 2 (by norm_num) e x hx).1 (by simpa using h)
  exact h1

theorem log_two_eq {x : α} {e : Int} (h1 : (2 : α) ^ e ≤ x) (h2 : x < (2 : α) ^ (e + 1)) :
    Int.log 2 x = e := by
  have hx : 0 < x := lt_of_lt_of_le (two_zpow_pos e) h1
  have a := log_two_lt_of_lt hx h2
  have b := le_log_two_of_le hx h1
  omega

theorem round_mag_zero (prec : Nat) (emin : Int) : round_mag prec emin (0 : α) = 0 := by
  unfold round_mag
  rw [zero_div]
  have : round_even (0 : α) = 0 := by
    have := @round_even_intCast α _ _ 0
    simpa using this
  rw [this]
  simp

theorem round_mag_nonneg (prec : Nat) (emin : Int) {x : α} (hx : 0 ≤ x) :
    0 ≤ round_mag prec emin x := by
  unfold round_mag
  have hu := @two_zpow_pos α _ _ (ulp_exp prec emin x)
  have hq : (0 : α) ≤ x / (2 : α) ^ ulp_exp prec emin x := div_nonneg hx hu.le
  have h0 : (0 : Int) ≤ round_even (x / (2 : α) ^ ulp_exp prec emin x) :=
    le_trans (Int.floor_nonneg.2 hq) (floor_le_round_even _)
  exact mul_nonneg (by exact_mod_cast h0) hu.le

/-- A rounded magnitude does not exceed the next power of two. -/
theorem round_mag_le_top (prec : Nat) (emin : Int) (x : α) :
    round_mag prec emin x ≤ (2 : α) ^ (ulp_exp prec emin x + prec) := by
  have hu := @two_zpow_pos α _ _ (ulp_exp prec emin x)
  have hlt : x ≤ (2 : α) ^ (ulp_exp prec emin x + prec) := by
    refine le_trans (le_of_lt lt_two_zpow_log) (two_zpow_le ?_)
    unfold ulp_exp
    have := le_max_left (Int.log 2 x) emin
    omega
  have hq : x / (2 : α) ^ ulp_exp prec emin x ≤ (((2 : Int) ^ prec : Int) : α) := by
    rw [div_le_iff₀ hu]
    push_cast
    rw [zpow_add₀ (by norm_num), zpow_natCast] at hlt
    linarith
  have hr := round_even_mono hq
  rw [round_even_intCast] at hr
  unfold round_mag
  rw [zpow_add₀ (by norm_num), zpow_natCast, mul_comm ((2 : α) ^ ulp_exp prec emin x)]
  refine mul_le_mul_of_nonneg_right ?_ hu.le
  have : ((round_even (x / (2 : α) ^ ulp_exp prec emin x) : Int) : α)
      ≤ (((2 : Int) ^ prec : Int) : α) := by exact_mod_cast hr
  simpa using this

/-- A rounded normal magnitude is at least the power of two below it. -/
theorem round_mag_ge_bot (prec : Nat) (emin : Int) (hp : 1 ≤ prec) {x : α} (hx : 0 < x)
    (hn : emin ≤ Int.log 2 x) : (2 : α) ^ Int.log 2 x ≤ round_mag prec emin x := by
  have hE : ulp_exp prec emin x = Int.log 2 x - ((prec : Int) - 1) := by
    unfold ulp_exp
    rw [max_eq_left hn]
  have hu := @two_zpow_pos α _ _ (ulp_exp prec emin x)
  have hsplit : (2 : α) ^ Int.log 2 x = (2 : α) ^ (prec - 1) * (2 : α) ^ ulp_exp prec emin x := by
    rw [hE, ← zpow_natCast, ← zpow_add₀ (by norm_num)]
    congr 1
    omega
  have hq : (((2 : Int) ^ (prec - 1) : Int) : α) ≤ x / (2 : α) ^ ulp_exp prec emin x := by
    rw [le_div_iff₀ hu]
    push_cast
    rw [← hsplit]
    exact two_zpow_log_le hx
  have hr := round_even_mono hq
  rw [round_even_intCast] at hr
  unfold round_mag
  rw [hsplit]
  refine mul_le_mul_of_nonneg_right ?_ hu.le
  have : (((2 : Int) ^ (prec - 1) : Int) : α)
      ≤ ((round_even (x / (2 : α) ^ ulp_exp prec emin x) : Int) : α) := by exact_mod_cast hr
  simpa using this

theorem ulp_exp_mono (prec : Nat) (emin : Int) {x y : α} (hx : 0 < x) (h : x ≤ y) :
    ulp_exp prec emin x ≤ ulp_exp prec emin y := by
  unfold ulp_exp
  have := @Int.log_mono_right α _ _ 2 x y hx h
  have := max_le_max_right emin this
  omega

theorem round_mag_mono (prec : Nat) (emin : Int) (hp : 1 ≤ prec) {x y : α} (hx : 0 ≤ x)
    (h : x ≤ y) : round_mag prec emin x ≤ round_mag prec emin y := by
  rcases eq_or_lt_of_le hx with h0 | h0
  · rw [← h0, round_mag_zero]
    exact round_mag_nonneg prec emin (le_trans hx h)
  · have hE := ulp_exp_mono prec emin h0 h
    rcases eq_or_lt_of_le hE with he | he
    · unfold round_mag
      rw [he]
      have hu := @two_zpow_pos α _ _ (ulp_exp prec emin y)
      refine mul_le_mul_of_nonneg_right ?_ hu.le
      have : round_even (x / (2 : α) ^ ulp_exp prec emin y)
          ≤ round_even (y / (2 : α) ^ ulp_exp prec emin y) :=
        round_even_mono (div_le_div_of_nonneg_right h hu.le)
      exact_mod_cast this
    · have hy : 0 < y := lt_of_lt_of_le h0 h
      have hn : emin ≤ Int.log 2 y := by
        unfold ulp_exp at he
        by_contra hc
        rw [max_eq_right (le_of_lt (not_le.1 hc))] at he
        have := le_max_right (Int.log 2 x) emin
        omega
      have hEy : ulp_exp prec emin y = Int.log 2 y - ((prec : Int) - 1) := by
        unfold ulp_exp
        rw [max_eq_left hn]
      calc round_mag prec emin x ≤ (2 : α) ^ (ulp_exp prec emin x + prec) :=
            round_mag_le_top prec emin x
        _ ≤ (2 : α) ^ Int.log 2 y := two_zpow_le (by omega)
        _ ≤ round_mag prec emin y := round_mag_ge_bot prec emin hp hy hn

/-- A magnitude of the format is not changed by rounding. -/
theorem round_mag_eq_self (prec : Nat) (emin : Int) (x : α) (m k : Int) (hm0 : 0 ≤ m)
    (hx : x = (m : α) * (2 : α) ^ k) (hm : m < 2 ^ prec)
    (hk : emin - ((prec : Int) - 1) ≤ k) : round_mag prec emin x = x := by
  rcases eq_or_lt_of_le hm0 with h0 | h0
  · rw [hx, ← h0]
    simp [round_mag_zero]
  · have hxpos : 0 < x := by
      rw [hx]
      exact mul_pos (by exact_mod_cast h0) (two_zpow_pos k)
    have hlt : x < (2 : α) ^ (k + prec) := by
      rw [hx, zpow_add₀ (by norm_num), zpow_natCast, mul_comm]
      refine mul_lt_mul_of_pos_left ?_ (two_zpow_pos k)
      have : ((m : Int) : α) < (((2 : Int) ^ prec : Int) : α) := by exact_mod_cast hm
      simpa using this
    have hlog := log_two_lt_of_lt hxpos hlt
    have hE : ulp_exp prec emin x ≤ k := by
      unfold ulp_exp
      have : max (Int.log 2 x) emin ≤ k + ((prec : Int) - 1) := max_le (by omega) (by omega)
      omega
    obtain ⟨n, hn⟩ : ∃ n : Nat, k = ulp_exp prec emin x + n :=
      ⟨(k - ulp_exp prec emin x).toNat, by omega⟩
    have hu := @two_zpow_pos α _ _ (ulp_exp prec emin x)
    have hpow : (2 : α) ^ k = (2 : α) ^ ulp_exp prec emin x * (2 : α) ^ n := by
      nth_rewrite 1 [hn]
      rw [zpow_add₀ (by norm_num), zpow_natCast]
    have hxk : x = ((m * 2 ^ n : Int) : α) * (2 : α) ^ ulp_exp prec emin x :=
      calc x = (m : α) * (2 : α) ^ k := hx
        _ = ((m * 2 ^ n : Int) : α) * (2 : α) ^ ulp_exp prec emin x := by
          rw [hpow]; push_cast; ring
    have hq : x / (2 : α) ^ ulp_exp prec emin x = ((m * 2 ^ n : Int) : α) := by
      rw [div_eq_iff hu.ne.symm]
      exact hxk
    unfold round_mag
    rw [hq, round_even_intCast]
    exact hxk.symm

theorem abs_round_mag_sub (prec : Nat) (emin : Int) (x : α) :
    |round_mag prec emin x - x| ≤ (2 : α) ^ ulp_exp prec emin x / 2 := by
  have hu := @two_zpow_pos α _ _ (ulp_exp prec emin x)
  have h := abs_round_even_sub (x / (2 : α) ^ ulp_exp prec emin x)
  have e : round_mag prec emin x - x
      = (((round_even (x / (2 : α) ^ ulp_exp prec emin x) : Int) : α)
          - x / (2 : α) ^ ulp_exp prec emin x) * (2 : α) ^ ulp_exp prec emin x := by
    unfold round_mag
    field_simp
  rw [e, abs_mul, abs_of_pos hu]
  calc _ ≤ 1 / 2 * (2 : α) ^ ulp_exp prec emin x := mul_le_mul_of_nonneg_right h hu.le
    _ = (2 : α) ^ ulp_exp prec emin x / 2 := by ring

theorem abs_round_mag_sub_le (prec : Nat) (emin : Int) {x : α} (hx : 0 ≤ x) :
    |round_mag prec emin x - x| ≤ x * (2 : α) ^ (-(prec : Int)) + (2 : α) ^ (emin - prec) := by
  rcases eq_or_lt_of_le hx with h0 | h0
  · rw [← h0, round_mag_zero]
    simp
    exact (two_zpow_pos _).le
  · refine le_trans (abs_round_mag_sub prec emin x) ?_
    have hhalf : ∀ e : Int, (2 : α) ^ e / 2 = (2 : α) ^ (e - 1) := by
      intro e
      rw [zpow_sub_one₀ (by norm_num), div_eq_mul_inv]
    rw [hhalf]
    unfold ulp_exp
    rcases le_total emin (Int.log 2 x) with hc | hc
    · rw [max_eq_left hc]
      have e1 : Int.log 2 x - ((prec : Int) - 1) - 1 = Int.log 2 x + (-(prec : Int)) := by ring
      rw [e1, zpow_add₀ (by norm_num)]
      have := mul_le_mul_of_nonneg_right (two_zpow_log_le h0) (two_zpow_pos (-(prec : Int))).le
      have := @two_zpow_pos α _ _ (emin - prec)
      linarith
    · rw [max_eq_right hc]
      have e1 : emin - ((prec : Int) - 1) - 1 = emin - prec := by ring
      rw [e1]
      have := mul_nonneg hx (@two_zpow_pos α _ _ (-(prec : Int))).le
      linarith

/-! ### Rounding to a format -/

theorem round_to_zero (prec : Nat) (emin : Int) : round_to prec emin (0 : α) = 0 := by
  unfold round_to
  rw [if_pos le_rfl, round_mag_zero]

theorem round_to_nonneg (prec : Nat) (emin : Int) {x : α} (hx : 0 ≤ x) :
    0 ≤ round_to prec emin x := by
  unfold round_to
  rw [if_pos hx]
  exact round_mag_nonneg prec emin hx

theorem round_to_nonpos (prec : Nat) (emin : Int) {x : α} (hx : x ≤ 0) :
    round_to prec emin x ≤ 0 := by
  rcases eq_or_lt_of_le hx with h0 | h0
  · rw [h0, round_to_zero]
  · unfold round_to
    rw [if_neg (not_le.2 h0)]
    have := round_mag_nonneg prec emin (neg_nonneg.2 hx)
    linarith

theorem round_to_neg (prec : Nat) (emin : Int) (x : α) :
    round_to prec emin (-x) = -round_to prec emin x := by
  rcases lt_trichotomy x 0 with h | h | h
  · unfold round_to
    rw [if_pos (by linarith), if_neg (not_le.2 h)]
    simp
  · rw [h]
    simp [round_to_zero]
  · unfold round_to
    rw [if_neg (by linarith), if_pos h.le, neg_neg]

/-- Rounding is monotone. -/
theorem round_to_mono (prec : Nat) (emin : Int) (hp : 1 ≤ prec) {x y : α} (h : x ≤ y) :
    round_to prec emin x ≤ round_to prec emin y := by
  rcases le_or_lt 0 x with hx | hx
  · unfold round_to
    rw [if_pos hx, if_pos (le_trans hx h)]
    exact round_mag_mono prec emin hp hx h
  · rcases le_or_lt 0 y with hy | hy
    · exact le_trans (round_to_nonpos prec emin hx.le) (round_to_nonneg prec emin hy)
    · unfold round_to
      rw [if_neg (not_le.2 hx), if_neg (not_le.2 hy)]
      have := round_mag_mono prec emin hp (neg_nonneg.2 hy.le) (neg_le_neg h)
      linarith

/-- A value of the format is not changed by rounding. -/
theorem round_to_eq_self (prec : Nat) (emin : Int) {x : α} (h : representable prec emin x) :
    round_to prec emin x = x := by
  obtain ⟨m, k, hx, hm, hk⟩ := h
  rw [abs_lt] at hm
  rcases le_or_lt 0 m with h0 | h0
  · have hx0 : 0 ≤ x := by
      rw [hx]
      exact mul_nonneg (by exact_mod_cast h0) (two_zpow_pos k).le
    unfold round_to
    rw [if_pos hx0]
    exact round_mag_eq_self prec emin x m k h0 hx hm.2 hk
  · have hx0 : x < 0 := by
      rw [hx]
      exact mul_neg_of_neg_of_pos (by exact_mod_cast h0) (two_zpow_pos k)
    unfold round_to
    rw [if_neg (not_le.2 hx0)]
    have : round_mag prec emin (-x) = -x :=
      round_mag_eq_self prec emin (-x) (-m) k (by omega) (by rw [hx]; push_cast; ring)
        (by omega) hk
    rw [this, neg_neg]

theorem abs_round_to_sub_le (prec : Nat) (emin : Int) (x : α) :
    |round_to prec emin x - x| ≤ |x| * (2 : α) ^ (-(prec : Int)) + (2 : α) ^ (emin - prec) := by
  rcases le_or_lt 0 x with hx | hx
  · unfold round_to
    rw [if_pos hx, abs_of_nonneg hx]
    exact abs_round_mag_sub_le prec emin hx
  · unfold round_to
    rw [if_neg (not_le.2 hx), abs_of_neg hx]
    have := abs_round_mag_sub_le prec emin (neg_nonneg.2 hx.le)
    rw [show -round_mag prec emin (-x) - x = -(round_mag prec emin (-x) - -x) by ring, abs_neg]
    exact this

/-- The value of a rounding, from the binade of the argument and the nearest
multiple of the unit in the last place. -/
theorem round_to_eq_of_near (prec : Nat) (emin : Int) (x : α) (e n : Int)
    (h1 : (2 : α) ^ e ≤ x) (h2 : x < (2 : α) ^ (e + 1)) (he : emin ≤ e)
    (hn1 : ((n : α) - 1 / 2) * (2 : α) ^ (e - ((prec : Int) - 1)) < x)
    (hn2 : x < ((n : α) + 1 / 2) * (2 : α) ^ (e - ((prec : Int) - 1))) :
    round_to prec emin x = (n : α) * (2 : α) ^ (e - ((prec : Int) - 1)) := by
  have hx : 0 < x := lt_of_lt_of_le (two_zpow_pos e) h1
  have hE : ulp_exp prec emin x = e - ((prec : Int) - 1) := by
    unfold ulp_exp
    rw [log_two_eq h1 h2, max_eq_left he]
  have hu := @two_zpow_pos α _ _ (e - ((prec : Int) - 1))
  unfold round_to round_mag
  rw [if_pos hx.le, hE, round_even_eq_of_near _ n]
  · rw [lt_div_iff₀ hu]; exact hn1
  · rw [div_lt_iff₀ hu]; exact hn2

theorem fl32_mono {x y : α} (h : x ≤ y) : fl32 x ≤ fl32 y :=
  round_to_mono 24 (-126) (by norm_num) h

theorem fl64_mono {x y : α} (h : x ≤ y) : fl64 x ≤ fl64 y :=
  round_to_mono 53 (-1022) (by norm_num) h

theorem representable_intCast (prec : Nat) (emin : Int) (n : Int) (hn : |n| < 2 ^ prec)
    (he : emin - ((prec : Int) - 1) ≤ 0) : representable prec emin (n : α) :=
  ⟨n, 0, by simp, hn, he⟩

theorem representable_half (prec : Nat) (emin : Int) (n : Int) (hn : |n| < 2 ^ prec)
    (he : emin - ((prec : Int) - 1) ≤ -1) : representable prec emin ((n : α) / 2) :=
  ⟨n, -1, by rw [zpow_neg_one]; ring, hn, he⟩

/-- An integer of magnitude below `2 ^ 24` is a `float`. -/
theorem fl32_intCast (n : Int) (hn : |n| < 2 ^ 24) : fl32 (n : α) = n :=
  round_to_eq_self 24 (-126) (representable_intCast 24 (-126) n hn (by norm_num))

/-- An integer of magnitude below `2 ^ 53` is a `double`. -/
theorem fl64_intCast (n : Int) (hn : |n| < 2 ^ 53) : fl64 (n : α) = n :=
  round_to_eq_self 53 (-1022) (representable_intCast 53 (-1022) n hn (by norm_num))

/-- Half an integer of magnitude up to `2 ^ 24` is a `float`. -/
theorem fl32_half (n : Int) (hn : |n| ≤ 2 ^ 24) : fl32 ((n : α) / 2) = (n : α) / 2 := by
  rcases lt_or_eq_of_le hn with h | h
  · exact round_to_eq_self 24 (-126) (representable_half 24 (-126) n h (by norm_num))
  · obtain ⟨m, hm⟩ : ∃ m : Int, n = 2 * m ∧ |m| < 2 ^ 24 := by
      rcases abs_cases n with ⟨h1, _⟩ | ⟨h1, _⟩
      · exact ⟨2 ^ 23, by omega, by norm_num⟩
      · exact ⟨-2 ^ 23, by omega, by norm_num⟩
    have e : (n : α) / 2 = (m : α) := by
      rw [hm.1]; push_cast; ring
    rw [e]
    exact fl32_intCast m hm.2

/-- Half an integer of magnitude below `2 ^ 53` is a `double`. -/
theorem fl64_half (n : Int) (hn : |n| < 2 ^ 53) : fl64 ((n : α) / 2) = (n : α) / 2 :=
  round_to_eq_self 53 (-1022) (representable_half 53 (-1022) n hn (by norm_num))

/-- The rounding of a normal magnitude is a multiple of the unit in the last
place of its binade. -/
theorem round_to_grid (prec : Nat) (emin : Int) (x : α) (e : Int)
    (h1 : (2 : α) ^ e ≤ x) (h2 : x < (2 : α) ^ (e + 1)) (he : emin ≤ e) :
    ∃ n : Int, round_to prec emin x = (n : α) * (2 : α) ^ (e - ((prec : Int) - 1)) := by
  have hx : 0 < x := lt_of_lt_of_le (two_zpow_pos e) h1
  have hE : ulp_exp prec emin x = e - ((prec : Int) - 1) := by
    unfold ulp_exp
    rw [log_two_eq h1 h2, max_eq_left he]
  refine ⟨round_even (x / (2 : α) ^ (e - ((prec : Int) - 1))), ?_⟩
  unfold round_to round_mag
  rw [if_pos hx.le, hE]

/-- The rounding of a magnitude of at least `2 ^ (prec - 1)` is an integer. -/
theorem round_to_int_of_large (prec : Nat) (emin : Int) (x : α)
    (hx : (2 : α) ^ ((prec : Int) - 1) ≤ x) : ∃ N : Int, round_to prec emin x = (N : α) := by
  have hx0 : 0 < x := lt_of_lt_of_le (two_zpow_pos _) hx
  have hlog := le_log_two_of_le hx0 hx
  have hE : 0 ≤ ulp_exp prec emin x := by
    unfold ulp_exp
    have := le_max_left (Int.log 2 x) emin
    omega
  obtain ⟨n, hn⟩ : ∃ n : Nat, ulp_exp prec emin x = n := ⟨_, (Int.toNat_of_nonneg hE).symm⟩
  refine ⟨round_even (x / (2 : α) ^ ulp_exp prec emin x) * 2 ^ n, ?_⟩
  unfold round_to round_mag
  rw [if_pos hx0.le]
  push_cast
  congr 1
  rw [hn, zpow_natCast]

theorem round_even_ulp_le (prec : Nat) (emin : Int) (x : α) :
    round_even (x / (2 : α) ^ ulp_exp prec emin x) ≤ 2 ^ prec := by
  have hu := @two_zpow_pos α _ _ (ulp_exp prec emin x)
  have hlt : x ≤ (2 : α) ^ (ulp_exp prec emin x + prec) := by
    refine le_trans (le_of_lt lt_two_zpow_log) (two_zpow_le ?_)
    unfold ulp_exp
    have := le_max_left (Int.log 2 x) emin
    omega
  have hq : x / (2 : α) ^ ulp_exp prec emin x ≤ (((2 : Int) ^ prec : Int) : α) := by
    rw [div_le_iff₀ hu]
    push_cast
    rw [zpow_add₀ (by norm_num), zpow_natCast] at hlt
    linarith
  have hr := round_even_mono hq
  rw [round_even_intCast] at hr
  exact hr

theorem representable_neg (prec : Nat) (emin : Int) {x : α} (h : representable prec emin x) :
    representable prec emin (-x) := by
  obtain ⟨m, k, hx, hm, hk⟩ := h
  exact ⟨-m, k, by rw [hx]; push_cast; ring, by rwa [abs_neg], hk⟩

/-- The result of a rounding is a value of the format. -/
theorem representable_round_mag (prec : Nat) (emin : Int) (hp : 1 ≤ prec) {x : α} (hx : 0 ≤ x) :
    representable prec emin (round_mag prec emin x) := by
  have hu := @two_zpow_pos α _ _ (ulp_exp prec emin x)
  have h0 : (0 : Int) ≤ round_even (x / (2 : α) ^ ulp_exp prec emin x) :=
    le_trans (Int.floor_nonneg.2 (div_nonneg hx hu.le)) (floor_le_round_even _)
  have h1 := round_even_ulp_le prec emin x
  have hE : emin - ((prec : Int) - 1) ≤ ulp_exp prec emin x := by
    unfold ulp_exp
    have := le_max_right (Int.log 2 x) emin
    omega
  rcases lt_or_eq_of_le h1 with h | h
  · exact ⟨_, _, rfl, by rw [abs_of_nonneg h0]; exact h, hE⟩
  · refine ⟨2 ^ (prec - 1), ulp_exp prec emin x + 1, ?_, ?_, by omega⟩
    · unfold round_mag
      rw [h, zpow_add_one₀ (by norm_num)]
      push_cast
      have : (2 : α) ^ prec = (2 : α) ^ (prec - 1) * 2 := by
        rw [← pow_succ]
        congr 1
        omega
      rw [this]
      ring
    · rw [abs_of_nonneg (by positivity)]
      exact pow_lt_pow_right₀ (by norm_num) (by omega)

theorem representable_round_to (prec : Nat) (emin : Int) (hp : 1 ≤ prec) (x : α) :
    representable prec emin (round_to prec emin x) := by
  unfold round_to
  split
  · rename_i h
    exact representable_round_mag prec emin hp h
  · rename_i h
    exact representable_neg prec emin
      (representable_round_mag prec emin hp (by linarith [not_le.1 h]))

/-- A value of the format times a power of two with an exponent that is not
negative is a value of the format. -/
theorem representable_mul_two_pow (prec : Nat) (emin : Int) {x : α}
    (h : representable prec emin x) (j : Nat) : representable prec emin (x * (2 : α) ^ j) := by
  obtain ⟨m, k, hx, hm, hk⟩ := h
  refine ⟨m, k + j, ?_, hm, by omega⟩
  rw [hx, zpow_add₀ (by norm_num), zpow_natCast]
  ring

/-- A value of the format greater than 1 has an exponent of at least
`1 - prec`. -/
theorem representable_exponent (prec : Nat) (emin : Int) {x : α}
    (h : representable prec emin x) (hx : 1 < x) :
    ∃ m k : Int, x = (m : α) * (2 : α) ^ k ∧ 0 < m ∧ m < 2 ^ prec ∧ 1 - (prec : Int) ≤ k := by
  obtain ⟨m, k, hxe, hm, hk⟩ := h
  rw [abs_lt] at hm
  have hm0 : 0 < m := by
    by_contra hc
    have : (m : α) ≤ 0 := by exact_mod_cast not_lt.1 hc
    have := mul_nonpos_of_nonpos_of_nonneg this (two_zpow_pos k).le
    rw [← hxe] at this
    linarith
  refine ⟨m, k, hxe, hm0, hm.2, ?_⟩
  by_contra hc
  have hk1 : k ≤ -(prec : Int) := by omega
  have h1 : (2 : α) ^ k ≤ (2 : α) ^ (-(prec : Int)) := two_zpow_le hk1
  have h2 : (m : α) ≤ (2 : α) ^ prec := by
    have : (m : α) ≤ (((2 : Int) ^ prec : Int) : α) := by exact_mod_cast hm.2.le
    simpa using this
  have h3 : x ≤ (2 : α) ^ prec * (2 : α) ^ (-(prec : Int)) := by
    rw [hxe]
    exact mul_le_mul h2 h1 (two_zpow_pos k).le (by positivity)
  rw [← zpow_natCast, ← zpow_add₀ (by norm_num)] at h3
  simp at h3
  linarith

/-- The relative error of the rounding of a normal magnitude. -/
theorem abs_round_to_sub_le_of_normal (prec : Nat) (emin : Int) {x : α}
    (hx : (2 : α) ^ emin ≤ x) :
    |round_to prec emin x - x| ≤ x * (2 : α) ^ (-(prec : Int)) := by
  have hx0 : 0 < x := lt_of_lt_of_le (two_zpow_pos emin) hx
  have hlog := le_log_two_of_le hx0 hx
  unfold round_to
  rw [if_pos hx0.le]
  refine le_trans (abs_round_mag_sub prec emin x) ?_
  unfold ulp_exp
  rw [max_eq_left hlog, div_eq_mul_inv, ← zpow_sub_one₀ (by norm_num)]
  have e1 : Int.log 2 x - ((prec : Int) - 1) - 1 = Int.log 2 x + (-(prec : Int)) := by ring
  rw [e1, zpow_add₀ (by norm_num)]
  exact mul_le_mul_of_nonneg_right (two_zpow_log_le hx0) (two_zpow_pos _).le

/-- The value of a rounding to `double`, from the binade of the argument and
the nearest multiple of the unit in the last place. -/
theorem fl64_eq_of_near (x : α) (e n : Int) (v : α) (h1 : (2 : α) ^ e ≤ x)
    (h2 : x < (2 : α) ^ (e + 1)) (he : -1022 ≤ e)
    (hn1 : ((n : α) - 1 / 2) * (2 : α) ^ (e - 52) < x)
    (hn2 : x < ((n : α) + 1 / 2) * (2 : α) ^ (e - 52))
    (hv : v = (n : α) * (2 : α) ^ (e - 52)) : fl64 x = v := by
  rw [hv]
  exact round_to_eq_of_near 53 (-1022) x e n h1 h2 he hn1 hn2

/-- The value of a rounding to `float`, from the binade of the argument and
the nearest multiple of the unit in the last place. -/
theorem fl32_eq_of_near (x : α) (e n : Int) (v : α) (h1 : (2 : α) ^ e ≤ x)
    (h2 : x < (2 : α) ^ (e + 1)) (he : -126 ≤ e)
    (hn1 : ((n : α) - 1 / 2) * (2 : α) ^ (e - 23) < x)
    (hn2 : x < ((n : α) + 1 / 2) * (2 : α) ^ (e - 23))
    (hv : v = (n : α) * (2 : α) ^ (e - 23)) : fl32 x = v := by
  rw [hv]
  exact round_to_eq_of_near 24 (-126) x e n h1 h2 he hn1 hn2

/-- A `float` is a `double`. -/
theorem fl64_of_float {x : α} (h : representable 24 (-126) x) : fl64 x = x := by
  obtain ⟨m, k, hx, hm, hk⟩ := h
  refine round_to_eq_self 53 (-1022) ⟨m, k, hx, lt_trans hm (by norm_num), ?_⟩
  have : (-1022 : Int) - (((53 : Nat) : Int) - 1) ≤ -126 - (((24 : Nat) : Int) - 1) := by
    norm_num
  exact le_trans this hk

/-! ## The viewer offset and the depth of a star -/

/-- The function `fmodf` on a dividend that is not negative. -/
theorem fmodf_spec (x y : α) (hx : 0 ≤ x) (hy : 0 < y) :
    fmodf x y = x - ((Int.floor (x / y) : Int) : α) * y ∧ 0 ≤ fmodf x y ∧ fmodf x y < y := by
  have e : fmodf x y = x - ((Int.floor (x / y) : Int) : α) * y := by
    unfold fmodf float_to_int
    rw [if_pos (div_nonneg hx hy.le)]
  have h1 := Int.floor_le (x / y)
  have h2 := Int.lt_floor_add_one (x / y)
  rw [le_div_iff₀ hy] at h1
  rw [div_lt_iff₀ hy] at h2
  rw [e]
  refine ⟨rfl, by linarith, by linarith⟩

/-- For a frame index from 0 to `2 ^ 24`, half the index is a `float` and the
viewer offset is its remainder after division by the length of the
cylinder. -/
theorem frame_pos_eq (f : Int) (hf : 0 ≤ f) (hf1 : f ≤ 2 ^ 24) :
    (frame_pos f : α) = (f : α) / 2 - ((Int.floor ((f : α) / 2 / 1500) : Int) : α) * 1500 := by
  have hf0 : (0 : α) ≤ (f : α) := by exact_mod_cast hf
  have e : (f : α) * SPEED = (f : α) / 2 := by
    unfold SPEED; ring
  unfold frame_pos
  rw [e, fl64_half f (by rw [abs_of_nonneg hf]; omega), fl32_half f (by rw [abs_of_nonneg hf]; omega)]
  rw [(fmodf_spec ((f : α) / 2) (CYLINDER_LENGTH : α) (by positivity)
    (by unfold CYLINDER_LENGTH; norm_num)).1]
  unfold CYLINDER_LENGTH
  push_cast
  rfl

/-- The viewer offset lies in the cylinder. -/
theorem frame_pos_range (f : Int) (hf : 0 ≤ f) :
    (0 : α) ≤ frame_pos f ∧ (frame_pos f : α) < (CYLINDER_LENGTH : α) := by
  have hf0 : (0 : α) ≤ (f : α) * SPEED := by
    unfold SPEED
    have : (0 : α) ≤ (f : α) := by exact_mod_cast hf
    positivity
  have h0 : (0 : α) ≤ fl32 (fl64 ((f : α) * SPEED)) :=
    round_to_nonneg 24 (-126) (round_to_nonneg 53 (-1022) hf0)
  exact (fmodf_spec _ (CYLINDER_LENGTH : α) h0 (by unfold CYLINDER_LENGTH; norm_num)).2

/-- The viewer offset is half an integer. -/
theorem frame_pos_half (f : Int) (hf : 0 ≤ f) (hf1 : f < 2 ^ 31) :
    ∃ k : Int, (frame_pos f : α) = (k : α) / 2 := by
  rcases le_or_lt f (2 ^ 24) with h | h
  · rw [frame_pos_eq f hf h]
    refine ⟨f - Int.floor ((f : α) / 2 / 1500) * 3000, ?_⟩
    push_cast
    ring
  · have e : (f : α) * SPEED = (f : α) / 2 := by
      unfold SPEED; ring
    have hbig : (2 : α) ^ (((24 : Nat) : Int) - 1) ≤ (f : α) / 2 := by
      have : ((2 ^ 24 : Int) : α) ≤ (f : α) := by exact_mod_cast h.le
      norm_num at this ⊢
      linarith
    obtain ⟨N, hN⟩ := round_to_int_of_large 24 (-126) ((f : α) / 2) hbig
    have hN0 : (0 : α) ≤ (N : α) := by
      rw [← hN]
      exact round_to_nonneg 24 (-126) (by
        have : (0 : α) ≤ (f : α) := by exact_mod_cast hf
        positivity)
    unfold frame_pos
    rw [e, fl64_half f (by rw [abs_of_nonneg hf]; omega)]
    unfold fl32
    rw [hN, (fmodf_spec (N : α) (CYLINDER_LENGTH : α) hN0
      (by unfold CYLINDER_LENGTH; norm_num)).1]
    refine ⟨2 * (N - Int.floor ((N : α) / (CYLINDER_LENGTH : α)) * 1500), ?_⟩
    unfold CYLINDER_LENGTH
    push_cast
    ring

/-- The greatest `float` below `CYLINDER_LENGTH` is `1500 - 2 ^ (-13)`. -/
theorem float_lt_cylinder_length (z : α) (hz : representable 24 (-126) z)
    (hz1 : z < (CYLINDER_LENGTH : α)) : z ≤ 1500 - (2 : α) ^ (-13 : Int) := by
  have hu := @two_zpow_pos α _ _ (-13)
  have hval : (2 : α) ^ (-13 : Int) = 1 / 8192 := by
    rw [zpow_neg, zpow_ofNat]; norm_num
  rcases lt_or_le z 1024 with h | h
  · rw [hval]; linarith
  · unfold CYLINDER_LENGTH at hz1
    push_cast at hz1
    obtain ⟨n, hn⟩ := round_to_grid 24 (-126) z 10 (by norm_num; exact h)
      (by norm_num; linarith) (by norm_num)
    rw [round_to_eq_self 24 (-126) hz] at hn
    have e13 : (10 : Int) - (((24 : Nat) : Int) - 1) = -13 := by norm_num
    rw [e13, hval] at hn
    have hlt : (n : α) < ((12288000 : Int) : α) := by
      push_cast
      rw [hn] at hz1
      linarith
    have hle : n ≤ 12287999 := by
      have := Int.cast_lt.1 hlt
      omega
    have : (n : α) ≤ ((12287999 : Int) : α) := by exact_mod_cast hle
    push_cast at this
    rw [hn, hval]
    linarith

/-- C7, as the code has it: for a frame index of type `int` that is not
negative and a star whose longitudinal position is a `float` in the
cylinder, the viewer offset lies in `[0, CYLINDER_LENGTH)`, the wrapped
position lies in `[pos - CYLINDER_LENGTH, pos)`, and the depth `dz`, with the
rounding of every operation, lies in
`[VIEWPORT_DISTANCE, CYLINDER_LENGTH + VIEWPORT_DISTANCE]`, so it is not
zero. -/
theorem star_dz_range (f : Int) (z : α) (hf : 0 ≤ f) (hf1 : f < 2 ^ 31)
    (hz : representable 24 (-126) z) (hz0 : 0 ≤ z) (hz1 : z < (CYLINDER_LENGTH : α)) :
    (frame_pos f : α) = fmodf (fl32 (fl64 ((f : α) * SPEED))) (CYLINDER_LENGTH : α) ∧
    (0 : α) ≤ frame_pos f ∧ (frame_pos f : α) < (CYLINDER_LENGTH : α) ∧
    wrapped_z (frame_pos f) z
      = (if z < frame_pos f then z else fl32 (z - (CYLINDER_LENGTH : α))) ∧
    (frame_pos f : α) - (CYLINDER_LENGTH : α) ≤ wrapped_z (frame_pos f) z ∧
    wrapped_z (frame_pos f) z < frame_pos f ∧
    star_dz (frame_pos f) z
      = fl32 (fl64 (fl32 (frame_pos f - wrapped_z (frame_pos f) z) + VIEWPORT_DISTANCE)) ∧
    (VIEWPORT_DISTANCE : α) ≤ star_dz (frame_pos f) z ∧
    star_dz (frame_pos f) z ≤ (CYLINDER_LENGTH : α) + VIEWPORT_DISTANCE ∧
    star_dz (frame_pos f) z ≠ 0 := by
  obtain ⟨hp0, hp1⟩ := @frame_pos_range α _ _ f hf
  obtain ⟨k, hk⟩ := @frame_pos_half α _ _ f hf hf1
  have hzmax := float_lt_cylinder_length z hz hz1
  have hval : (2 : α) ^ (-13 : Int) = 1 / 8192 := by
    rw [zpow_neg, zpow_ofNat]; norm_num
  have hcl : ((CYLINDER_LENGTH : Nat) : α) = 1500 := by
    unfold CYLINDER_LENGTH; norm_num
  rw [hcl] at hp1 hz1 ⊢
  have hw : wrapped_z (frame_pos f) z
      = (if z < frame_pos f then z else fl32 (z - 1500)) := by
    unfold wrapped_z
    rw [hcl]
    by_cases hc : z < frame_pos f
    · rw [if_pos hc, if_neg (not_le.mpr hc)]
    · rw [if_neg hc, if_pos (not_lt.mp hc)]
  have hlo : (frame_pos f : α) - 1500 ≤ wrapped_z (frame_pos f) z := by
    rw [hw]
    split
    · linarith
    · rename_i hc
      have hk1 : |k - 3000| ≤ 2 ^ 24 := by
        have h1 : (0 : α) ≤ (k : α) := by rw [hk] at hp0; linarith
        have h2 : (k : α) < ((3000 : Int) : α) := by rw [hk] at hp1; push_cast; linarith
        have h1 : 0 ≤ k := by exact_mod_cast h1
        have h2 : k < 3000 := by exact_mod_cast h2
        rw [abs_le]
        constructor <;> omega
      have e : (frame_pos f : α) - 1500 = ((k - 3000 : Int) : α) / 2 := by
        rw [hk]; push_cast; ring
      rw [e, ← fl32_half (k - 3000) hk1, ← e]
      exact fl32_mono (by linarith [not_lt.mp hc])
  have hhi : wrapped_z (frame_pos f) z < frame_pos f := by
    rw [hw]
    split
    · assumption
    · have h1 : fl32 (z - 1500) ≤ fl32 (((-1 : Int) : α) * (2 : α) ^ (-13 : Int)) :=
        fl32_mono (by rw [hval] at hzmax ⊢; push_cast; linarith)
      have h2 : fl32 (((-1 : Int) : α) * (2 : α) ^ (-13 : Int))
          = ((-1 : Int) : α) * (2 : α) ^ (-13 : Int) :=
        round_to_eq_self 24 (-126) ⟨-1, -13, rfl, by norm_num, by norm_num⟩
      rw [h2, hval] at h1
      push_cast at h1
      linarith
  have hvd : (VIEWPORT_DISTANCE : α) = 10 := rfl
  have h10 : fl32 (fl64 (10 : α)) = 10 := by
    have e : (10 : α) = ((10 : Int) : α) := by norm_num
    rw [e, fl64_intCast 10 (by norm_num), fl32_intCast 10 (by norm_num)]
  have h1510 : fl32 (fl64 (1510 : α)) = 1510 := by
    have e : (1510 : α) = ((1510 : Int) : α) := by norm_num
    rw [e, fl64_intCast 1510 (by norm_num), fl32_intCast 1510 (by norm_num)]
  have hd0 : (0 : α) ≤ fl32 (frame_pos f - wrapped_z (frame_pos f) z) :=
    round_to_nonneg 24 (-126) (by linarith)
  have hd1 : fl32 (frame_pos f - wrapped_z (frame_pos f) z) ≤ 1500 := by
    have e : (1500 : α) = ((1500 : Int) : α) := by norm_num
    have := @fl32_intCast α _ _ 1500 (by norm_num)
    rw [← e] at this
    rw [← this]
    exact fl32_mono (by linarith)
  have hge : (10 : α) ≤ star_dz (frame_pos f) z := by
    unfold star_dz
    rw [← h10, hvd]
    exact fl32_mono (fl64_mono (by linarith))
  have hle : star_dz (frame_pos f) z ≤ 1510 := by
    unfold star_dz
    rw [← h1510, hvd]
    exact fl32_mono (fl64_mono (by linarith))
  refine ⟨rfl, hp0, hp1, hw, hlo, hhi, rfl, ?_, ?_, ?_⟩
  · rw [hvd]; exact hge
  · rw [hvd]; linarith
  · intro h0
    rw [h0] at hge
    linarith

/-- The frame index 1 and the longitudinal position 0 of a star. -/
theorem star_dz_range_witness :
    (VIEWPORT_DISTANCE : ℚ) ≤ star_dz (frame_pos 1) 0 ∧ star_dz (frame_pos 1) (0 : ℚ) ≠ 0 :=
  have h := star_dz_range 1 (0 : ℚ) (by norm_num) (by norm_num)
    ⟨0, 0, by norm_num, by norm_num, by norm_num⟩ (by norm_num) (by norm_num [CYLINDER_LENGTH])
  ⟨h.2.2.2.2.2.2.2.1, h.2.2.2.2.2.2.2.2.2⟩

/-- The viewer offset at the frame index 2. -/
theorem frame_pos_two : (frame_pos 2 : ℚ) = 1 := by
  rw [frame_pos_eq 2 (by norm_num) (by norm_num)]
  have : Int.floor (((2 : Int) : ℚ) / 2 / 1500) = 0 := by
    rw [Int.floor_eq_iff]; norm_num
  rw [this]
  norm_num

/-- C7 fails as stated: at the frame index 2 (viewer offset 1) the star whose
longitudinal position is the `float` `1 - 2 ^ (-24)`, the greatest one below
1, has the depth `dz = 10.0` exactly, because the sum `2 ^ (-24) + 10.0` is
rounded to `float`; the depth is not greater than `VIEWPORT_DISTANCE`. -/
theorem star_dz_at_viewport_distance :
    representable 24 (-126) (1 - 1 / 2 ^ 24 : ℚ) ∧ (0 : ℚ) ≤ 1 - 1 / 2 ^ 24 ∧
    (1 - 1 / 2 ^ 24 : ℚ) < (CYLINDER_LENGTH : ℚ) ∧
    (frame_pos 2 : ℚ) = 1 ∧
    wrapped_z (frame_pos 2) (1 - 1 / 2 ^ 24 : ℚ) = 1 - 1 / 2 ^ 24 ∧
    star_dz (frame_pos 2) (1 - 1 / 2 ^ 24 : ℚ) = VIEWPORT_DISTANCE ∧
    ¬ ((VIEWPORT_DISTANCE : ℚ) < star_dz (frame_pos 2) (1 - 1 / 2 ^ 24)) := by
  have hw : wrapped_z (frame_pos 2) (1 - 1 / 2 ^ 24 : ℚ) = 1 - 1 / 2 ^ 24 := by
    rw [frame_pos_two]
    unfold wrapped_z
    rw [if_neg (by norm_num)]
  have h1 : fl32 ((1 : ℚ) - (1 - 1 / 2 ^ 24)) = 1 / 2 ^ 24 := by
    have e : (1 : ℚ) - (1 - 1 / 2 ^ 24) = 1 / 2 ^ 24 := by norm_num
    rw [e]
    exact round_to_eq_self 24 (-126) ⟨1, -24, by norm_num, by norm_num, by norm_num⟩
  have h2 : fl64 ((1 : ℚ) / 2 ^ 24 + 10) = 1 / 2 ^ 24 + 10 :=
    round_to_eq_self 53 (-1022) ⟨167772161, -24, by norm_num, by norm_num, by norm_num⟩
  have h3 : fl32 ((1 : ℚ) / 2 ^ 24 + 10) = 10 := by
    have := round_to_eq_of_near 24 (-126) ((1 : ℚ) / 2 ^ 24 + 10) 3 10485760
      (by norm_num) (by norm_num) (by norm_num) (by norm_num) (by norm_num)
    unfold fl32
    rw [this]
    norm_num
  have hd : star_dz (frame_pos 2) (1 - 1 / 2 ^ 24 : ℚ) = VIEWPORT_DISTANCE := by
    unfold star_dz
    rw [hw, frame_pos_two, h1]
    unfold VIEWPORT_DISTANCE
    rw [h2, h3]
  refine ⟨⟨16777215, -24, by norm_num, by norm_num, by norm_num⟩, by norm_num,
    by norm_num [CYLINDER_LENGTH], frame_pos_two, hw, hd, ?_⟩
  rw [hd]
  exact lt_irrefl _

/-- The viewer offset has the period 3000 as long as half the frame index is
a `float`. -/
theorem frame_pos_periodic (f : Int) (hf : 0 ≤ f) (hf1 : f + 3000 ≤ 2 ^ 24) :
    (frame_pos (f + 3000) : α) = frame_pos f := by
  rw [frame_pos_eq (f + 3000) (by omega) hf1, frame_pos_eq f hf (by omega)]
  have e : ((f + 3000 : Int) : α) / 2 / 1500 = (f : α) / 2 / 1500 + 1 := by
    push_cast
    ring
  rw [e, Int.floor_add_one]
  push_cast
  ring

/-- C9, as the code has it: for a frame index `f` that is not negative, with
`f + 3000` at most `2 ^ 24` (so that `frame * SPEED` is converted to `float`
without rounding), `render_frame` at `f` and at
`f + CYLINDER_LENGTH / SPEED = f + 3000` computes the same viewer offset and,
for the same star field and reference disc, returns the same image. -/
theorem render_frame_periodic (bitmap_scale : bitmap_t → Nat → Nat → bitmap_t)
    (sqrtf : α → α) (stars : List (star_t α)) (circle : bitmap_t) (f : Int) (hf : 0 ≤ f)
    (hf1 : f + 3000 ≤ 2 ^ 24) :
    (CYLINDER_LENGTH : α) / SPEED = 3000 ∧
    (frame_pos (f + 3000) : α) = frame_pos f ∧
    render_frame bitmap_scale sqrtf stars circle (f + 3000)
      = render_frame bitmap_scale sqrtf stars circle f := by
  refine ⟨?_, frame_pos_periodic f hf hf1, ?_⟩
  · unfold CYLINDER_LENGTH SPEED
    norm_num
  · unfold render_frame
    rw [frame_pos_periodic f hf hf1]

/-- Frames 7 and 3007 of a field of one star give the same image. -/
theorem render_frame_periodic_witness :
    render_frame (fun b _ _ => b) (fun q : ℚ => q) [{ x := 60, y := 0, z := 100, size := 3 }]
        (bitmap_new_empty 128 128) (7 + 3000)
      = render_frame (fun b _ _ => b) (fun q : ℚ => q) [{ x := 60, y := 0, z := 100, size := 3 }]
        (bitmap_new_empty 128 128) 7 :=
  (render_frame_periodic (fun b _ _ => b) (fun q : ℚ => q)
    [{ x := 60, y := 0, z := 100, size := 3 }] (bitmap_new_empty 128 128) 7 (by norm_num)
    (by norm_num)).2.2

/-- The viewer offset for a frame index whose half is an integer from
`2 ^ 26` to `2 ^ 27`: the conversion to `float` rounds to a multiple `8 * n`
of 8. -/
theorem frame_pos_large (f n q : Int) (h1 : 2 ^ 27 ≤ f) (h2 : f < 2 ^ 28)
    (hn1 : 16 * n - 8 < f) (hn2 : f < 16 * n + 8)
    (hq1 : 1500 * q ≤ 8 * n) (hq2 : 8 * n < 1500 * q + 1500) :
    (frame_pos f : ℚ) = ((8 * n - 1500 * q : Int) : ℚ) := by
  have e : (f : ℚ) * SPEED = (f : ℚ) / 2 := by
    unfold SPEED; ring
  have c1 : ((2 ^ 27 : Int) : ℚ) ≤ (f : ℚ) := by exact_mod_cast h1
  have c2 : (f : ℚ) < ((2 ^ 28 : Int) : ℚ) := by exact_mod_cast h2
  have c3 : ((16 * n - 8 : Int) : ℚ) < (f : ℚ) := by exact_mod_cast hn1
  have c4 : (f : ℚ) < ((16 * n + 8 : Int) : ℚ) := by exact_mod_cast hn2
  have c5 : ((1500 * q : Int) : ℚ) ≤ ((8 * n : Int) : ℚ) := by exact_mod_cast hq1
  have c6 : ((8 * n : Int) : ℚ) < ((1500 * q + 1500 : Int) : ℚ) := by exact_mod_cast hq2
  push_cast at c1 c2 c3 c4 c5 c6
  have hr : fl32 ((f : ℚ) / 2) = (n : ℚ) * 8 := by
    have := round_to_eq_of_near 24 (-126) ((f : ℚ) / 2) 26 n
      (by norm_num; linarith) (by norm_num; linarith) (by norm_num)
      (by norm_num; linarith) (by norm_num; linarith)
    unfold fl32
    rw [this]
    norm_num
  have hn0 : (0 : ℚ) ≤ (n : ℚ) * 8 := by linarith
  unfold frame_pos
  rw [e, fl64_half f (by rw [abs_of_nonneg (by omega)]; omega), hr,
    (fmodf_spec ((n : ℚ) * 8) (CYLINDER_LENGTH : ℚ) hn0 (by unfold CYLINDER_LENGTH; norm_num)).1]
  have hfl : Int.floor ((n : ℚ) * 8 / (CYLINDER_LENGTH : ℚ)) = q := by
    unfold CYLINDER_LENGTH
    rw [Int.floor_eq_iff, le_div_iff₀ (by norm_num), div_lt_iff₀ (by norm_num)]
    push_cast
    constructor <;> linarith
  rw [hfl]
  unfold CYLINDER_LENGTH
  push_cast
  ring

/-- C9 fails as stated: for the frame index 134217730 the product
`frame * SPEED = 67108865` is rounded to the `float` 67108864 and the viewer
offset is 364, while for the frame index 134217730 + 3000 the product
67110365 is rounded to 67110368 and the viewer offset is 368. -/
theorem frame_pos_not_periodic :
    (0 : Int) ≤ 134217730 ∧ (134217730 : Int) + 3000 < 2 ^ 31 ∧
    (frame_pos 134217730 : ℚ) = 364 ∧ (frame_pos (134217730 + 3000) : ℚ) = 368 ∧
    (frame_pos (134217730 + 3000) : ℚ) ≠ frame_pos 134217730 := by
  have h1 : (frame_pos 134217730 : ℚ) = 364 := by
    rw [frame_pos_large 134217730 8388608 44739 (by norm_num) (by norm_num) (by norm_num)
      (by norm_num) (by norm_num) (by norm_num)]
    norm_num
  have h2 : (frame_pos (134217730 + 3000) : ℚ) = 368 := by
    rw [frame_pos_large (134217730 + 3000) 8388796 44740 (by norm_num) (by norm_num)
      (by norm_num) (by norm_num) (by norm_num) (by norm_num)]
    norm_num
  refine ⟨by norm_num, by norm_num, h1, h2, ?_⟩
  rw [h1, h2]
  norm_num

end FloatTheorems

/-! ## The reference disc -/

/-- A loop whose body may fail, run on states of a given shape on which the
body does not fail, is the loop of the bodies on the shapes. -/
theorem foldlM_lift {σ β κ : Type} (emb : σ → β) (g : β → κ → Option β) (p : σ → κ → σ)
    (l : List κ) (h : ∀ s k, k ∈ l → g (emb s) k = some (emb (p s k))) (s0 : σ) :
    l.foldlM g (emb s0) = some (emb (l.foldl p s0)) := by
  induction l generalizing s0 with
  | nil => rfl
  | cons k t ih =>
    rw [List.foldlM_cons, h s0 k (List.mem_cons_self _ _), List.foldl_cons]
    exact ih (fun s k1 hk1 => h s k1 (List.mem_cons_of_mem _ hk1)) (p s0 k)

/-- The normalized coordinate of a pixel of the disc lies strictly between -1
and 1. -/
theorem circle_coord_range {α : Type} [LinearOrderedField α] (x : Nat) (hx : x < 32) :
    (circle_coord x : α) > -1 ∧ (circle_coord x : α) < 1 := by
  unfold circle_coord CIRCLE_SIZE
  have h0 : (0 : α) ≤ (x : α) := Nat.cast_nonneg _
  have h1 : (x : α) ≤ 31 := by exact_mod_cast Nat.le_of_lt_succ hx
  push_cast
  constructor
  · have : (0 : α) < ((x : α) + 1 / 2) / 32 * 2 := by positivity
    linarith
  · have : ((x : α) + 1 / 2) / 32 * 2 < 2 := by
      rw [div_mul_eq_mul_div, div_lt_iff₀ (by norm_num)]
      linarith
    linarith

/-- The disc is drawn from column and row 48 of the canvas on. -/
theorem circle_bitmap_coord_eq (x : Nat) (hx : x < 32) : circle_bitmap_coord x = 48 + x := by
  unfold circle_bitmap_coord to_unsigned CIRCLE_CANVAS_SIZE CIRCLE_SIZE
  omega

/-- The body of the inner loop of `init_circle` does not fail and writes the
three channels of one pixel. -/
theorem init_circle_body_eq (α : Type) [LinearOrderedField α] (y x : Nat) (hy : y < 32)
    (hx : x < 32) (m : Nat → Fin 256) :
    init_circle_body α y { bitmap_new_empty 128 128 with mem := m } x
      = some { bitmap_new_empty 128 128 with mem := init_circle_write α y x m } := by
  unfold init_circle_body
  rw [if_pos ⟨(circle_coord_range x hx).1, (circle_coord_range x hx).2,
    (circle_coord_range y hy).1, (circle_coord_range y hy).2⟩]
  rw [circle_bitmap_coord_eq x hx, circle_bitmap_coord_eq y hy]
  unfold bitmap_set_pixel
  rw [if_pos ⟨by show 48 + x < 128; omega, by show 48 + y < 128; omega⟩]
  rfl

/-- The function `init_circle` does not fail; its canvas holds the bytes that
the loops write. -/
theorem init_circle_eq (α : Type) [LinearOrderedField α] :
    init_circle α = some { bitmap_new_empty 128 128 with mem := init_circle_loops α } := by
  unfold init_circle init_circle_loops CIRCLE_SIZE CIRCLE_CANVAS_SIZE
  exact foldlM_lift (fun m => ({ bitmap_new_empty 128 128 with mem := m } : bitmap_t)) _
    (fun m y => (List.range 32).foldl (fun m x => init_circle_write α y x m) m)
    (List.range 32)
    (fun m y hy => foldlM_lift (fun m => ({ bitmap_new_empty 128 128 with mem := m } : bitmap_t))
      (init_circle_body α y) _ (List.range 32)
      (fun m x hx => init_circle_body_eq α y x (List.mem_range.mp hy) (List.mem_range.mp hx) m) m)
    (bitmap_new_empty 128 128).mem

/-- The bytes that the loops of `init_circle` leave behind. -/
theorem init_circle_loops_spec (α : Type) [LinearOrderedField α] :
    (∀ y x i, y < 32 → x < 32 → i < 3 →
      init_circle_loops α ((bitmap_new_empty 128 128).data
          + (bitmap_new_empty 128 128).index (48 + x) (48 + y) i)
        = circle_gray α x y) ∧
    (∀ a, (∀ y x i, y < 32 → x < 32 → i < 3 →
        (bitmap_new_empty 128 128).data
          + (bitmap_new_empty 128 128).index (48 + x) (48 + y) i ≠ a) →
      init_circle_loops α a = 0) := by
  have hwf : (bitmap_new_empty 128 128).wf := by decide
  have h := loops_write
    (fun y x c => (bitmap_new_empty 128 128).data
      + (bitmap_new_empty 128 128).index (48 + x) (48 + y) c)
    (fun y x _ _ => circle_gray α x y) 32 32 (fun _ => 0)
    (by
      intro y x i y1 x1 i1 hy hx hi hy1 hx1 hi1 heq
      obtain ⟨e1, e2, e3⟩ := index_inj (bitmap_new_empty 128 128) hwf (48 + x) (48 + y) i
        (48 + x1) (48 + y1) i1 (by show 48 + x < 128; omega) (by show 48 + y < 128; omega) hi
        (by show 48 + x1 < 128; omega) (by show 48 + y1 < 128; omega) hi1
        (Nat.add_left_cancel heq)
      omega)
  unfold init_circle_loops init_circle_write
  exact h

/-- The coordinate of the claim is the coordinate that the code computes. -/
theorem circle_coord_sub {α : Type} [LinearOrderedField α] (p : Nat) (hp : 48 ≤ p) :
    (circle_coord (p - 48) : α) = ((p : α) - 48 + 1 / 2) / 16 - 1 := by
  unfold circle_coord CIRCLE_SIZE
  rw [Nat.cast_sub hp]
  push_cast
  ring

/-- C10: `init_circle` succeeds and leaves a canvas of
`CIRCLE_CANVAS_SIZE x CIRCLE_CANVAS_SIZE` pixels in which pixel `(px, py)` is
full white when `48 ≤ px < 80`, `48 ≤ py < 80` and `cx^2 + cy^2 ≤ 1` for
`cx = (px - 48 + 0.5) / 16 - 1` and `cy = (py - 48 + 0.5) / 16 - 1`, and black
otherwise. -/
theorem init_circle_disc (α : Type) [LinearOrderedField α] :
    ∃ c, init_circle α = some c ∧ c.width = CIRCLE_CANVAS_SIZE ∧
      c.height = CIRCLE_CANVAS_SIZE ∧ CIRCLE_CANVAS_SIZE = 128 ∧
      ∀ px py : Nat, px < 128 → py < 128 →
        if 48 ≤ px ∧ px < 80 ∧ 48 ≤ py ∧ py < 80 ∧
            (((px : α) - 48 + 1 / 2) / 16 - 1) ^ 2 + (((py : α) - 48 + 1 / 2) / 16 - 1) ^ 2 ≤ 1
        then ∀ i, i < 3 → c.get px py i = 255
        else ∀ i, i < 3 → c.get px py i = 0 := by
  refine ⟨_, init_circle_eq α, rfl, rfl, rfl, ?_⟩
  intro px py hpx hpy
  obtain ⟨hhit, hframe⟩ := init_circle_loops_spec α
  have hget : ∀ i, ({ bitmap_new_empty 128 128 with mem := init_circle_loops α } : bitmap_t).get
      px py i = init_circle_loops α ((bitmap_new_empty 128 128).data
        + (bitmap_new_empty 128 128).index px py i) := by
    intro i
    simp only [bitmap_t.get, bitmap_t.index]
  have hwf : (bitmap_new_empty 128 128).wf := by decide
  by_cases hsq : 48 ≤ px ∧ px < 80 ∧ 48 ≤ py ∧ py < 80
  · obtain ⟨h1, h2, h3, h4⟩ := hsq
    have hval : ∀ i, i < 3 →
        ({ bitmap_new_empty 128 128 with mem := init_circle_loops α } : bitmap_t).get px py i
          = circle_gray α (px - 48) (py - 48) := by
      intro i hi
      have h := hhit (py - 48) (px - 48) i (by omega) (by omega) hi
      have ex : 48 + (px - 48) = px := by omega
      have ey : 48 + (py - 48) = py := by omega
      rw [ex, ey] at h
      rw [hget, h]
    have hg : circle_gray α (px - 48) (py - 48)
        = if (((px : α) - 48 + 1 / 2) / 16 - 1) ^ 2 + (((py : α) - 48 + 1 / 2) / 16 - 1) ^ 2 ≤ 1
          then 255 else 0 := by
      unfold circle_gray
      rw [circle_coord_sub px h1, circle_coord_sub py h3, ← pow_two, ← pow_two]
    by_cases hd : (((px : α) - 48 + 1 / 2) / 16 - 1) ^ 2
        + (((py : α) - 48 + 1 / 2) / 16 - 1) ^ 2 ≤ 1
    · rw [if_pos ⟨h1, h2, h3, h4, hd⟩]
      intro i hi
      rw [hval i hi, hg, if_pos hd]
    · rw [if_neg (fun hc => hd hc.2.2.2.2)]
      intro i hi
      rw [hval i hi, hg, if_neg hd]
  · rw [if_neg (fun hc => hsq ⟨hc.1, hc.2.1, hc.2.2.1, hc.2.2.2.1⟩)]
    intro i hi
    rw [hget]
    apply hframe
    intro y x c hy hx hc heq
    obtain ⟨e1, e2, e3⟩ := index_inj (bitmap_new_empty 128 128) hwf (48 + x) (48 + y) c
      px py i (by show 48 + x < 128; omega) (by show 48 + y < 128; omega) hc hpx hpy hi
      (Nat.add_left_cancel heq)
    apply hsq
    omega

/-! ## The star field -/

section StarTheorems

variable {α : Type} [LinearOrderedField α] [FloorRing α]

/-- A value drawn as a thousandth of an integer below `2 ^ 24`: the conversion
of the integer to `float` is exact, and the quotient, rounded to `double` and
to `float`, stays within every pair of `float` bounds of the exact quotient. -/
theorem thousandth_range (n : Nat) (hn : n < 2 ^ 24) (lo hi : α)
    (hlo : representable 24 (-126) lo) (hhi : representable 24 (-126) hi)
    (h1 : lo ≤ (n : α) / 1000) (h2 : (n : α) / 1000 ≤ hi) :
    lo ≤ fl32 (fl64 (fl32 (n : α) / 1000)) ∧ fl32 (fl64 (fl32 (n : α) / 1000)) ≤ hi ∧
      lo ≤ fl64 (fl32 (n : α) / 1000) ∧ fl64 (fl32 (n : α) / 1000) ≤ hi := by
  have e : fl32 (n : α) = (n : α) := by
    have := @fl32_intCast α _ _ (n : Int) (by
      rw [abs_of_nonneg (by positivity)]
      exact_mod_cast hn)
    simpa using this
  rw [e]
  have a1 : lo ≤ fl64 ((n : α) / 1000) := by
    rw [← fl64_of_float hlo]
    exact fl64_mono h1
  have a2 : fl64 ((n : α) / 1000) ≤ hi := by
    rw [← fl64_of_float hhi]
    exact fl64_mono h2
  refine ⟨?_, ?_, a1, a2⟩
  · rw [← round_to_eq_self 24 (-126) hlo]
    exact fl32_mono a1
  · rw [← round_to_eq_self 24 (-126) hhi]
    exact fl32_mono a2

/-- The radial distance drawn for a star. -/
theorem star_distance_range (r : Nat) :
    (50 : α) ≤ star_distance r ∧ (star_distance r : α) ≤ 500 - 1 / 1024 := by
  have h : r % ((1000 - 100) * 500) < 450000 := Nat.mod_lt _ (by norm_num)
  have hc : ((r % ((1000 - 100) * 500) + 100 * 500 : Nat) : α) ≤ ((499999 : Nat) : α) := by
    exact_mod_cast (show r % ((1000 - 100) * 500) + 100 * 500 ≤ 499999 by omega)
  have h0 : ((50000 : Nat) : α) ≤ ((r % ((1000 - 100) * 500) + 100 * 500 : Nat) : α) := by
    exact_mod_cast (show 50000 ≤ r % ((1000 - 100) * 500) + 100 * 500 by omega)
  have hb := thousandth_range (r % ((1000 - 100) * 500) + 100 * 500) (by norm_num; omega)
    (50 : α) (500 - 1 / 1024) ⟨50, 0, by norm_num, by norm_num, by norm_num⟩
    ⟨511999, -10, by rw [zpow_neg, zpow_ofNat]; norm_num, by norm_num, by norm_num⟩
    (by rw [le_div_iff₀ (by norm_num)]; push_cast at h0 ⊢; linarith)
    (by rw [div_le_iff₀ (by norm_num)]; push_cast at hc ⊢; linarith)
  unfold star_distance CYLINDER_DIAMETER CORRIDOR_DIAMETER
  exact ⟨hb.1, hb.2.1⟩

/-- The longitudinal position drawn for a star. -/
theorem star_z_range (r : Nat) :
    (0 : α) ≤ star_z r ∧ (star_z r : α) < (CYLINDER_LENGTH : α) := by
  have h : r % (1500 * 1000) < 1500000 := Nat.mod_lt _ (by norm_num)
  have hc : ((r % (1500 * 1000) : Nat) : α) ≤ ((1499999 : Nat) : α) := by
    exact_mod_cast (show r % (1500 * 1000) ≤ 1499999 by omega)
  have hb := thousandth_range (r % (1500 * 1000)) (by norm_num; omega)
    (0 : α) (1500 - 1 / 1024) ⟨0, 0, by norm_num, by norm_num, by norm_num⟩
    ⟨1535999, -10, by rw [zpow_neg, zpow_ofNat]; norm_num, by norm_num, by norm_num⟩
    (by positivity)
    (by rw [div_le_iff₀ (by norm_num)]; push_cast at hc ⊢; linarith)
  unfold star_z CYLINDER_LENGTH
  refine ⟨hb.1, lt_of_le_of_lt hb.2.1 ?_⟩
  norm_num

/-- The base size drawn for a star. -/
theorem star_size_range (r : Nat) :
    (0 : α) ≤ star_size r ∧ (star_size r : α) < (MAX_STAR_SIZE : α) := by
  have h : r % (20 * 1000) < 20000 := Nat.mod_lt _ (by norm_num)
  have hc : ((r % (20 * 1000) : Nat) : α) ≤ ((19999 : Nat) : α) := by
    exact_mod_cast (show r % (20 * 1000) ≤ 19999 by omega)
  have hb := thousandth_range (r % (20 * 1000)) (by norm_num; omega)
    (0 : α) (20 - 1 / 1024) ⟨0, 0, by norm_num, by norm_num, by norm_num⟩
    ⟨20479, -10, by rw [zpow_neg, zpow_ofNat]; norm_num, by norm_num, by norm_num⟩
    (by positivity)
    (by rw [div_le_iff₀ (by norm_num)]; push_cast at hc ⊢; linarith)
  unfold star_size MAX_STAR_SIZE
  refine ⟨hb.1, lt_of_le_of_lt hb.2.1 ?_⟩
  norm_num

/-- The constant `M_PI` lies between 0 and `3294199 / 2 ^ 20`. -/
theorem M_PI_range : (0 : α) ≤ M_PI ∧ (M_PI : α) ≤ 3294199 / 1048576 := by
  unfold M_PI
  constructor
  · exact round_to_nonneg 53 (-1022) (by norm_num)
  · have hr : representable 53 (-1022) (3294199 / 1048576 : α) :=
      ⟨3294199, -20, by rw [zpow_neg, zpow_ofNat]; norm_num, by norm_num, by norm_num⟩
    rw [← round_to_eq_self 53 (-1022) hr]
    exact fl64_mono (by norm_num)

/-- The angle drawn for a star is at most the `float` `823549 / 2 ^ 17`. -/
theorem star_angle_le (r : Nat) :
    (0 : α) ≤ star_angle r ∧ (star_angle r : α) ≤ 823549 / 131072 := by
  have h : r % (360 * 1000) < 360000 := Nat.mod_lt _ (by norm_num)
  have hc : ((r % (360 * 1000) : Nat) : α) ≤ ((359999 : Nat) : α) := by
    exact_mod_cast (show r % (360 * 1000) ≤ 359999 by omega)
  obtain ⟨-, -, hq0, hq1⟩ := thousandth_range (r % (360 * 1000)) (by norm_num; omega)
    (0 : α) (360 - 1 / 1024) ⟨0, 0, by norm_num, by norm_num, by norm_num⟩
    ⟨368639, -10, by rw [zpow_neg, zpow_ofNat]; norm_num, by norm_num, by norm_num⟩
    (by positivity)
    (by rw [div_le_iff₀ (by norm_num)]; push_cast at hc ⊢; linarith)
  obtain ⟨hp0, hp1⟩ := @M_PI_range α _ _
  have h20 : (0 : α) ≤ fl64 (fl64 (fl32 ((r % (360 * 1000) : Nat) : α) / 1000) / 180) :=
    round_to_nonneg 53 (-1022) (by positivity)
  have h21 : fl64 (fl64 (fl32 ((r % (360 * 1000) : Nat) : α) / 1000) / 180)
      ≤ 2 - 1 / 262144 := by
    have hr : representable 53 (-1022) (2 - 1 / 262144 : α) :=
      ⟨524287, -18, by rw [zpow_neg, zpow_ofNat]; norm_num, by norm_num, by norm_num⟩
    rw [← round_to_eq_self 53 (-1022) hr]
    refine fl64_mono ?_
    rw [div_le_iff₀ (by norm_num)]
    have : (360 - 1 / 1024 : α) ≤ (2 - 1 / 262144) * 180 := by norm_num
    linarith
  have h31 : fl64 (fl64 (fl32 ((r % (360 * 1000) : Nat) : α) / 1000) / 180) * M_PI
      ≤ 823549 / 131072 := by
    calc fl64 (fl64 (fl32 ((r % (360 * 1000) : Nat) : α) / 1000) / 180) * M_PI
        ≤ (2 - 1 / 262144) * (3294199 / 1048576) := mul_le_mul h21 hp1 hp0 (by norm_num)
      _ ≤ 823549 / 131072 := by norm_num
  have hB : representable 24 (-126) (823549 / 131072 : α) :=
    ⟨823549, -17, by rw [zpow_neg, zpow_ofNat]; norm_num, by norm_num, by norm_num⟩
  unfold star_angle
  constructor
  · exact round_to_nonneg 24 (-126) (round_to_nonneg 53 (-1022) (mul_nonneg h20 hp0))
  · rw [← round_to_eq_self 24 (-126) hB]
    refine fl32_mono ?_
    rw [← fl64_of_float hB]
    exact fl64_mono h31

end StarTheorems

/-- The radial distance of a point whose coordinates are within `d / 2 ^ 22`
of `d * cos t` and `d * sin t`. -/
theorem radial_bounds (d t x y : ℝ) (hd0 : 50 ≤ d) (hd1 : d ≤ 500 - 1 / 1024)
    (hx : |x - d * Real.cos t| ≤ d / 2 ^ 22) (hy : |y - d * Real.sin t| ≤ d / 2 ^ 22) :
    50 * (1 - 1 / 2 ^ 20) ≤ Real.sqrt (x ^ 2 + y ^ 2) ∧ Real.sqrt (x ^ 2 + y ^ 2) ≤ 500 := by
  have hsq := Real.sin_sq_add_cos_sq t
  have hc1 := Real.abs_cos_le_one t
  have hs1 := Real.abs_sin_le_one t
  have hdpos : (0 : ℝ) < d := by linarith
  have he0 : (0 : ℝ) ≤ d / 2 ^ 22 := by positivity
  have hu : |Real.cos t * (x - d * Real.cos t) + Real.sin t * (y - d * Real.sin t)|
      ≤ 2 * (d / 2 ^ 22) := by
    refine le_trans (abs_add _ _) ?_
    rw [abs_mul, abs_mul]
    have a1 : |Real.cos t| * |x - d * Real.cos t| ≤ 1 * (d / 2 ^ 22) :=
      mul_le_mul hc1 hx (abs_nonneg _) (by norm_num)
    have a2 : |Real.sin t| * |y - d * Real.sin t| ≤ 1 * (d / 2 ^ 22) :=
      mul_le_mul hs1 hy (abs_nonneg _) (by norm_num)
    linarith
  obtain ⟨hu1, hu2⟩ := abs_le.1 hu
  have hex : (x - d * Real.cos t) ^ 2 ≤ (d / 2 ^ 22) ^ 2 := by
    rw [← sq_abs (x - d * Real.cos t)]
    exact pow_le_pow_left₀ (abs_nonneg _) hx 2
  have hey : (y - d * Real.sin t) ^ 2 ≤ (d / 2 ^ 22) ^ 2 := by
    rw [← sq_abs (y - d * Real.sin t)]
    exact pow_le_pow_left₀ (abs_nonneg _) hy 2
  have hX : x ^ 2 + y ^ 2 = d ^ 2
      + 2 * d * (Real.cos t * (x - d * Real.cos t) + Real.sin t * (y - d * Real.sin t))
      + (x - d * Real.cos t) ^ 2 + (y - d * Real.sin t) ^ 2 := by
    have : d ^ 2 = d ^ 2 * (Real.sin t ^ 2 + Real.cos t ^ 2) := by rw [hsq, mul_one]
    rw [this]
    ring
  have hd2 : (2500 : ℝ) ≤ d ^ 2 := by nlinarith
  have hd3 : d ^ 2 ≤ (500 - 1 / 1024) ^ 2 := pow_le_pow_left₀ hdpos.le hd1 2
  have hlow : d ^ 2 * (1 - 1 / 2 ^ 20) ≤ x ^ 2 + y ^ 2 := by
    rw [hX]
    have h1 : 2 * d * (-(2 * (d / 2 ^ 22)))
        ≤ 2 * d * (Real.cos t * (x - d * Real.cos t) + Real.sin t * (y - d * Real.sin t)) :=
      mul_le_mul_of_nonneg_left hu1 (by linarith)
    have h2 : 2 * d * (-(2 * (d / 2 ^ 22))) = -(d ^ 2 * (1 / 2 ^ 20)) := by ring
    nlinarith [sq_nonneg (x - d * Real.cos t), sq_nonneg (y - d * Real.sin t)]
  have hupp : x ^ 2 + y ^ 2 ≤ d ^ 2 * (1 + 1 / 2 ^ 20 + 1 / 2 ^ 43) := by
    rw [hX]
    have h1 : 2 * d * (Real.cos t * (x - d * Real.cos t) + Real.sin t * (y - d * Real.sin t))
        ≤ 2 * d * (2 * (d / 2 ^ 22)) :=
      mul_le_mul_of_nonneg_left hu2 (by linarith)
    have h2 : 2 * d * (2 * (d / 2 ^ 22)) + (d / 2 ^ 22) ^ 2 + (d / 2 ^ 22) ^ 2
        = d ^ 2 * (1 / 2 ^ 20 + 1 / 2 ^ 43) := by ring
    linarith
  constructor
  · apply Real.le_sqrt_of_sq_le
    calc (50 * (1 - 1 / 2 ^ 20) : ℝ) ^ 2 ≤ 2500 * (1 - 1 / 2 ^ 20) := by norm_num
      _ ≤ d ^ 2 * (1 - 1 / 2 ^ 20) := mul_le_mul_of_nonneg_right hd2 (by norm_num)
      _ ≤ x ^ 2 + y ^ 2 := hlow
  · rw [Real.sqrt_le_left (by norm_num)]
    calc x ^ 2 + y ^ 2 ≤ d ^ 2 * (1 + 1 / 2 ^ 20 + 1 / 2 ^ 43) := hupp
      _ ≤ (500 - 1 / 1024) ^ 2 * (1 + 1 / 2 ^ 20 + 1 / 2 ^ 43) :=
          mul_le_mul_of_nonneg_right hd3 (by norm_num)
      _ ≤ 500 ^ 2 := by norm_num

/-- The error of a coordinate that `init_stars` stores: the product of the
distance with the value of a library function that is within `2 ^ (-23)` of
the real function, rounded to `float`. -/
theorem star_coordinate_err (d c c1 : ℝ) (hd0 : 50 ≤ d) (hc : |c| ≤ 1)
    (hc1 : |c1 - c| ≤ 1 / 2 ^ 23) : |fl32 (d * c1) - d * c| ≤ d / 2 ^ 22 := by
  have hd : (0 : ℝ) < d := by linarith
  have h1 := abs_round_to_sub_le 24 (-126) (d * c1)
  have hv : (2 : ℝ) ^ (-((24 : Nat) : Int)) = 1 / 2 ^ 24 := by
    rw [zpow_neg, zpow_natCast]
    norm_num
  have ht : (2 : ℝ) ^ ((-126 : Int) - ((24 : Nat) : Int)) ≤ 1 / 2 ^ 48 := by
    have : (1 : ℝ) / 2 ^ 48 = (2 : ℝ) ^ (-(48 : Int)) := by
      rw [zpow_neg, zpow_ofNat]
      norm_num
    rw [this]
    exact two_zpow_le (by norm_num)
  rw [hv] at h1
  have hc1a : |c1| ≤ 1 + 1 / 2 ^ 23 := by
    have := abs_sub_abs_le_abs_sub c1 c
    linarith
  have h2 : |d * c1| ≤ d * (1 + 1 / 2 ^ 23) := by
    rw [abs_mul, abs_of_pos hd]
    exact mul_le_mul_of_nonneg_left hc1a hd.le
  have h3 : |d * c1 - d * c| ≤ d * (1 / 2 ^ 23) := by
    rw [← mul_sub, abs_mul, abs_of_pos hd]
    exact mul_le_mul_of_nonneg_left hc1 hd.le
  have h4 : |fl32 (d * c1) - d * c| ≤ |fl32 (d * c1) - d * c1| + |d * c1 - d * c| :=
    abs_sub_le _ _ _
  have h5 : |d * c1| * (1 / 2 ^ 24) ≤ d * (1 + 1 / 2 ^ 23) * (1 / 2 ^ 24) :=
    mul_le_mul_of_nonneg_right h2 (by positivity)
  unfold fl32 at h4 ⊢
  have h6 : d * (1 + 1 / 2 ^ 23) * (1 / 2 ^ 24) + 1 / 2 ^ 48 + d * (1 / 2 ^ 23) ≤ d / 2 ^ 22 := by
    have : (1 : ℝ) / 2 ^ 48 ≤ 50 * (1 / 2 ^ 24 - 1 / 2 ^ 47) := by norm_num
    have : 50 * ((1 : ℝ) / 2 ^ 24 - 1 / 2 ^ 47) ≤ d * (1 / 2 ^ 24 - 1 / 2 ^ 47) :=
      mul_le_mul_of_nonneg_right hd0 (by norm_num)
    have e : d / 2 ^ 22 - (d * (1 + 1 / 2 ^ 23) * (1 / 2 ^ 24) + d * (1 / 2 ^ 23))
        = d * (1 / 2 ^ 24 - 1 / 2 ^ 47) := by ring
    linarith
  linarith

/-- C8, as the code has it: whatever values `random()` returns, for library
functions `cosf` and `sinf` within `2 ^ (-23)` of the real cosine and sine,
every star that `init_stars` builds comes from a distance and an angle with
the angle in `[0, 2 * pi)`, has its radial distance `sqrt (x^2 + y^2)` between
`(1 - 2 ^ (-20)) * CORRIDOR_DIAMETER / 2` and `CYLINDER_DIAMETER / 2`, its
longitudinal position in `[0, CYLINDER_LENGTH)` and its base size in
`[0, MAX_STAR_SIZE]`. -/
theorem init_stars_range (cosf sinf : ℝ → ℝ) (random : Nat → Nat) (s : star_t ℝ)
    (hcos : ∀ t, |cosf t - Real.cos t| ≤ 1 / 2 ^ 23)
    (hsin : ∀ t, |sinf t - Real.sin t| ≤ 1 / 2 ^ 23)
    (hs : s ∈ init_stars cosf sinf random) :
    (∃ r0 r1 : Nat, s.x = fl32 (star_distance r0 * cosf (star_angle r1)) ∧
      s.y = fl32 (star_distance r0 * sinf (star_angle r1)) ∧
      (0 : ℝ) ≤ star_angle r1 ∧ (star_angle r1 : ℝ) < 2 * Real.pi) ∧
    (1 - 1 / 2 ^ 20) * ((CORRIDOR_DIAMETER : ℝ) / 2) ≤ Real.sqrt (s.x ^ 2 + s.y ^ 2) ∧
    Real.sqrt (s.x ^ 2 + s.y ^ 2) ≤ (CYLINDER_DIAMETER : ℝ) / 2 ∧
    0 ≤ s.z ∧ s.z < (CYLINDER_LENGTH : ℝ) ∧
    0 ≤ s.size ∧ s.size ≤ (MAX_STAR_SIZE : ℝ) := by
  unfold init_stars at hs
  obtain ⟨i, -, rfl⟩ := List.mem_map.mp hs
  obtain ⟨hd0, hd1⟩ := @star_distance_range ℝ _ _ (random (4 * i))
  obtain ⟨ha0, ha1⟩ := @star_angle_le ℝ _ _ (random (4 * i + 1))
  obtain ⟨hz0, hz1⟩ := @star_z_range ℝ _ _ (random (4 * i + 2))
  obtain ⟨hs0, hs1⟩ := @star_size_range ℝ _ _ (random (4 * i + 3))
  have hpi := Real.pi_gt_d6
  have hrad := radial_bounds (star_distance (random (4 * i))) (star_angle (random (4 * i + 1)))
    (fl32 (star_distance (random (4 * i)) * cosf (star_angle (random (4 * i + 1)))))
    (fl32 (star_distance (random (4 * i)) * sinf (star_angle (random (4 * i + 1)))))
    hd0 hd1
    (star_coordinate_err _ _ _ hd0 (Real.abs_cos_le_one _) (hcos _))
    (star_coordinate_err _ _ _ hd0 (Real.abs_sin_le_one _) (hsin _))
  refine ⟨⟨random (4 * i), random (4 * i + 1), rfl, rfl, ha0, ?_⟩, ?_, ?_, hz0, hz1, hs0,
    le_of_lt hs1⟩
  · refine lt_of_le_of_lt ha1 ?_
    norm_num at hpi ⊢
    linarith
  · simp only [init_star]
    unfold CORRIDOR_DIAMETER
    have e : (1 - 1 / 2 ^ 20) * ((((100 : Nat) : ℝ)) / 2) = 50 * (1 - 1 / 2 ^ 20) := by
      norm_num
    rw [e]
    exact hrad.1
  · simp only [init_star]
    unfold CYLINDER_DIAMETER
    have e : (((1000 : Nat) : ℝ)) / 2 = 500 := by norm_num
    rw [e]
    exact hrad.2

/-- The rounding to `float` of a number of magnitude up to 1 is within
`2 ^ (-23)` of it. -/
theorem fl32_unit_err (c : ℝ) (hc : |c| ≤ 1) : |fl32 c - c| ≤ 1 / 2 ^ 23 := by
  have h1 := abs_round_to_sub_le 24 (-126) c
  have hv : (2 : ℝ) ^ (-((24 : Nat) : Int)) = 1 / 2 ^ 24 := by
    rw [zpow_neg, zpow_natCast]
    norm_num
  have ht : (2 : ℝ) ^ ((-126 : Int) - ((24 : Nat) : Int)) ≤ 1 / 2 ^ 24 := by
    rw [← hv]
    exact two_zpow_le (by norm_num)
  rw [hv] at h1
  have h2 : |c| * (1 / 2 ^ 24) ≤ 1 * (1 / 2 ^ 24) :=
    mul_le_mul_of_nonneg_right hc (by positivity)
  unfold fl32
  have : (1 : ℝ) * (1 / 2 ^ 24) + 1 / 2 ^ 24 = 1 / 2 ^ 23 := by norm_num
  linarith

/-- The first star of the field drawn from a `random()` that always returns
0, for the correctly rounded cosine and sine. -/
theorem init_stars_range_witness :
    (1 - 1 / 2 ^ 20) * ((CORRIDOR_DIAMETER : ℝ) / 2)
      ≤ Real.sqrt ((init_star (fun t => fl32 (Real.cos t)) (fun t => fl32 (Real.sin t))
            0 0 0 0).x ^ 2
          + (init_star (fun t => fl32 (Real.cos t)) (fun t => fl32 (Real.sin t)) 0 0 0 0).y ^ 2) :=
  (init_stars_range (fun t => fl32 (Real.cos t)) (fun t => fl32 (Real.sin t)) (fun _ => 0)
    (init_star (fun t => fl32 (Real.cos t)) (fun t => fl32 (Real.sin t)) 0 0 0 0)
    (fun t => fl32_unit_err _ (Real.abs_cos_le_one t))
    (fun t => fl32_unit_err _ (Real.abs_sin_le_one t))
    (List.mem_map.mpr ⟨0, List.mem_range.mpr (by decide), rfl⟩)).2.1

/-- Bounds of the sine and the cosine of a doubled angle from bounds at the
angle. -/
theorem sin_cos_double (t ls us lc uc ls2 us2 lc2 uc2 : ℝ) (hls : 0 ≤ ls) (hlc : 0 ≤ lc)
    (hs : ls ≤ Real.sin t ∧ Real.sin t ≤ us) (hc : lc ≤ Real.cos t ∧ Real.cos t ≤ uc)
    (n1 : ls2 ≤ 2 * ls * lc) (n2 : 2 * us * uc ≤ us2) (n3 : lc2 ≤ 1 - 2 * us ^ 2)
    (n4 : 1 - 2 * ls ^ 2 ≤ uc2) :
    (ls2 ≤ Real.sin (2 * t) ∧ Real.sin (2 * t) ≤ us2) ∧
      (lc2 ≤ Real.cos (2 * t) ∧ Real.cos (2 * t) ≤ uc2) := by
  obtain ⟨hs1, hs2⟩ := hs
  obtain ⟨hc1, hc2⟩ := hc
  have hsq := Real.sin_sq_add_cos_sq t
  have e2 : Real.cos (2 * t) = 1 - 2 * Real.sin t ^ 2 := by
    rw [Real.cos_two_mul]
    linarith
  have hs0 : 0 ≤ Real.sin t := le_trans hls hs1
  have hc0 : 0 ≤ Real.cos t := le_trans hlc hc1
  rw [Real.sin_two_mul, e2]
  refine ⟨⟨?_, ?_⟩, ⟨?_, ?_⟩⟩
  · have : ls * lc ≤ Real.sin t * Real.cos t := mul_le_mul hs1 hc1 hlc hs0
    linarith
  · have : Real.sin t * Real.cos t ≤ us * uc := mul_le_mul hs2 hc2 hc0 (le_trans hs0 hs2)
    linarith
  · have : Real.sin t ^ 2 ≤ us ^ 2 := pow_le_pow_left₀ hs0 hs2 2
    linarith
  · have : ls ^ 2 ≤ Real.sin t ^ 2 := pow_le_pow_left₀ hls hs1 2
    linarith

/-- Bounds of the sine and the cosine at the angle of the counterexample,
from the bounds of order four at the angle divided by 1024 and ten doublings. -/
theorem sample_angle_bounds :
    (25403981 / 33554432 : ℝ) < Real.cos (11944325 / 16777216) ∧
    Real.cos (11944325 / 16777216) < (25403983 / 33554432 : ℝ) ∧
    (21921165 / 33554432 : ℝ) < Real.sin (11944325 / 16777216) ∧
    Real.sin (11944325 / 16777216) < (21921167 / 33554432 : ℝ) := by
  have hx : |(11944325 / 17179869184 : ℝ)| ≤ 1 := by
    rw [abs_of_pos (by norm_num)]
    norm_num
  have hc := abs_le.1 (Real.cos_bound hx)
  have hs := abs_le.1 (Real.sin_bound hx)
  rw [abs_of_pos (by norm_num)] at hc hs
  have h0 : ((12825120278502065 / 18446744073709551616 : ℝ) ≤ Real.sin (11944325 / 17179869184 : ℝ) ∧ Real.sin (11944325 / 17179869184 : ℝ) ≤ (12825120278951035 / 18446744073709551616 : ℝ)) ∧
      ((18446739615368711331 / 18446744073709551616 : ℝ) ≤ Real.cos (11944325 / 17179869184 : ℝ) ∧ Real.cos (11944325 / 17179869184 : ℝ) ≤ (4611684903842290075 / 4611686018427387904 : ℝ)) := by
    refine ⟨⟨?_, ?_⟩, ⟨?_, ?_⟩⟩
    · have : (12825120278502065 / 18446744073709551616 : ℝ) ≤ (11944325 / 17179869184 : ℝ) - (11944325 / 17179869184 : ℝ) ^ 3 / 6 - (11944325 / 17179869184 : ℝ) ^ 4 * (5 / 96) := by norm_num
      linarith [hs.1]
    · have : (11944325 / 17179869184 : ℝ) - (11944325 / 17179869184 : ℝ) ^ 3 / 6 + (11944325 / 17179869184 : ℝ) ^ 4 * (5 / 96) ≤ (12825120278951035 / 18446744073709551616 : ℝ) := by norm_num
      linarith [hs.2]
    · have : (18446739615368711331 / 18446744073709551616 : ℝ) ≤ 1 - (11944325 / 17179869184 : ℝ) ^ 2 / 2 - (11944325 / 17179869184 : ℝ) ^ 4 * (5 / 96) := by norm_num
      linarith [hc.1]
    · have : 1 - (11944325 / 17179869184 : ℝ) ^ 2 / 2 + (11944325 / 17179869184 : ℝ) ^ 4 * (5 / 96) ≤ (4611684903842290075 / 4611686018427387904 : ℝ) := by norm_num
      linarith [hc.2]
  have h1 := sin_cos_double (11944325 / 17179869184 : ℝ) (12825120278502065 / 18446744073709551616 : ℝ) (12825120278951035 / 18446744073709551616 : ℝ) (18446739615368711331 / 18446744073709551616 : ℝ) (4611684903842290075 / 4611686018427387904 : ℝ)
    (25650234357670817 / 18446744073709551616 : ℝ) (12825117179284691 / 9223372036854775808 : ℝ) (576460195010936287 / 576460752303423488 : ℝ) (9223363120174981217 / 9223372036854775808 : ℝ)
    (by norm_num) (by norm_num) h0.1 h0.2 (by norm_num) (by norm_num) (by norm_num) (by norm_num)
  rw [show (2 : ℝ) * (11944325 / 17179869184 : ℝ) = (11944325 / 8589934592 : ℝ) by norm_num] at h1
  have h2 := sin_cos_double (11944325 / 8589934592 : ℝ) (25650234357670817 / 18446744073709551616 : ℝ) (12825117179284691 / 9223372036854775808 : ℝ) (576460195010936287 / 576460752303423488 : ℝ) (9223363120174981217 / 9223372036854775808 : ℝ)
    (6412552390087201 / 2305843009213693952 : ℝ) (51300419122494741 / 18446744073709551616 : ℝ) (2305834092538208829 / 2305843009213693952 : ℝ) (18446672740305675631 / 18446744073709551616 : ℝ)
    (by norm_num) (by norm_num) h1.1 h1.2 (by norm_num) (by norm_num) (by norm_num) (by norm_num)
  rw [show (2 : ℝ) * (11944325 / 8589934592 : ℝ) = (11944325 / 4294967296 : ℝ) by norm_num] at h2
  have h3 := sin_cos_double (11944325 / 4294967296 : ℝ) (6412552390087201 / 2305843009213693952 : ℝ) (51300419122494741 / 18446744073709551616 : ℝ) (2305834092538208829 / 2305843009213693952 : ℝ) (18446672740305675631 / 18446744073709551616 : ℝ)
    (102600441484818361 / 18446744073709551616 : ℝ) (51300220744206321 / 9223372036854775808 : ℝ) (1152903671290357439 / 1152921504606846976 : ℝ) (2305807342580717377 / 2305843009213693952 : ℝ)
    (by norm_num) (by norm_num) h2.1 h2.2 (by norm_num) (by norm_num) (by norm_num) (by norm_num)
  rw [show (2 : ℝ) * (11944325 / 4294967296 : ℝ) = (11944325 / 2147483648 : ℝ) by norm_num] at h3
  have h4 := sin_cos_double (11944325 / 2147483648 : ℝ) (102600441484818361 / 18446744073709551616 : ℝ) (51300220744206321 / 9223372036854775808 : ℝ) (1152903671290357439 / 1152921504606846976 : ℝ) (2305807342580717377 / 2305843009213693952 : ℝ)
    (12824856808464557 / 1152921504606846976 : ℝ) (102598854471310793 / 9223372036854775808 : ℝ) (576425085946289019 / 576460752303423488 : ℝ) (9222801375140664287 / 9223372036854775808 : ℝ)
    (by norm_num) (by norm_num) h3.1 h3.2 (by norm_num) (by norm_num) (by norm_num) (by norm_num)
  rw [show (2 : ℝ) * (11944325 / 2147483648 : ℝ) = (11944325 / 1073741824 : ℝ) by norm_num] at h4
  have h5 := sin_cos_double (11944325 / 1073741824 : ℝ) (12824856808464557 / 1152921504606846976 : ℝ) (102598854471310793 / 9223372036854775808 : ℝ) (576425085946289019 / 576460752303423488 : ℝ) (9222801375140664287 / 9223372036854775808 : ℝ)
    (410370026186381417 / 18446744073709551616 : ℝ) (51296253275094957 / 2305843009213693952 : ℝ) (18442178921226592761 / 18446744073709551616 : ℝ) (1152636182576682039 / 1152921504606846976 : ℝ)
    (by norm_num) (by norm_num) h4.1 h4.2 (by norm_num) (by norm_num) (by norm_num) (by norm_num)
  rw [show (2 : ℝ) * (11944325 / 1073741824 : ℝ) = (11944325 / 536870912 : ℝ) by norm_num] at h5
  have h6 := sin_cos_double (11944325 / 536870912 : ℝ) (410370026186381417 / 18446744073709551616 : ℝ) (51296253275094957 / 2305843009213693952 : ℝ) (18442178921226592761 / 18446744073709551616 : ℝ) (1152636182576682039 / 1152921504606846976 : ℝ)
    (25641779304646471 / 576460752303423488 : ℝ) (410268468888725333 / 9223372036854775808 : ℝ) (1151780357707622479 / 1152921504606846976 : ℝ) (9214242861661619555 / 9223372036854775808 : ℝ)
    (by norm_num) (by norm_num) h5.1 h5.2 (by norm_num) (by norm_num) (by norm_num) (by norm_num)
  rw [show (2 : ℝ) * (11944325 / 536870912 : ℝ) = (11944325 / 268435456 : ℝ) by norm_num] at h6
  have h7 := sin_cos_double (11944325 / 268435456 : ℝ) (25641779304646471 / 576460752303423488 : ℝ) (410268468888725333 / 9223372036854775808 : ℝ) (1151780357707622479 / 1152921504606846976 : ℝ) (9214242861661619555 / 9223372036854775808 : ℝ)
    (1639449561650386997 / 18446744073709551616 : ℝ) (1639449561707971069 / 18446744073709551616 : ℝ) (18373746815920654195 / 18446744073709551616 : ℝ) (2296718351990721497 / 2305843009213693952 : ℝ)
    (by norm_num) (by norm_num) h6.1 h6.2 (by norm_num) (by norm_num) (by norm_num) (by norm_num)
  rw [show (2 : ℝ) * (11944325 / 268435456 : ℝ) = (11944325 / 134217728 : ℝ) by norm_num] at h7
  have h8 := sin_cos_double (11944325 / 134217728 : ℝ) (1639449561650386997 / 18446744073709551616 : ℝ) (1639449561707971069 / 18446744073709551616 : ℝ) (18373746815920654195 / 18446744073709551616 : ℝ) (2296718351990721497 / 2305843009213693952 : ℝ)
    (408240487357435779 / 2305843009213693952 : ℝ) (3265923898975108317 / 18446744073709551616 : ℝ) (9077666385242515119 / 9223372036854775808 : ℝ) (4538833192626375329 / 4611686018427387904 : ℝ)
    (by norm_num) (by norm_num) h7.1 h7.2 (by norm_num) (by norm_num) (by norm_num) (by norm_num)
  rw [show (2 : ℝ) * (11944325 / 134217728 : ℝ) = (11944325 / 67108864 : ℝ) by norm_num] at h8
  have h9 := sin_cos_double (11944325 / 67108864 : ℝ) (408240487357435779 / 2305843009213693952 : ℝ) (3265923898975108317 / 18446744073709551616 : ℝ) (9077666385242515119 / 9223372036854775808 : ℝ) (4538833192626375329 / 4611686018427387904 : ℝ)
    (3214330667241167093 / 9223372036854775808 : ℝ) (1607165333679293485 / 4611686018427387904 : ℝ) (17290305965035575733 / 18446744073709551616 : ℝ) (8645152982558728743 / 9223372036854775808 : ℝ)
    (by norm_num) (by norm_num) h8.1 h8.2 (by norm_num) (by norm_num) (by norm_num) (by norm_num)
  rw [show (2 : ℝ) * (11944325 / 67108864 : ℝ) = (11944325 / 33554432 : ℝ) by norm_num] at h9
  have h10 := sin_cos_double (11944325 / 33554432 : ℝ) (3214330667241167093 / 9223372036854775808 : ℝ) (1607165333679293485 / 4611686018427387904 : ℝ) (17290305965035575733 / 18446744073709551616 : ℝ) (8645152982558728743 / 9223372036854775808 : ℝ)
    (12051288940166992637 / 18446744073709551616 : ℝ) (3012822235166074741 / 4611686018427387904 : ℝ) (13965987318875168847 / 18446744073709551616 : ℝ) (6982993659601266995 / 9223372036854775808 : ℝ)
    (by norm_num) (by norm_num) h9.1 h9.2 (by norm_num) (by norm_num) (by norm_num) (by norm_num)
  rw [show (2 : ℝ) * (11944325 / 33554432 : ℝ) = (11944325 / 16777216 : ℝ) by norm_num] at h10
  obtain ⟨⟨hs1, hs2⟩, ⟨hc1, hc2⟩⟩ := h10
  refine ⟨?_, ?_, ?_, ?_⟩
  · refine lt_of_lt_of_le ?_ hc1
    norm_num
  · refine lt_of_le_of_lt hc2 ?_
    norm_num
  · refine lt_of_lt_of_le ?_ hs1
    norm_num
  · refine lt_of_le_of_lt hs2 ?_
    norm_num

/-- The value of the constant `M_PI`. -/
theorem M_PI_eq : (M_PI : ℝ) = 884279719003555 / 281474976710656 := by
  unfold M_PI
  exact fl64_eq_of_near _ 1 7074237752028440 _ (by norm_num) (by norm_num) (by norm_num)
    (by norm_num) (by norm_num) (by norm_num)

/-- The distance and the angle of the star drawn from the values 0 and 40791
of `random()`. -/
theorem sample_star_polar :
    (star_distance 0 : ℝ) = 50 ∧ (star_angle 40791 : ℝ) = 11944325 / 16777216 := by
  have h50000 : fl32 (((0 % ((CYLINDER_DIAMETER - CORRIDOR_DIAMETER) * 500)
      + CORRIDOR_DIAMETER * 500 : Nat) : ℝ)) = 50000 := by
    have e : (((0 % ((CYLINDER_DIAMETER - CORRIDOR_DIAMETER) * 500)
        + CORRIDOR_DIAMETER * 500 : Nat) : ℝ)) = ((50000 : Int) : ℝ) := by
      unfold CYLINDER_DIAMETER CORRIDOR_DIAMETER
      norm_num
    rw [e, fl32_intCast 50000 (by norm_num)]
    norm_num
  have h50 : fl32 (fl64 ((50000 : ℝ) / 1000)) = 50 := by
    have e : (50000 : ℝ) / 1000 = ((50 : Int) : ℝ) := by norm_num
    rw [e, fl64_intCast 50 (by norm_num), fl32_intCast 50 (by norm_num)]
    norm_num
  have a0 : fl32 (((40791 % (360 * 1000) : Nat) : ℝ)) = 40791 := by
    have e : (((40791 % (360 * 1000) : Nat) : ℝ)) = ((40791 : Int) : ℝ) := by norm_num
    rw [e, fl32_intCast 40791 (by norm_num)]
    norm_num
  have a1 : fl64 ((40791 : ℝ) / 1000) = 717602860937773 / 17592186044416 :=
    fl64_eq_of_near _ 5 5740822887502184 _ (by norm_num) (by norm_num) (by norm_num)
      (by norm_num) (by norm_num) (by norm_num)
  have a2 : fl64 ((717602860937773 : ℝ) / 17592186044416 / 180)
      = 8164725884447551 / 36028797018963968 :=
    fl64_eq_of_near _ (-3) 8164725884447551 _ (by norm_num) (by norm_num) (by norm_num)
      (by norm_num) (by norm_num) (by norm_num)
  have a3 : fl64 ((8164725884447551 : ℝ) / 36028797018963968
      * (884279719003555 / 281474976710656)) = 6412560714288713 / 9007199254740992 :=
    fl64_eq_of_near _ (-1) 6412560714288713 _ (by norm_num) (by norm_num) (by norm_num)
      (by norm_num) (by norm_num) (by norm_num)
  have a4 : fl32 ((6412560714288713 : ℝ) / 9007199254740992) = 11944325 / 16777216 :=
    fl32_eq_of_near _ (-1) 11944325 _ (by norm_num) (by norm_num) (by norm_num)
      (by norm_num) (by norm_num) (by norm_num)
  constructor
  · unfold star_distance
    rw [h50000, h50]
  · unfold star_angle
    rw [a0, a1, a2, M_PI_eq, a3, a4]

/-- C8 fails as stated: for the values 0 and 40791 of `random()` the distance
is 50 and the angle is the `float` `11944325 / 2 ^ 24`; with the correctly
rounded cosine and sine the coordinates stored in the star are
`x = 4961715 / 2 ^ 17` and `y = 8562955 / 2 ^ 18`, and the radial distance
`sqrt (x^2 + y^2)` is less than `CORRIDOR_DIAMETER / 2 = 50`. -/
theorem init_star_inside_corridor :
    init_star (fun t => fl32 (Real.cos t)) (fun t => fl32 (Real.sin t)) 0 40791 0 0
      ∈ init_stars (fun t => fl32 (Real.cos t)) (fun t => fl32 (Real.sin t))
          (fun k => if k = 1 then 40791 else 0) ∧
    (init_star (fun t => fl32 (Real.cos t)) (fun t => fl32 (Real.sin t)) 0 40791 0 0).x
      = 4961715 / 131072 ∧
    (init_star (fun t => fl32 (Real.cos t)) (fun t => fl32 (Real.sin t)) 0 40791 0 0).y
      = 8562955 / 262144 ∧
    Real.sqrt
        ((init_star (fun t => fl32 (Real.cos t)) (fun t => fl32 (Real.sin t)) 0 40791 0 0).x ^ 2
          + (init_star (fun t => fl32 (Real.cos t)) (fun t => fl32 (Real.sin t))
              0 40791 0 0).y ^ 2)
      < (CORRIDOR_DIAMETER : ℝ) / 2 := by
  obtain ⟨hd, ha⟩ := sample_star_polar
  obtain ⟨hc1, hc2, hs1, hs2⟩ := sample_angle_bounds
  have hcos : fl32 (Real.cos (11944325 / 16777216)) = 12701991 / 16777216 :=
    fl32_eq_of_near _ (-1) 12701991 _
      (by norm_num; linarith) (by norm_num; linarith) (by norm_num)
      (by norm_num; linarith) (by norm_num; linarith) (by norm_num)
  have hsin : fl32 (Real.sin (11944325 / 16777216)) = 10960583 / 16777216 :=
    fl32_eq_of_near _ (-1) 10960583 _
      (by norm_num; linarith) (by norm_num; linarith) (by norm_num)
      (by norm_num; linarith) (by norm_num; linarith) (by norm_num)
  have hx : fl32 ((50 : ℝ) * (12701991 / 16777216)) = 4961715 / 131072 :=
    fl32_eq_of_near _ 5 9923430 _ (by norm_num) (by norm_num) (by norm_num)
      (by norm_num) (by norm_num) (by norm_num)
  have hy : fl32 ((50 : ℝ) * (10960583 / 16777216)) = 8562955 / 262144 :=
    fl32_eq_of_near _ 5 8562955 _ (by norm_num) (by norm_num) (by norm_num)
      (by norm_num) (by norm_num) (by norm_num)
  have ex : (init_star (fun t => fl32 (Real.cos t)) (fun t => fl32 (Real.sin t)) 0 40791 0 0).x
      = 4961715 / 131072 := by
    simp only [init_star]
    rw [hd, ha, hcos, hx]
  have ey : (init_star (fun t => fl32 (Real.cos t)) (fun t => fl32 (Real.sin t)) 0 40791 0 0).y
      = 8562955 / 262144 := by
    simp only [init_star]
    rw [hd, ha, hsin, hy]
  refine ⟨List.mem_map.mpr ⟨0, List.mem_range.mpr (by decide), rfl⟩, ex, ey, ?_⟩
  rw [ex, ey]
  have e50 : (CORRIDOR_DIAMETER : ℝ) / 2 = Real.sqrt (50 ^ 2) := by
    rw [Real.sqrt_sq (by norm_num)]
    unfold CORRIDOR_DIAMETER
    norm_num
  rw [e50]
  exact Real.sqrt_lt_sqrt (by positivity) (by norm_num)

/-! ## The loop of the frame renderer -/

section RenderTheorems

variable {α : Type} [LinearOrderedField α] [FloorRing α]

/-- The body of the loop of `render_frame` in terms of its locals. -/
theorem render_star_eq (bitmap_scale : bitmap_t → Nat → Nat → bitmap_t) (sqrtf : α → α)
    (circle : bitmap_t) (pos : α) (canvas : bitmap_t) (s : star_t α) :
    render_star bitmap_scale sqrtf circle pos canvas s
      = if cull_test (star_vx s.x (star_dz pos s.z)) (star_vy s.y (star_dz pos s.z)) then
          match scale_circle bitmap_scale circle
              (apparent_size sqrtf s.x s.y (star_dz pos s.z)) with
          | none => none
          | some star =>
            bitmap_add_with_crop canvas star
              (float_to_int (star_vx s.x (star_dz pos s.z) - (star.width : α) / 2))
              (float_to_int (star_vy s.y (star_dz pos s.z) - (star.width : α) / 2))
        else some canvas := rfl

/-- The local `a` of `render_frame` in terms of `ndz`. -/
theorem frame_a_eq {α : Type} [LinearOrderedField α] (sqrtf : α → α) :
    frame_a sqrtf = (MAX_STAR_SIZE : α) *
      sqrtf (frame_ndz * frame_ndz + (CORRIDOR_DIAMETER : α) * (CORRIDOR_DIAMETER : α) / 4) := rfl

end RenderTheorems

/-! ## Projection onto the canvas -/

section ProjectionTheorems

variable {α : Type} [LinearOrderedField α] [FloorRing α]

/-- The error of a result of `double` arithmetic: `u` approximates `U` within
`e`, and `U` has magnitude at most `M`. -/
theorem fl64_err (u U e M : α) (h : |u - U| ≤ e) (hM : |U| ≤ M) :
    |fl64 u - U| ≤ e + (M + e + 1) / 2 ^ 53 := by
  have h1 := abs_round_to_sub_le 53 (-1022) u
  have hv : (2 : α) ^ (-((53 : Nat) : Int)) = 1 / 2 ^ 53 := by
    rw [zpow_neg, zpow_natCast]
    norm_num
  have ht : (2 : α) ^ ((-1022 : Int) - ((53 : Nat) : Int)) ≤ 1 / 2 ^ 53 := by
    rw [← hv]
    exact two_zpow_le (by norm_num)
  rw [hv] at h1
  have hu : |u| ≤ M + e := by
    have := abs_sub_abs_le_abs_sub u U
    linarith
  have h2 : |u| * (1 / 2 ^ 53) ≤ (M + e) * (1 / 2 ^ 53) :=
    mul_le_mul_of_nonneg_right hu (by positivity)
  have h3 : |fl64 u - U| ≤ |fl64 u - u| + |u - U| := abs_sub_le _ _ _
  unfold fl64 at h3 ⊢
  have e1 : (M + e + 1) / 2 ^ 53 = (M + e) * (1 / 2 ^ 53) + 1 / 2 ^ 53 := by ring
  rw [e1]
  linarith

/-- The error of a result stored in a `float`. -/
theorem fl32_err (u U e M : α) (h : |u - U| ≤ e) (hM : |U| ≤ M) :
    |fl32 u - U| ≤ e + (M + e + 1) / 2 ^ 24 := by
  have h1 := abs_round_to_sub_le 24 (-126) u
  have hv : (2 : α) ^ (-((24 : Nat) : Int)) = 1 / 2 ^ 24 := by
    rw [zpow_neg, zpow_natCast]
    norm_num
  have ht : (2 : α) ^ ((-126 : Int) - ((24 : Nat) : Int)) ≤ 1 / 2 ^ 24 := by
    rw [← hv]
    exact two_zpow_le (by norm_num)
  rw [hv] at h1
  have hu : |u| ≤ M + e := by
    have := abs_sub_abs_le_abs_sub u U
    linarith
  have h2 : |u| * (1 / 2 ^ 24) ≤ (M + e) * (1 / 2 ^ 24) :=
    mul_le_mul_of_nonneg_right hu (by positivity)
  have h3 : |fl32 u - U| ≤ |fl32 u - u| + |u - U| := abs_sub_le _ _ _
  unfold fl32 at h3 ⊢
  have e1 : (M + e + 1) / 2 ^ 24 = (M + e) * (1 / 2 ^ 24) + 1 / 2 ^ 24 := by ring
  rw [e1]
  linarith

/-- The error of the local `rx` (or `ry`) of the loop of `render_frame`. -/
theorem star_rx32_err (x dz : α) (hx : |x| ≤ 500) (hdz : 10 ≤ dz) :
    |star_rx32 x dz - 10 * x / dz| ≤ 502 / 2 ^ 24 ∧ |10 * x / dz| ≤ 500 := by
  have hdz0 : (0 : α) < dz := by linarith
  have hU : |10 * x / dz| ≤ 500 := by
    rw [abs_div, abs_mul, abs_of_pos hdz0, div_le_iff₀ hdz0]
    have : |(10 : α)| = 10 := abs_of_pos (by norm_num)
    rw [this]
    nlinarith [abs_nonneg x]
  have h1 : |fl64 (x * VIEWPORT_DISTANCE) - 10 * x| ≤ 1 / 2 ^ 40 := by
    have h := fl64_err (x * VIEWPORT_DISTANCE) (10 * x) 0 5000
      (by unfold VIEWPORT_DISTANCE; rw [show x * 10 - 10 * x = 0 by ring]; simp)
      (by rw [abs_mul, abs_of_pos (show (0 : α) < 10 by norm_num)]; linarith)
    refine le_trans h ?_
    norm_num
  have h1d : |fl64 (x * VIEWPORT_DISTANCE) / dz - 10 * x / dz| ≤ 1 / 2 ^ 40 := by
    rw [← sub_div, abs_div, abs_of_pos hdz0, div_le_iff₀ hdz0]
    have : (1 : α) / 2 ^ 40 * 10 ≤ 1 / 2 ^ 40 * dz :=
      mul_le_mul_of_nonneg_left hdz (by positivity)
    have : (1 : α) / 2 ^ 40 ≤ 1 / 2 ^ 40 * 10 := by norm_num
    linarith
  have h2 : |fl64 (fl64 (x * VIEWPORT_DISTANCE) / dz) - 10 * x / dz| ≤ 1 / 2 ^ 39 := by
    refine le_trans (fl64_err _ _ _ 500 h1d hU) ?_
    norm_num
  have h3 := fl32_err _ _ _ 500 h2 hU
  refine ⟨le_trans h3 ?_, hU⟩
  norm_num

/-- The error of the canvas coordinate computed from `rx` (or `ry`): the
quotient by the viewport extent `vw`, the product with the canvas extent `K`,
the halving and the sum with the canvas centre `c` are of `double`, the result
is stored in a `float`. -/
theorem star_v32_err (r R vw K c : α) (hr : |r - R| ≤ 502 / 2 ^ 24) (hR : |R| ≤ 500)
    (hvw : 15 / 2 ≤ vw) (hK0 : 0 ≤ K) (hK : K ≤ 3072) (hKvw : K ≤ 3072 / 10 * vw)
    (hc0 : 0 ≤ c) (hc : c ≤ 1536) :
    |fl32 (fl64 (fl64 (fl64 (fl64 (r / vw) * K) / 2) + c)) - (R / vw * K / 2 + c)|
      ≤ 1 / 100 := by
  have hvw0 : (0 : α) < vw := by linarith
  have hU4 : |R / vw| ≤ 500 / vw := by
    rw [abs_div, abs_of_pos hvw0]
    exact div_le_div_of_nonneg_right hR hvw0.le
  have hM4 : |R / vw| ≤ 67 := by
    refine le_trans hU4 ?_
    rw [div_le_iff₀ hvw0]
    linarith
  have h3d : |r / vw - R / vw| ≤ 502 / 2 ^ 24 / vw := by
    rw [← sub_div, abs_div, abs_of_pos hvw0]
    exact div_le_div_of_nonneg_right hr hvw0.le
  have hsmall : (502 : α) / 2 ^ 24 / vw ≤ 1 := by
    rw [div_le_iff₀ hvw0]
    have : (502 : α) / 2 ^ 24 ≤ 1 * (15 / 2) := by norm_num
    linarith
  have h4 : |fl64 (r / vw) - R / vw| ≤ 502 / 2 ^ 24 / vw + 1 / 2 ^ 46 := by
    refine le_trans (fl64_err _ _ _ 67 h3d hM4) ?_
    have : (67 + 502 / 2 ^ 24 / vw + 1) / 2 ^ 53 ≤ (67 + 1 + 1 : α) / 2 ^ 53 :=
      div_le_div_of_nonneg_right (by linarith) (by positivity)
    have : (67 + 1 + 1 : α) / 2 ^ 53 ≤ 1 / 2 ^ 46 := by norm_num
    linarith
  have hKq : K / vw ≤ 3072 / 10 := by
    rw [div_le_iff₀ hvw0]
    exact hKvw
  have hM5 : |R / vw * K| ≤ 153600 := by
    rw [abs_mul, abs_of_nonneg hK0]
    calc |R / vw| * K ≤ 500 / vw * K := mul_le_mul_of_nonneg_right hU4 hK0
      _ = 500 * (K / vw) := by ring
      _ ≤ 500 * (3072 / 10) := mul_le_mul_of_nonneg_left hKq (by norm_num)
      _ = 153600 := by norm_num
  have h4d : |fl64 (r / vw) * K - R / vw * K| ≤ 154215 / 2 ^ 24 := by
    rw [← sub_mul, abs_mul, abs_of_nonneg hK0]
    calc |fl64 (r / vw) - R / vw| * K ≤ (502 / 2 ^ 24 / vw + 1 / 2 ^ 46) * K :=
          mul_le_mul_of_nonneg_right h4 hK0
      _ = 502 / 2 ^ 24 * (K / vw) + 1 / 2 ^ 46 * K := by ring
      _ ≤ 502 / 2 ^ 24 * (3072 / 10) + 1 / 2 ^ 46 * 3072 :=
          add_le_add (mul_le_mul_of_nonneg_left hKq (by positivity))
            (mul_le_mul_of_nonneg_left hK (by positivity))
      _ ≤ 154215 / 2 ^ 24 := by norm_num
  have h5 : |fl64 (fl64 (r / vw) * K) - R / vw * K| ≤ 154216 / 2 ^ 24 := by
    refine le_trans (fl64_err _ _ _ 153600 h4d hM5) ?_
    norm_num
  have hM6 : |R / vw * K / 2| ≤ 76800 := by
    rw [abs_div, abs_of_pos (show (0 : α) < 2 by norm_num)]
    linarith
  have h5d : |fl64 (fl64 (r / vw) * K) / 2 - R / vw * K / 2| ≤ 77108 / 2 ^ 24 := by
    rw [← sub_div, abs_div, abs_of_pos (show (0 : α) < 2 by norm_num)]
    have : (154216 : α) / 2 ^ 24 / 2 = 77108 / 2 ^ 24 := by norm_num
    rw [← this]
    exact div_le_div_of_nonneg_right h5 (by norm_num)
  have h6 : |fl64 (fl64 (fl64 (r / vw) * K) / 2) - R / vw * K / 2| ≤ 77109 / 2 ^ 24 := by
    refine le_trans (fl64_err _ _ _ 76800 h5d hM6) ?_
    norm_num
  have hM7 : |R / vw * K / 2 + c| ≤ 78336 := by
    have := abs_add (R / vw * K / 2) c
    rw [abs_of_nonneg hc0] at this
    linarith
  have h6d : |fl64 (fl64 (fl64 (r / vw) * K) / 2) + c - (R / vw * K / 2 + c)|
      ≤ 77109 / 2 ^ 24 := by
    rw [add_sub_add_right_eq_sub]
    exact h6
  have h7 : |fl64 (fl64 (fl64 (fl64 (r / vw) * K) / 2) + c) - (R / vw * K / 2 + c)|
      ≤ 77110 / 2 ^ 24 := by
    refine le_trans (fl64_err _ _ _ 78336 h6d hM7) ?_
    norm_num
  refine le_trans (fl32_err _ _ _ 78336 h7 hM7) ?_
  norm_num

/-- The canvas coordinates of a star on the tunnel axis are those of the
canvas centre, without rounding. -/
theorem star_v32_axis (dz vw K c : α) (hc : representable 24 (-126) c) :
    fl32 (fl64 (fl64 (fl64 (fl64 (fl32 (fl64 (fl64 ((0 : α) * VIEWPORT_DISTANCE) / dz)) / vw)
      * K) / 2) + c)) = c := by
  have h64 : fl64 (0 : α) = 0 := round_to_zero 53 (-1022)
  have h32 : fl32 (0 : α) = 0 := round_to_zero 24 (-126)
  have hc64 : fl64 c = c := by
    obtain ⟨m, k, hx, hm, hk⟩ := hc
    refine round_to_eq_self 53 (-1022) ⟨m, k, hx, lt_trans hm (by norm_num), ?_⟩
    have : (-1022 : Int) - (((53 : Nat) : Int) - 1) ≤ -126 - (((24 : Nat) : Int) - 1) := by
      norm_num
    exact le_trans this hk
  rw [zero_mul, h64, zero_div, h64, h32, zero_div, h64, zero_mul, h64, zero_div, h64, zero_add,
    hc64]
  exact round_to_eq_self 24 (-126) hc

/-- C15, as the code has it: the horizontal and the vertical scale of the
projection are the same number `k = 1536`; for every star with coordinates of
magnitude up to 500 and every depth of at least `VIEWPORT_DISTANCE` the
canvas coordinates computed with the rounding of `float` and `double`
arithmetic lie within 1/100 of a pixel of
`FULL_WIDTH / 2 + k * x / dz` and `FULL_HEIGHT / 2 + k * y / dz`; a star on the
tunnel axis projects to the canvas centre exactly. -/
theorem canvas_square_pixels (x y dz : α) (hx : |x| ≤ 500) (hy : |y| ≤ 500)
    (hdz0 : (VIEWPORT_DISTANCE : α) ≤ dz) :
    (VIEWPORT_DISTANCE : α) * (FULL_WIDTH : α) / (2 * VIEWPORT_WIDTH)
      = VIEWPORT_DISTANCE * (FULL_HEIGHT : α) / (2 * VIEWPORT_HEIGHT) ∧
    (VIEWPORT_DISTANCE : α) * (FULL_WIDTH : α) / (2 * VIEWPORT_WIDTH) = 1536 ∧
    |star_vx32 x dz - (FULL_WIDTH : α) / 2
      - VIEWPORT_DISTANCE * (FULL_WIDTH : α) / (2 * VIEWPORT_WIDTH) * x / dz| ≤ 1 / 100 ∧
    |star_vy32 y dz - (FULL_HEIGHT : α) / 2
      - VIEWPORT_DISTANCE * (FULL_HEIGHT : α) / (2 * VIEWPORT_HEIGHT) * y / dz| ≤ 1 / 100 ∧
    star_vx32 0 dz = (FULL_WIDTH : α) / 2 ∧ star_vy32 0 dz = (FULL_HEIGHT : α) / 2 := by
  have hd : (10 : α) ≤ dz := hdz0
  have hdz : (0 : α) < dz := by linarith
  obtain ⟨hrx, hRx⟩ := star_rx32_err x dz hx hd
  obtain ⟨hry, hRy⟩ := star_rx32_err y dz hy hd
  have hvx := star_v32_err (star_rx32 x dz) (10 * x / dz) 10 3072 1536 hrx hRx (by norm_num)
    (by norm_num) (by norm_num) (by norm_num) (by norm_num) (by norm_num)
  have hvy := star_v32_err (star_rx32 y dz) (10 * y / dz) (15 / 2) 2304 1152 hry hRy
    (by norm_num) (by norm_num) (by norm_num) (by norm_num) (by norm_num) (by norm_num)
  have eW : (FULL_WIDTH : α) = 3072 := by unfold FULL_WIDTH; norm_num
  have eH : (FULL_HEIGHT : α) = 2304 := by unfold FULL_HEIGHT; norm_num
  have eVH : (VIEWPORT_HEIGHT : α) = 15 / 2 := by
    unfold VIEWPORT_HEIGHT VIEWPORT_WIDTH
    rw [eW, eH]
    norm_num
  have eVW : (VIEWPORT_WIDTH : α) = 10 := rfl
  have eVD : (VIEWPORT_DISTANCE : α) = 10 := rfl
  refine ⟨?_, ?_, ?_, ?_, ?_, ?_⟩
  · rw [eVH, eVW, eVD, eW, eH]
    norm_num
  · rw [eVW, eVD, eW]
    norm_num
  · unfold star_vx32
    rw [eVW, eVD, eW]
    have e : (3072 : α) / 2 = 1536 := by norm_num
    rw [e]
    have e2 : fl32 (fl64 (fl64 (fl64 (fl64 (star_rx32 x dz / 10) * 3072) / 2) + 1536)) - 1536
        - 10 * 3072 / (2 * 10) * x / dz
        = fl32 (fl64 (fl64 (fl64 (fl64 (star_rx32 x dz / 10) * 3072) / 2) + 1536))
          - (10 * x / dz / 10 * 3072 / 2 + 1536) := by
      field_simp
      ring
    rw [e2]
    exact hvx
  · unfold star_vy32
    rw [eVH, eVD, eH]
    have e : (2304 : α) / 2 = 1152 := by norm_num
    rw [e]
    have e2 : fl32 (fl64 (fl64 (fl64 (fl64 (star_rx32 y dz / (15 / 2)) * 2304) / 2) + 1152))
        - 1152 - 10 * 2304 / (2 * (15 / 2)) * y / dz
        = fl32 (fl64 (fl64 (fl64 (fl64 (star_rx32 y dz / (15 / 2)) * 2304) / 2) + 1152))
          - (10 * y / dz / (15 / 2) * 2304 / 2 + 1152) := by
      field_simp
      ring
    rw [e2]
    exact hvy
  · unfold star_vx32 star_rx32
    rw [eW]
    have e : (3072 : α) / 2 = 1536 := by norm_num
    rw [e]
    exact star_v32_axis dz _ _ 1536 ⟨1536, 0, by norm_num, by norm_num, by norm_num⟩
  · unfold star_vy32 star_rx32
    rw [eH]
    have e : (2304 : α) / 2 = 1152 := by norm_num
    rw [e]
    exact star_v32_axis dz _ _ 1152 ⟨1152, 0, by norm_num, by norm_num, by norm_num⟩

/-- The star at `(3, 4)` and the depth 20. -/
theorem canvas_square_pixels_witness :
    |star_vx32 (3 : ℚ) 20 - (FULL_WIDTH : ℚ) / 2
      - VIEWPORT_DISTANCE * (FULL_WIDTH : ℚ) / (2 * VIEWPORT_WIDTH) * 3 / 20| ≤ 1 / 100 ∧
    |star_vy32 (4 : ℚ) 20 - (FULL_HEIGHT : ℚ) / 2
      - VIEWPORT_DISTANCE * (FULL_HEIGHT : ℚ) / (2 * VIEWPORT_HEIGHT) * 4 / 20| ≤ 1 / 100 :=
  have h := canvas_square_pixels (3 : ℚ) 4 20 (by rw [abs_of_pos] <;> norm_num)
    (by rw [abs_of_pos] <;> norm_num) (by norm_num [VIEWPORT_DISTANCE])
  ⟨h.2.2.1, h.2.2.2.1⟩

/-- C15 fails as stated: for `x = 1` and the depth `dz = 7` the code computes
`rx = 5991863 / 2 ^ 22` and `vx = 14380471 / 2 ^ 13`, so
`vx - FULL_WIDTH / 2 = 219.4285888671875`, which is not `k * x / dz = 1536 / 7`. -/
theorem canvas_projection_rounded :
    star_rx32 (1 : ℚ) 7 = 5991863 / 4194304 ∧
    star_vx32 (1 : ℚ) 7 = 14380471 / 8192 ∧
    star_vx32 (1 : ℚ) 7 - (FULL_WIDTH : ℚ) / 2
      ≠ VIEWPORT_DISTANCE * (FULL_WIDTH : ℚ) / (2 * VIEWPORT_WIDTH) * 1 / 7 := by
  have h1 : fl64 ((1 : ℚ) * VIEWPORT_DISTANCE) = 10 := by
    have e : (1 : ℚ) * VIEWPORT_DISTANCE = ((10 : Int) : ℚ) := by
      unfold VIEWPORT_DISTANCE; norm_num
    rw [e, fl64_intCast 10 (by norm_num)]
    norm_num
  have h2 : fl64 ((10 : ℚ) / 7) = 6433713753386423 / 4503599627370496 :=
    fl64_eq_of_near _ 0 6433713753386423 _ (by norm_num) (by norm_num) (by norm_num)
      (by norm_num) (by norm_num) (by norm_num)
  have h3 : fl32 ((6433713753386423 : ℚ) / 4503599627370496) = 5991863 / 4194304 :=
    fl32_eq_of_near _ 0 11983726 _ (by norm_num) (by norm_num) (by norm_num)
      (by norm_num) (by norm_num) (by norm_num)
  have hrx : star_rx32 (1 : ℚ) 7 = 5991863 / 4194304 := by
    unfold star_rx32
    rw [h1, h2, h3]
  have h4 : fl64 ((5991863 : ℚ) / 4194304 / VIEWPORT_WIDTH)
      = 2573485562711245 / 18014398509481984 :=
    fl64_eq_of_near _ (-3) 5146971125422490 _ (by norm_num [VIEWPORT_WIDTH])
      (by norm_num [VIEWPORT_WIDTH]) (by norm_num) (by norm_num [VIEWPORT_WIDTH])
      (by norm_num [VIEWPORT_WIDTH]) (by norm_num)
  have h5 : fl64 ((2573485562711245 : ℚ) / 18014398509481984 * (FULL_WIDTH : ℚ))
      = 7720456688133735 / 17592186044416 :=
    round_to_eq_self 53 (-1022) ⟨7720456688133735, -44, by norm_num [FULL_WIDTH],
      by norm_num, by norm_num⟩ |>.trans (by norm_num [FULL_WIDTH])
  have h6 : fl64 ((7720456688133735 : ℚ) / 17592186044416 / 2)
      = 7720456688133735 / 35184372088832 :=
    round_to_eq_self 53 (-1022) ⟨7720456688133735, -45, by norm_num,
      by norm_num, by norm_num⟩ |>.trans (by norm_num)
  have h7 : fl64 ((7720456688133735 : ℚ) / 35184372088832 + (FULL_WIDTH : ℚ) / 2)
      = 7720456527072461 / 4398046511104 :=
    fl64_eq_of_near _ 10 7720456527072461 _ (by norm_num [FULL_WIDTH])
      (by norm_num [FULL_WIDTH]) (by norm_num) (by norm_num [FULL_WIDTH])
      (by norm_num [FULL_WIDTH]) (by norm_num)
  have h8 : fl32 ((7720456527072461 : ℚ) / 4398046511104) = 14380471 / 8192 :=
    fl32_eq_of_near _ 10 14380471 _ (by norm_num) (by norm_num) (by norm_num)
      (by norm_num) (by norm_num) (by norm_num)
  have hvx : star_vx32 (1 : ℚ) 7 = 14380471 / 8192 := by
    unfold star_vx32
    rw [hrx, h4, h5, h6, h7, h8]
  refine ⟨hrx, hvx, ?_⟩
  rw [hvx]
  norm_num [FULL_WIDTH, VIEWPORT_DISTANCE, VIEWPORT_WIDTH]

end ProjectionTheorems

/-! ## The assertions of the reference disc -/

/-- C16: `init_circle` never trips an assertion: for `x` and `y` below
`CIRCLE_SIZE` the normalized coordinates lie strictly between -1 and 1, the
target pixel `(CIRCLE_CANVAS_SIZE / 2 - CIRCLE_SIZE / 2 + x,
CIRCLE_CANVAS_SIZE / 2 - CIRCLE_SIZE / 2 + y)` lies inside the canvas of
`CIRCLE_CANVAS_SIZE x CIRCLE_CANVAS_SIZE` pixels, the body of the loop succeeds
on every canvas of that size, and so does `init_circle` as a whole. -/
theorem init_circle_assertions (α : Type) [LinearOrderedField α] (x y : Nat)
    (hx : x < CIRCLE_SIZE) (hy : y < CIRCLE_SIZE) :
    ((circle_coord x : α) > -1 ∧ (circle_coord x : α) < 1) ∧
    ((circle_coord y : α) > -1 ∧ (circle_coord y : α) < 1) ∧
    circle_bitmap_coord x = CIRCLE_CANVAS_SIZE / 2 - CIRCLE_SIZE / 2 + x ∧
    circle_bitmap_coord y = CIRCLE_CANVAS_SIZE / 2 - CIRCLE_SIZE / 2 + y ∧
    circle_bitmap_coord x < CIRCLE_CANVAS_SIZE ∧ circle_bitmap_coord y < CIRCLE_CANVAS_SIZE ∧
    (∀ circle : bitmap_t, circle.width = CIRCLE_CANVAS_SIZE →
      circle.height = CIRCLE_CANVAS_SIZE → (init_circle_body α y circle x).isSome = true) ∧
    (init_circle α).isSome = true := by
  have hx1 : x < 32 := hx
  have hy1 : y < 32 := hy
  have hcx := @circle_coord_range α _ x hx1
  have hcy := @circle_coord_range α _ y hy1
  have hbx := circle_bitmap_coord_eq x hx1
  have hby := circle_bitmap_coord_eq y hy1
  refine ⟨hcx, hcy, ?_, ?_, ?_, ?_, ?_, ?_⟩
  · rw [hbx]
    rfl
  · rw [hby]
    rfl
  · rw [hbx]
    show 48 + x < 128
    omega
  · rw [hby]
    show 48 + y < 128
    omega
  · intro circle hw hh
    unfold init_circle_body
    rw [if_pos ⟨hcx.1, hcx.2, hcy.1, hcy.2⟩]
    unfold bitmap_set_pixel
    rw [if_pos ⟨by rw [hbx, hw]; show 48 + x < 128; omega,
      by rw [hby, hh]; show 48 + y < 128; omega⟩]
    rfl
  · rw [init_circle_eq α]
    rfl

/-- The first iteration of the loops of `init_circle` passes its assertions. -/
theorem init_circle_assertions_witness :
    ((circle_coord 0 : ℚ) > -1 ∧ (circle_coord 0 : ℚ) < 1) ∧
    circle_bitmap_coord 0 < CIRCLE_CANVAS_SIZE ∧ (init_circle ℚ).isSome = true :=
  have h := init_circle_assertions ℚ 0 0 (by decide) (by decide)
  ⟨h.1, h.2.2.2.2.1, h.2.2.2.2.2.2.2⟩

/-! ## The sub-region of the reference disc -/

section SubRegionTheorems

variable {α : Type} [LinearOrderedField α] [FloorRing α]

/-- The side of the extracted sub-region is the floor of `32 * n / s`, with
`n` the whole-pixel size of the sprite, and lies between 102 and 128. -/
theorem canvas_sub_size_spec (s : α) (hs : 1 < s) :
    102 ≤ canvas_sub_size s ∧ canvas_sub_size s ≤ 128 ∧
      ((canvas_sub_size s : Nat) : α) ≤ 32 * ((canvas_real_pixel_size s : Nat) : α) / s ∧
      32 * ((canvas_real_pixel_size s : Nat) : α) / s < ((canvas_sub_size s : Nat) : α) + 1 := by
  obtain ⟨h4, hle, hlt, -⟩ := canvas_real_pixel_size_spec s hs
  have h4c : (4 : α) ≤ ((canvas_real_pixel_size s : Nat) : α) := by exact_mod_cast h4
  have hs0 : (0 : α) < s := by linarith
  have hq : (CIRCLE_CANVAS_SIZE : α)
      * (((canvas_real_pixel_size s : Nat) : α) / canvas_ideal_pixel_size s)
      = 32 * ((canvas_real_pixel_size s : Nat) : α) / s := by
    rw [canvas_ideal_pixel_size_eq]
    unfold CIRCLE_CANVAS_SIZE
    push_cast
    field_simp
    ring
  have hq0 : (0 : α) ≤ 32 * ((canvas_real_pixel_size s : Nat) : α) / s := by positivity
  have hsub : canvas_sub_size s
      = Nat.floor (32 * ((canvas_real_pixel_size s : Nat) : α) / s) := by
    unfold canvas_sub_size float_to_unsigned
    rw [hq]
  refine ⟨?_, ?_, ?_, ?_⟩
  · rw [hsub]
    apply Nat.le_floor
    rw [le_div_iff₀ hs0]
    push_cast
    nlinarith
  · rw [hsub]
    apply Nat.floor_le_of_le
    rw [div_le_iff₀ hs0]
    push_cast
    nlinarith
  · rw [hsub]
    exact Nat.floor_le hq0
  · rw [hsub]
    exact Nat.lt_floor_add_one _

/-- C18: for every apparent size greater than 1 the sub-region that
`scale_circle` extracts, with origin `canvas_border` and side
`canvas_sub_size`, lies inside the reference canvas and contains the square of
the drawn disc: `canvas_sub_size ≤ CIRCLE_CANVAS_SIZE`, `canvas_border ≤ 48`
and `80 ≤ canvas_border + canvas_sub_size ≤ 128`. -/
theorem canvas_sub_region_inside (s : α) (hs : 1 < s) :
    canvas_sub_size s ≤ CIRCLE_CANVAS_SIZE ∧
    canvas_border s = (CIRCLE_CANVAS_SIZE - canvas_sub_size s) / 2 ∧
    canvas_border s ≤ 48 ∧ 80 ≤ canvas_border s + canvas_sub_size s ∧
    canvas_border s + canvas_sub_size s ≤ 128 ∧ CIRCLE_CANVAS_SIZE = 128 ∧
    CIRCLE_CANVAS_SIZE / 2 - CIRCLE_SIZE / 2 = 48 ∧
    CIRCLE_CANVAS_SIZE / 2 - CIRCLE_SIZE / 2 + CIRCLE_SIZE = 80 := by
  obtain ⟨h1, h2, -, -⟩ := canvas_sub_size_spec s hs
  have hb : canvas_border s = (128 - canvas_sub_size s) / 2 := by
    unfold canvas_border usub UINT_MOD CIRCLE_CANVAS_SIZE
    omega
  refine ⟨h2, hb, ?_, ?_, ?_, rfl, rfl, rfl⟩
  · omega
  · omega
  · omega

/-- The apparent size 5/4 gives a sub-region inside the reference canvas. -/
theorem canvas_sub_region_inside_witness :
    canvas_border (5 / 4 : ℚ) ≤ 48 ∧
    80 ≤ canvas_border (5 / 4 : ℚ) + canvas_sub_size (5 / 4 : ℚ) ∧
    canvas_border (5 / 4 : ℚ) + canvas_sub_size (5 / 4 : ℚ) ≤ 128 :=
  have h := canvas_sub_region_inside (5 / 4 : ℚ) (by norm_num)
  ⟨h.2.2.1, h.2.2.2.1, h.2.2.2.2.1⟩

/-! ## The sub-region of the reference disc in `float` arithmetic -/

/-- For a `float` apparent size greater than 1 the ideal size of the sprite
is computed without rounding. -/
theorem canvas_ideal_pixel_size32_eq (s : α) (hr : representable 24 (-126) s) (hs : 1 < s) :
    canvas_ideal_pixel_size32 s = 4 * s := by
  obtain ⟨m, k, hx, hm0, hm, hk⟩ := representable_exponent 24 (-126) hr hs
  have e1 : fl32 (s / (CIRCLE_SIZE : α)) = s / 32 := by
    have e : s / (CIRCLE_SIZE : α) = s / 32 := by unfold CIRCLE_SIZE; norm_num
    rw [e]
    refine round_to_eq_self 24 (-126) ⟨m, k - 5, ?_, by rw [abs_of_pos hm0]; exact hm, by
      push_cast at hk ⊢; omega⟩
    rw [hx, zpow_sub₀ (by norm_num)]
    norm_num
    ring
  have e2 : fl32 ((CIRCLE_CANVAS_SIZE : α) * (s / 32)) = 4 * s := by
    have e : (CIRCLE_CANVAS_SIZE : α) * (s / 32) = 4 * s := by
      unfold CIRCLE_CANVAS_SIZE; push_cast; ring
    rw [e]
    refine round_to_eq_self 24 (-126) ⟨m, k + 2, ?_, by rw [abs_of_pos hm0]; exact hm, by
      push_cast at hk ⊢; omega⟩
    rw [hx, zpow_add₀ (by norm_num)]
    norm_num
    ring
  unfold canvas_ideal_pixel_size32
  rw [e1, e2]

/-- For a `float` apparent size greater than 1 the whole-pixel size of the
sprite is the one of exact arithmetic, and its conversion to `float` is
exact. -/
theorem canvas_real_pixel_size32_eq (s : α) (hr : representable 24 (-126) s) (hs : 1 < s) :
    canvas_real_pixel_size32 s = canvas_real_pixel_size s ∧
    fl32 ((canvas_real_pixel_size32 s : Nat) : α) = ((canvas_real_pixel_size32 s : Nat) : α) := by
  have hid := canvas_ideal_pixel_size32_eq s hr hs
  have e : canvas_real_pixel_size32 s = canvas_real_pixel_size s := by
    unfold canvas_real_pixel_size32 canvas_real_pixel_size
    rw [hid, canvas_ideal_pixel_size_eq]
  refine ⟨e, ?_⟩
  rw [e]
  obtain ⟨h4, hle, hlt, hfl⟩ := canvas_real_pixel_size_spec s hs
  rcases lt_or_le (4 * s) ((2 : α) ^ (24 : Nat)) with hsmall | hbig
  · have hn : ((canvas_real_pixel_size s : Nat) : Int) < 2 ^ 24 := by
      have : ((canvas_real_pixel_size s : Nat) : α) < (((2 : Int) ^ 24 : Int) : α) := by
        push_cast
        linarith
      have h2 : (((canvas_real_pixel_size s : Nat) : Int) : α) < (((2 : Int) ^ 24 : Int) : α) := by
        push_cast
        push_cast at this
        exact this
      exact Int.cast_lt.1 h2
    have := @fl32_intCast α _ _ ((canvas_real_pixel_size s : Nat) : Int)
      (by rw [abs_of_nonneg (by positivity)]; exact hn)
    push_cast at this
    exact this
  · have h4r : representable 24 (-126) (4 * s) := by
      have := representable_mul_two_pow 24 (-126) hr 2
      have e4 : s * (2 : α) ^ 2 = 4 * s := by ring
      rwa [e4] at this
    obtain ⟨N, hN⟩ := round_to_int_of_large 24 (-126) (4 * s) (by
      refine le_trans ?_ hbig
      rw [← zpow_natCast]
      exact two_zpow_le (by norm_num))
    rw [round_to_eq_self 24 (-126) h4r] at hN
    have hn : ((canvas_real_pixel_size s : Nat) : α) = 4 * s := by
      have h1 : ((canvas_real_pixel_size s : Nat) : α)
          = (((canvas_real_pixel_size s : Nat) : Int) : α) := by push_cast; rfl
      rw [h1, hfl, canvas_ideal_pixel_size_eq, hN, Int.floor_intCast]
    rw [hn]
    exact round_to_eq_self 24 (-126) h4r

/-- The rounding of a quotient between 1/2 and 1, and of its product
with 128. -/
theorem fl32_quotient_spec (x : α) (hxge : 1 / 2 ≤ x) (hxle : x ≤ 1) :
    0 ≤ fl32 x ∧ fl32 x ≤ 1 ∧ fl32 x ≤ x * (1 + 1 / 2 ^ 24) ∧
      fl32 ((CIRCLE_CANVAS_SIZE : α) * fl32 x) = 128 * fl32 x ∧ fl32 (1 : α) = 1 := by
  have hone : fl32 (1 : α) = 1 := by
    have := @fl32_intCast α _ _ 1 (by norm_num)
    simpa using this
  have hrle : fl32 x ≤ 1 := by
    rw [← hone]
    exact fl32_mono hxle
  have hrel : fl32 x ≤ x * (1 + 1 / 2 ^ 24) := by
    have hn : (2 : α) ^ (-126 : Int) ≤ x := by
      refine le_trans (two_zpow_le (show (-126 : Int) ≤ -1 by norm_num)) ?_
      rw [zpow_neg_one]
      linarith
    have h := abs_round_to_sub_le_of_normal 24 (-126) hn
    have hv : (2 : α) ^ (-((24 : Nat) : Int)) = 1 / 2 ^ 24 := by
      rw [zpow_neg, zpow_natCast]
      norm_num
    rw [hv] at h
    have := (abs_le.1 h).2
    unfold fl32
    linarith
  have hexact : fl32 ((CIRCLE_CANVAS_SIZE : α) * fl32 x) = 128 * fl32 x := by
    have e128 : (CIRCLE_CANVAS_SIZE : α) = 128 := by
      unfold CIRCLE_CANVAS_SIZE
      norm_num
    rw [e128]
    have h1 := representable_mul_two_pow 24 (-126)
      (representable_round_to 24 (-126) (by norm_num) x) 7
    have e : round_to 24 (-126) x * (2 : α) ^ 7 = 128 * fl32 x := by
      unfold fl32
      ring
    rw [e] at h1
    exact round_to_eq_self 24 (-126) h1
  exact ⟨round_to_nonneg 24 (-126) (by linarith), hrle, hrel, hexact, hone⟩

/-- A multiple of 1/128 up to 1 is a `float`. -/
theorem fl32_div_128 (k : Nat) (hk : k ≤ 128) : fl32 ((k : α) / 128) = (k : α) / 128 := by
  refine round_to_eq_self 24 (-126) ⟨(k : Int), -7, ?_, ?_, by norm_num⟩
  · rw [zpow_neg, zpow_ofNat]
    push_cast
    norm_num
    ring
  · rw [abs_of_nonneg (by positivity)]
    norm_num
    omega

/-- The side of the extracted sub-region in `float` arithmetic: the floor of
128 times the rounded quotient of the whole-pixel size by the ideal size; it
is at most 128 and not below its value in exact arithmetic. -/
theorem canvas_sub_size32_spec (s : α) (hr : representable 24 (-126) s) (hs : 1 < s) :
    canvas_sub_size32 s
      = Nat.floor (128 * fl32 (((canvas_real_pixel_size s : Nat) : α) / (4 * s))) ∧
    canvas_sub_size s ≤ canvas_sub_size32 s ∧ canvas_sub_size32 s ≤ 128 ∧
    ((canvas_sub_size32 s : Nat) : α) * s
      ≤ 32 * ((canvas_real_pixel_size s : Nat) : α) * (1 + 1 / 2 ^ 24) := by
  obtain ⟨h102, h128, hle, hlt⟩ := canvas_sub_size_spec s hs
  obtain ⟨h4, hnle, hnlt, hfl⟩ := canvas_real_pixel_size_spec s hs
  obtain ⟨hreal, hconv⟩ := canvas_real_pixel_size32_eq s hr hs
  have hid := canvas_ideal_pixel_size32_eq s hr hs
  have hs0 : (0 : α) < s := by linarith
  have h4c : (4 : α) ≤ ((canvas_real_pixel_size s : Nat) : α) := by exact_mod_cast h4
  rw [le_div_iff₀ hs0] at hle
  obtain ⟨x, hx⟩ : ∃ x : α, x = ((canvas_real_pixel_size s : Nat) : α) / (4 * s) := ⟨_, rfl⟩
  have hx1 : x * (4 * s) = ((canvas_real_pixel_size s : Nat) : α) := by
    rw [hx]
    field_simp
  have hxle : x ≤ 1 := by
    rw [hx, div_le_one (by linarith)]
    exact hnle
  have hxge : 1 / 2 ≤ x := by
    rw [hx, le_div_iff₀ (by linarith)]
    linarith
  obtain ⟨hr0, hrle, hrel, hexact, -⟩ := fl32_quotient_spec x hxge hxle
  have hsub : canvas_sub_size32 s = Nat.floor (128 * fl32 x) := by
    unfold canvas_sub_size32 float_to_unsigned
    rw [hconv, hid, hreal, ← hx, hexact]
  have hkle : ((canvas_sub_size s : Nat) : α) ≤ 128 * fl32 x := by
    have hle2 : ((canvas_sub_size s : Nat) : α) / 128 ≤ x := by
      rw [div_le_iff₀ (by norm_num)]
      have : ((canvas_sub_size s : Nat) : α) * s ≤ x * 128 * s := by
        calc ((canvas_sub_size s : Nat) : α) * s
            ≤ 32 * ((canvas_real_pixel_size s : Nat) : α) := hle
          _ = x * 128 * s := by rw [← hx1]; ring
      exact le_of_mul_le_mul_right this hs0
    have := fl32_mono hle2
    rw [fl32_div_128 _ h128] at this
    linarith
  rw [← hx]
  refine ⟨hsub, ?_, ?_, ?_⟩
  · rw [hsub]
    exact Nat.le_floor hkle
  · rw [hsub]
    apply Nat.floor_le_of_le
    push_cast
    linarith
  · have h1 : ((canvas_sub_size32 s : Nat) : α) ≤ 128 * fl32 x := by
      rw [hsub]
      exact Nat.floor_le (by linarith)
    calc ((canvas_sub_size32 s : Nat) : α) * s
        ≤ 128 * (x * (1 + 1 / 2 ^ 24)) * s :=
          mul_le_mul_of_nonneg_right (by linarith) hs0.le
      _ = 32 * (x * (4 * s)) * (1 + 1 / 2 ^ 24) := by ring
      _ = 32 * ((canvas_real_pixel_size s : Nat) : α) * (1 + 1 / 2 ^ 24) := by rw [hx1]

/-- C19, as the code has it: for every `float` apparent size `s` greater than
1 the side of the extracted sub-region, with the rounding of the division of
`float`, lies between 102 and 128 and is not below its value in exact
arithmetic, and the diameter
`D = CIRCLE_SIZE * canvas_real_pixel_size / canvas_sub_size` at which the disc
appears in the sprite satisfies `(1 - 2 ^ (-24)) * s ≤ D < 1.01 * s`, with
`D = s` when `CIRCLE_CANVAS_SIZE * s / CIRCLE_SIZE` is an integer. -/
theorem sprite_disc_diameter (s : α) (hr : representable 24 (-126) s) (hs : 1 < s) :
    canvas_sub_size s ≤ canvas_sub_size32 s ∧
    102 ≤ canvas_sub_size32 s ∧ canvas_sub_size32 s ≤ 128 ∧
    (1 - 1 / 2 ^ 24) * s ≤ (CIRCLE_SIZE : α) * ((canvas_real_pixel_size32 s : Nat) : α)
        / ((canvas_sub_size32 s : Nat) : α) ∧
    (CIRCLE_SIZE : α) * ((canvas_real_pixel_size32 s : Nat) : α)
        / ((canvas_sub_size32 s : Nat) : α) < 101 / 100 * s ∧
    ((∃ k : Int, (CIRCLE_CANVAS_SIZE : α) * s / (CIRCLE_SIZE : α) = (k : α)) →
      (CIRCLE_SIZE : α) * ((canvas_real_pixel_size32 s : Nat) : α)
        / ((canvas_sub_size32 s : Nat) : α) = s) := by
  obtain ⟨h102, h128, hle, hlt⟩ := canvas_sub_size_spec s hs
  obtain ⟨h4, hnle, hnlt, hfl⟩ := canvas_real_pixel_size_spec s hs
  obtain ⟨hreal, -⟩ := canvas_real_pixel_size32_eq s hr hs
  obtain ⟨hsub, hge, hle128, hup⟩ := canvas_sub_size32_spec s hr hs
  have hs0 : (0 : α) < s := by linarith
  rw [div_lt_iff₀ hs0] at hlt
  have e32 : (CIRCLE_SIZE : α) = 32 := by
    unfold CIRCLE_SIZE
    norm_num
  have hkc : ((canvas_sub_size s : Nat) : α) ≤ ((canvas_sub_size32 s : Nat) : α) := by
    exact_mod_cast hge
  have h102c : (102 : α) ≤ ((canvas_sub_size s : Nat) : α) := by exact_mod_cast h102
  have hsub0 : (0 : α) < ((canvas_sub_size32 s : Nat) : α) := by linarith
  rw [e32, hreal]
  refine ⟨hge, by omega, hle128, ?_, ?_, ?_⟩
  · rw [le_div_iff₀ hsub0]
    have h2 : (0 : α) ≤ 1 - 1 / 2 ^ 24 := by norm_num
    calc (1 - 1 / 2 ^ 24) * s * ((canvas_sub_size32 s : Nat) : α)
        = (1 - 1 / 2 ^ 24) * (((canvas_sub_size32 s : Nat) : α) * s) := by ring
      _ ≤ (1 - 1 / 2 ^ 24)
            * (32 * ((canvas_real_pixel_size s : Nat) : α) * (1 + 1 / 2 ^ 24)) :=
          mul_le_mul_of_nonneg_left hup h2
      _ = (1 - 1 / 2 ^ 24) * (1 + 1 / 2 ^ 24)
            * (32 * ((canvas_real_pixel_size s : Nat) : α)) := by ring
      _ ≤ 1 * (32 * ((canvas_real_pixel_size s : Nat) : α)) := by
          apply mul_le_mul_of_nonneg_right _ (by positivity)
          norm_num
      _ = 32 * ((canvas_real_pixel_size s : Nat) : α) := by ring
  · rw [div_lt_iff₀ hsub0]
    have hb : (((canvas_sub_size s : Nat) : α) + 1) * s
        ≤ 101 / 100 * ((canvas_sub_size32 s : Nat) : α) * s :=
      mul_le_mul_of_nonneg_right (by linarith) hs0.le
    linarith
  · rintro ⟨k, hk⟩
    have hideal : canvas_ideal_pixel_size s = (k : α) := by
      rw [← hk]
      unfold canvas_ideal_pixel_size
      rw [e32]
      ring
    have hn : ((canvas_real_pixel_size s : Nat) : α) = 4 * s := by
      have h1 : ((canvas_real_pixel_size s : Nat) : α)
          = (((canvas_real_pixel_size s : Nat) : Int) : α) := by push_cast; rfl
      rw [h1, hfl, hideal, Int.floor_intCast, ← hideal, canvas_ideal_pixel_size_eq]
    have hx2 : ((canvas_real_pixel_size s : Nat) : α) / (4 * s) = 1 := by
      rw [hn]
      field_simp
    have hone : fl32 (1 : α) = 1 := by
      have := @fl32_intCast α _ _ 1 (by norm_num)
      simpa using this
    have hs128 : canvas_sub_size32 s = 128 := by
      rw [hsub, hx2, hone]
      have : (128 : α) * 1 = ((128 : Nat) : α) := by norm_num
      rw [this, Nat.floor_natCast]
    rw [hs128, hn]
    push_cast
    ring

/-- The apparent size 5/4. -/
theorem sprite_disc_diameter_witness :
    (1 - 1 / 2 ^ 24) * (5 / 4 : ℚ)
      ≤ (CIRCLE_SIZE : ℚ) * ((canvas_real_pixel_size32 (5 / 4 : ℚ) : Nat) : ℚ)
        / ((canvas_sub_size32 (5 / 4 : ℚ) : Nat) : ℚ) ∧
    (CIRCLE_SIZE : ℚ) * ((canvas_real_pixel_size32 (5 / 4 : ℚ) : Nat) : ℚ)
        / ((canvas_sub_size32 (5 / 4 : ℚ) : Nat) : ℚ) < 101 / 100 * (5 / 4 : ℚ) :=
  have h := sprite_disc_diameter (5 / 4 : ℚ) ⟨5, -2, by norm_num, by norm_num, by norm_num⟩
    (by norm_num)
  ⟨h.2.2.2.1, h.2.2.2.2.1⟩

/-- C19 fails as stated: for the `float` apparent size
`s = 11278801 / 2 ^ 23` (about 1.3445379) the whole-pixel size is 5, the
quotient `5 / (4 * s)` is rounded up to `119 / 128`, the sub-region has the
side 119 and the disc appears with the diameter `160 / 119`, which is less
than `s`. -/
theorem sprite_disc_diameter_below :
    representable 24 (-126) (11278801 / 8388608 : ℚ) ∧ (1 : ℚ) < 11278801 / 8388608 ∧
    canvas_real_pixel_size32 (11278801 / 8388608 : ℚ) = 5 ∧
    canvas_sub_size32 (11278801 / 8388608 : ℚ) = 119 ∧
    ¬ ((11278801 / 8388608 : ℚ)
      ≤ (CIRCLE_SIZE : ℚ) * ((canvas_real_pixel_size32 (11278801 / 8388608 : ℚ) : Nat) : ℚ)
        / ((canvas_sub_size32 (11278801 / 8388608 : ℚ) : Nat) : ℚ)) := by
  have hr : representable 24 (-126) (11278801 / 8388608 : ℚ) :=
    ⟨11278801, -23, by norm_num, by norm_num, by norm_num⟩
  have hs : (1 : ℚ) < 11278801 / 8388608 := by norm_num
  have hid := canvas_ideal_pixel_size32_eq (11278801 / 8388608 : ℚ) hr hs
  have hn : canvas_real_pixel_size32 (11278801 / 8388608 : ℚ) = 5 := by
    unfold canvas_real_pixel_size32 float_to_unsigned floorf
    rw [hid]
    have : Int.floor ((4 : ℚ) * (11278801 / 8388608)) = 5 := by
      rw [Int.floor_eq_iff]
      norm_num
    rw [this]
    have : (((5 : Int) : ℚ)) = ((5 : Nat) : ℚ) := by norm_num
    rw [this, Nat.floor_natCast]
  have h5 : fl32 (((5 : Nat) : ℚ)) = 5 := by
    have := @fl32_intCast ℚ _ _ 5 (by norm_num)
    simpa using this
  have hq : fl32 ((5 : ℚ) / (4 * (11278801 / 8388608))) = 119 / 128 := by
    have := round_to_eq_of_near 24 (-126) ((5 : ℚ) / (4 * (11278801 / 8388608))) (-1) 15597568
      (by norm_num) (by norm_num) (by norm_num) (by norm_num) (by norm_num)
    unfold fl32
    rw [this]
    norm_num
  have h119 : fl32 ((CIRCLE_CANVAS_SIZE : ℚ) * (119 / 128)) = ((119 : Nat) : ℚ) := by
    have e : (CIRCLE_CANVAS_SIZE : ℚ) * (119 / 128) = ((119 : Int) : ℚ) := by
      unfold CIRCLE_CANVAS_SIZE
      norm_num
    rw [e, fl32_intCast 119 (by norm_num)]
    norm_num
  have hsub : canvas_sub_size32 (11278801 / 8388608 : ℚ) = 119 := by
    unfold canvas_sub_size32 float_to_unsigned
    rw [hn, h5, hid, hq, h119, Nat.floor_natCast]
  refine ⟨hr, hs, hn, hsub, ?_⟩
  rw [hn, hsub]
  unfold CIRCLE_SIZE
  norm_num

end SubRegionTheorems

/-! ## The apparent size of a star -/

/-- Comparison of two multiples of square roots by their squares. -/
theorem mul_sqrt_lt_mul_sqrt (u v p q : ℝ) (hu : 0 ≤ u) (hv : 0 ≤ v) (hp : 0 ≤ p)
    (h : u ^ 2 * p < v ^ 2 * q) : u * Real.sqrt p < v * Real.sqrt q := by
  have e1 : u * Real.sqrt p = Real.sqrt (u ^ 2 * p) := by
    rw [Real.sqrt_mul (sq_nonneg u), Real.sqrt_sq hu]
  have e2 : v * Real.sqrt q = Real.sqrt (v ^ 2 * q) := by
    rw [Real.sqrt_mul (sq_nonneg v), Real.sqrt_sq hv]
  rw [e1, e2]
  exact Real.sqrt_lt_sqrt (mul_nonneg (sq_nonneg u) hp) h

/-- The square of the depth `ndz` plus the square of the corridor radius. -/
theorem frame_nd_sq :
    (frame_ndz : ℝ) * frame_ndz + (CORRIDOR_DIAMETER : ℝ) * (CORRIDOR_DIAMETER : ℝ) / 4
      = 182500 / 9 := by
  unfold frame_ndz VIEWPORT_DISTANCE VIEWPORT_HEIGHT VIEWPORT_WIDTH CORRIDOR_DIAMETER FULL_HEIGHT
    FULL_WIDTH
  norm_num

/-- A lower bound of the apparent size from the squared distance. -/
theorem lt_apparent_size (x y dz c : ℝ) (hc : 0 ≤ c) (hd : 0 < x * x + y * y + dz * dz)
    (h : c ^ 2 * (x * x + y * y + dz * dz) < 400 * (182500 / 9)) :
    c < apparent_size Real.sqrt x y dz := by
  unfold apparent_size star_d
  rw [frame_a_eq, frame_nd_sq, lt_div_iff₀ (Real.sqrt_pos.mpr hd)]
  have e20 : ((MAX_STAR_SIZE : Nat) : ℝ) = 20 := by
    unfold MAX_STAR_SIZE
    norm_num
  rw [e20]
  exact mul_sqrt_lt_mul_sqrt c 20 _ _ hc (by norm_num) (le_of_lt hd) (by linarith)

/-- An upper bound of the apparent size from the squared distance. -/
theorem apparent_size_lt (x y dz c : ℝ) (hc : 0 ≤ c) (hd : 0 < x * x + y * y + dz * dz)
    (h : 400 * (182500 / 9) < c ^ 2 * (x * x + y * y + dz * dz)) :
    apparent_size Real.sqrt x y dz < c := by
  unfold apparent_size star_d
  rw [frame_a_eq, frame_nd_sq, div_lt_iff₀ (Real.sqrt_pos.mpr hd)]
  have e20 : ((MAX_STAR_SIZE : Nat) : ℝ) = 20 := by
    unfold MAX_STAR_SIZE
    norm_num
  rw [e20]
  exact mul_sqrt_lt_mul_sqrt 20 c _ _ (by norm_num) hc (by norm_num) (by linarith)

/-- The depth at frame 0 of a star at longitudinal position `z`. -/
theorem star_dz_frame_zero (z : ℝ) (n : Int) (hz : z = (n : ℝ)) (hn0 : 0 ≤ n)
    (hn1 : n ≤ 1500) :
    star_dz (frame_pos 0 : ℝ) z = (CYLINDER_LENGTH : ℝ) + VIEWPORT_DISTANCE - z := by
  have hp : (frame_pos 0 : ℝ) = 0 := by
    rw [frame_pos_eq 0 le_rfl (by norm_num)]
    simp
  have hz0 : (0 : ℝ) ≤ z := by
    rw [hz]
    exact_mod_cast hn0
  have e1 : z - ((CYLINDER_LENGTH : Nat) : ℝ) = ((n - 1500 : Int) : ℝ) := by
    rw [hz]
    unfold CYLINDER_LENGTH
    push_cast
    ring
  have e2 : (0 : ℝ) - ((n - 1500 : Int) : ℝ) = ((1500 - n : Int) : ℝ) := by
    push_cast
    ring
  have e3 : ((1500 - n : Int) : ℝ) + VIEWPORT_DISTANCE = ((1510 - n : Int) : ℝ) := by
    unfold VIEWPORT_DISTANCE
    push_cast
    ring
  rw [hp]
  unfold star_dz wrapped_z
  rw [if_pos hz0, e1, fl32_intCast (n - 1500) (by rw [abs_lt]; constructor <;> omega), e2,
    fl32_intCast (1500 - n) (by rw [abs_lt]; constructor <;> omega), e3,
    fl64_intCast (1510 - n) (by rw [abs_lt]; constructor <;> omega),
    fl32_intCast (1510 - n) (by rw [abs_lt]; constructor <;> omega), hz]
  unfold CYLINDER_LENGTH VIEWPORT_DISTANCE
  push_cast
  ring

/-- C12 fails as stated: a star on the corridor boundary at the maximum depth
`CYLINDER_LENGTH + VIEWPORT_DISTANCE` has an apparent size below 2, not
`MAX_STAR_SIZE`. -/
theorem apparent_size_at_max_depth :
    (50 : ℝ) * 50 + 0 * 0 = ((CORRIDOR_DIAMETER : ℝ) / 2) ^ 2 ∧
    apparent_size Real.sqrt 50 0 ((CYLINDER_LENGTH : ℝ) + VIEWPORT_DISTANCE) < 2 ∧
    apparent_size Real.sqrt 50 0 ((CYLINDER_LENGTH : ℝ) + VIEWPORT_DISTANCE)
      ≠ (MAX_STAR_SIZE : ℝ) := by
  have e : (CYLINDER_LENGTH : ℝ) + VIEWPORT_DISTANCE = 1510 := by
    unfold CYLINDER_LENGTH VIEWPORT_DISTANCE
    norm_num
  have h2 : apparent_size Real.sqrt 50 0 ((CYLINDER_LENGTH : ℝ) + VIEWPORT_DISTANCE) < 2 := by
    rw [e]
    exact apparent_size_lt 50 0 1510 2 (by norm_num) (by norm_num) (by norm_num)
  refine ⟨?_, h2, ?_⟩
  · unfold CORRIDOR_DIAMETER
    norm_num
  · intro h
    rw [h] at h2
    unfold MAX_STAR_SIZE at h2
    norm_num at h2

/-- C12, as the code has it: a star on the corridor boundary at the depth
`ndz = VIEWPORT_DISTANCE * CORRIDOR_DIAMETER / VIEWPORT_HEIGHT = 400 / 3` has
the apparent size `a / d = MAX_STAR_SIZE` exactly. -/
theorem apparent_size_at_ndz (x y : ℝ)
    (h : x * x + y * y = ((CORRIDOR_DIAMETER : ℝ) / 2) ^ 2) :
    (frame_ndz : ℝ) = 400 / 3 ∧
    apparent_size Real.sqrt x y frame_ndz = (MAX_STAR_SIZE : ℝ) := by
  constructor
  · unfold frame_ndz VIEWPORT_DISTANCE VIEWPORT_HEIGHT VIEWPORT_WIDTH CORRIDOR_DIAMETER
      FULL_HEIGHT FULL_WIDTH
    norm_num
  · have e : x * x + y * y + (frame_ndz : ℝ) * frame_ndz
        = frame_ndz * frame_ndz + (CORRIDOR_DIAMETER : ℝ) * (CORRIDOR_DIAMETER : ℝ) / 4 := by
      rw [h]
      ring
    unfold apparent_size star_d
    rw [frame_a_eq, e, frame_nd_sq]
    have hpos : (0 : ℝ) < Real.sqrt (182500 / 9) := Real.sqrt_pos.mpr (by norm_num)
    field_simp

/-- The star at (50, 0) on the corridor boundary has the apparent size
`MAX_STAR_SIZE` at the depth `ndz`. -/
theorem apparent_size_at_ndz_witness :
    apparent_size Real.sqrt 50 0 frame_ndz = (MAX_STAR_SIZE : ℝ) :=
  (apparent_size_at_ndz 50 0 (by
    unfold CORRIDOR_DIAMETER
    norm_num)).2

/-- C11, the code at the failing input: at frame 0 the star at
`(x, y, z) = (50, 0, 1410)` lies on the corridor boundary, has the depth 100,
passes the cull test (it projects to `vx = 2304`), and its apparent size
`a / d` is greater than 25, hence greater than `MAX_STAR_SIZE`. -/
theorem apparent_size_exceeds_max :
    (50 : ℝ) * 50 + 0 * 0 = ((CORRIDOR_DIAMETER : ℝ) / 2) ^ 2 ∧
    star_dz (frame_pos 0 : ℝ) 1410 = 100 ∧
    star_vx (50 : ℝ) 100 = 2304 ∧
    cull_test (star_vx (50 : ℝ) 100) (star_vy (0 : ℝ) 100) ∧
    25 < apparent_size Real.sqrt 50 0 100 ∧
    (MAX_STAR_SIZE : ℝ) < apparent_size Real.sqrt 50 0 100 := by
  have h25 : (25 : ℝ) < apparent_size Real.sqrt 50 0 100 :=
    lt_apparent_size 50 0 100 25 (by norm_num) (by norm_num) (by norm_num)
  have hvx : star_vx (50 : ℝ) 100 = 2304 := by
    unfold star_vx VIEWPORT_DISTANCE VIEWPORT_WIDTH FULL_WIDTH
    norm_num
  have hvy : star_vy (0 : ℝ) 100 = 1152 := by
    unfold star_vy VIEWPORT_DISTANCE VIEWPORT_HEIGHT VIEWPORT_WIDTH FULL_WIDTH FULL_HEIGHT
    norm_num
  refine ⟨?_, ?_, hvx, ?_, h25, ?_⟩
  · unfold CORRIDOR_DIAMETER
    norm_num
  · rw [star_dz_frame_zero 1410 1410 (by norm_num) (by norm_num) (by norm_num)]
    unfold CYLINDER_LENGTH VIEWPORT_DISTANCE
    norm_num
  · rw [hvx, hvy]
    unfold cull_test MAX_STAR_SIZE FULL_WIDTH FULL_HEIGHT
    norm_num
  · unfold MAX_STAR_SIZE
    push_cast
    linarith

/-! ## The cull test -/

section CullTheorems

variable {α : Type} [LinearOrderedField α] [FloorRing α]

/-- For an apparent size greater than 1 and a reference canvas of 128x128
pixels, `scale_circle` passes its assertion, obtains its sub-region and returns
what `bitmap_scale` makes of it at the whole-pixel size. -/
theorem scale_circle_large (bitmap_scale : bitmap_t → Nat → Nat → bitmap_t) (circle : bitmap_t)
    (hw : circle.width = 128) (hh : circle.height = 128) (s : α) (hs : 1 < s) :
    ∃ v, bitmap_sub circle (canvas_border s) (canvas_border s) (canvas_sub_size s)
        (canvas_sub_size s) = some v ∧
      scale_circle bitmap_scale circle s
        = some (bitmap_scale v (canvas_real_pixel_size s) (canvas_real_pixel_size s)) := by
  obtain ⟨h102, h128, -, -⟩ := canvas_sub_size_spec s hs
  have hb : canvas_border s = (128 - canvas_sub_size s) / 2 := by
    unfold canvas_border usub UINT_MOD CIRCLE_CANVAS_SIZE
    omega
  have hin : canvas_border s + canvas_sub_size s ≤ circle.width ∧
      canvas_border s + canvas_sub_size s ≤ circle.height := by
    rw [hw, hh, hb]
    omega
  have hsub : bitmap_sub circle (canvas_border s) (canvas_border s) (canvas_sub_size s)
      (canvas_sub_size s) = some
        { width := canvas_sub_size s, height := canvas_sub_size s,
          pixel_stride := circle.pixel_stride, row_stride := circle.row_stride,
          data := circle.data
            + (canvas_border s * circle.row_stride + canvas_border s * circle.pixel_stride),
          mem := circle.mem } := by
    unfold bitmap_sub
    rw [if_pos hin]
  refine ⟨_, hsub, ?_⟩
  unfold scale_circle
  rw [if_neg (not_le.mpr hs), if_pos (show canvas_sub_size s ≥ CIRCLE_SIZE by
    unfold CIRCLE_SIZE
    omega), hsub]

/-- C14, as the code has it: a star that `render_frame` skips is left out
without any effect on the canvas, and every square of side at most
`MAX_STAR_SIZE` centred at its canvas coordinates `(vx, vy)` lies entirely
outside the canvas. -/
theorem culled_star_outside (bitmap_scale : bitmap_t → Nat → Nat → bitmap_t) (sqrtf : α → α)
    (circle : bitmap_t) (f : Int) (canvas : bitmap_t) (s : star_t α)
    (hc : ¬ cull_test (star_vx s.x (star_dz (frame_pos f) s.z))
      (star_vy s.y (star_dz (frame_pos f) s.z))) :
    render_star bitmap_scale sqrtf circle (frame_pos f) canvas s = some canvas ∧
    ∀ side : α, side ≤ (MAX_STAR_SIZE : α) →
      star_vx s.x (star_dz (frame_pos f) s.z) + side / 2 < 0 ∨
      (FULL_WIDTH : α) < star_vx s.x (star_dz (frame_pos f) s.z) - side / 2 ∨
      star_vy s.y (star_dz (frame_pos f) s.z) + side / 2 < 0 ∨
      (FULL_HEIGHT : α) < star_vy s.y (star_dz (frame_pos f) s.z) - side / 2 := by
  constructor
  · rw [render_star_eq, if_neg hc]
  · intro side hside
    unfold cull_test at hc
    by_contra hn
    push_neg at hn
    obtain ⟨h1, h2, h3, h4⟩ := hn
    apply hc
    refine ⟨?_, ?_, ?_, ?_⟩ <;> linarith

end CullTheorems

/-- At frame 0 the star at `(-202, 0, 1310)` is skipped and a square of side
`MAX_STAR_SIZE` around its canvas coordinates lies left of the canvas. -/
theorem culled_star_outside_witness :
    render_star scale_blank Real.sqrt (bitmap_new_empty 128 128) (frame_pos 0 : ℝ)
        (bitmap_new_empty FULL_WIDTH FULL_HEIGHT) { x := -202, y := 0, z := 1310, size := 1 }
      = some (bitmap_new_empty FULL_WIDTH FULL_HEIGHT) := by
  refine (culled_star_outside scale_blank Real.sqrt (bitmap_new_empty 128 128) 0
    (bitmap_new_empty FULL_WIDTH FULL_HEIGHT) { x := -202, y := 0, z := 1310, size := 1 } ?_).1
  rw [star_dz_frame_zero 1310 1310 (by norm_num) (by norm_num) (by norm_num)]
  unfold cull_test star_vx star_vy CYLINDER_LENGTH VIEWPORT_DISTANCE VIEWPORT_HEIGHT
    VIEWPORT_WIDTH MAX_STAR_SIZE FULL_WIDTH FULL_HEIGHT
  norm_num

/-- C14 fails as stated: at frame 0 the star at `(-202, 0, 1310)`, of radial
distance 202 and depth 200, fails the cull test with `vx = -15.36`, yet the
sprite that `scale_circle` makes for its apparent size is at least 32 pixels
wide, so the square of that side centred at `(vx, vy)` overlaps the canvas. -/
theorem culled_sprite_overlaps_canvas :
    star_dz (frame_pos 0 : ℝ) 1310 = 200 ∧
    ¬ cull_test (star_vx (-202 : ℝ) 200) (star_vy (0 : ℝ) 200) ∧
    ∃ star, scale_circle scale_blank (bitmap_new_empty 128 128)
        (apparent_size Real.sqrt (-202) 0 200) = some star ∧
      star_vx (-202 : ℝ) 200 - (star.width : ℝ) / 2 < (FULL_WIDTH : ℝ) ∧
      0 < star_vx (-202 : ℝ) 200 + (star.width : ℝ) / 2 ∧
      star_vy (0 : ℝ) 200 - (star.width : ℝ) / 2 < (FULL_HEIGHT : ℝ) ∧
      0 < star_vy (0 : ℝ) 200 + (star.width : ℝ) / 2 := by
  have hvx : star_vx (-202 : ℝ) 200 = -1536 / 100 := by
    unfold star_vx VIEWPORT_DISTANCE VIEWPORT_WIDTH FULL_WIDTH
    norm_num
  have hvy : star_vy (0 : ℝ) 200 = 1152 := by
    unfold star_vy VIEWPORT_DISTANCE VIEWPORT_HEIGHT VIEWPORT_WIDTH FULL_WIDTH FULL_HEIGHT
    norm_num
  have h8 : (8 : ℝ) < apparent_size Real.sqrt (-202) 0 200 :=
    lt_apparent_size (-202) 0 200 8 (by norm_num) (by norm_num) (by norm_num)
  have h1 : (1 : ℝ) < apparent_size Real.sqrt (-202) 0 200 := by linarith
  obtain ⟨v, -, hsc⟩ := scale_circle_large scale_blank (bitmap_new_empty 128 128) rfl rfl
    (apparent_size Real.sqrt (-202) 0 200) h1
  obtain ⟨-, -, hlt, -⟩ := canvas_real_pixel_size_spec (apparent_size Real.sqrt (-202) 0 200) h1
  have hw : (32 : ℝ) < ((canvas_real_pixel_size (apparent_size Real.sqrt (-202) 0 200) : Nat) : ℝ)
      + 1 := by linarith
  have hwn : 32 ≤ canvas_real_pixel_size (apparent_size Real.sqrt (-202) 0 200) := by
    have : (32 : Nat) < canvas_real_pixel_size (apparent_size Real.sqrt (-202) 0 200) + 1 := by
      exact_mod_cast hw
    omega
  have hwc : (32 : ℝ)
      ≤ ((canvas_real_pixel_size (apparent_size Real.sqrt (-202) 0 200) : Nat) : ℝ) := by
    exact_mod_cast hwn
  refine ⟨?_, ?_, _, hsc, ?_⟩
  · rw [star_dz_frame_zero 1310 1310 (by norm_num) (by norm_num) (by norm_num)]
    unfold CYLINDER_LENGTH VIEWPORT_DISTANCE
    norm_num
  · rw [hvx, hvy]
    unfold cull_test MAX_STAR_SIZE FULL_WIDTH FULL_HEIGHT
    norm_num
  · have hwidth : ((scale_blank v
          (canvas_real_pixel_size (apparent_size Real.sqrt (-202) 0 200))
          (canvas_real_pixel_size (apparent_size Real.sqrt (-202) 0 200))).width : ℝ)
        = ((canvas_real_pixel_size (apparent_size Real.sqrt (-202) 0 200) : Nat) : ℝ) := rfl
    rw [hwidth, hvx, hvy]
    unfold FULL_WIDTH FULL_HEIGHT
    push_cast
    refine ⟨?_, ?_, ?_, ?_⟩ <;> linarith

/-! ## Order of compositing -/

theorem set_mem_wf (b : bitmap_t) (m : Nat → Fin 256) (hwf : b.wf) : (b.set_mem m).wf := hwf

/-- Saturating addition of two amounts in either order. -/
theorem sat_add_comm (t : Fin 256) (k1 k2 : Nat) (v12 v21 v1 v2 : Fin 256)
    (h1 : v1.val = min 255 (t.val + k1)) (h2 : v2.val = min 255 (t.val + k2))
    (h12 : v12.val = min 255 (v1.val + k2)) (h21 : v21.val = min 255 (v2.val + k1)) :
    v12 = v21 := by
  apply Fin.ext
  omega

/-- The loops of `bitmap_add` add to every byte of the destination an amount
that does not depend on the bytes of the destination, with saturation. -/
theorem bitmap_add_loops_pointwise (vd vs : bitmap_t) (hwf : vd.wf) :
    ∃ k : Nat → Nat, ∀ (m : Nat → Fin 256) (a : Nat),
      (bitmap_add_loops (vd.set_mem m) vs a).val = min 255 ((m a).val + k a) := by
  refine ⟨fun a => (bitmap_add_loops (vd.set_mem (fun _ => 0)) vs a).val, ?_⟩
  intro m a
  obtain ⟨hhit, hframe⟩ := bitmap_add_loops_spec (vd.set_mem m) vs (set_mem_wf vd m hwf)
  obtain ⟨hhit0, hframe0⟩ := bitmap_add_loops_spec (vd.set_mem (fun _ => 0)) vs
    (set_mem_wf vd _ hwf)
  by_cases ha : ∃ x y i, x < vd.width ∧ y < vd.height ∧ i < 3 ∧ vd.data + vd.index x y i = a
  · obtain ⟨x, y, i, hx, hy, hi, rfl⟩ := ha
    have h1 := hhit x y i hx hy hi
    have h0 := hhit0 x y i hx hy hi
    have e1 : (vd.set_mem m).data + (vd.set_mem m).index x y i = vd.data + vd.index x y i := rfl
    have e0 : (vd.set_mem (fun _ => 0)).data + (vd.set_mem (fun _ => 0)).index x y i
        = vd.data + vd.index x y i := rfl
    have g1 : (vd.set_mem m).get x y i = m (vd.data + vd.index x y i) := rfl
    have g0 : ((vd.set_mem (fun _ => 0)).get x y i).val = 0 := rfl
    rw [e1, g1] at h1
    rw [e0, g0] at h0
    have hs := (vs.get x y i).isLt
    show (bitmap_add_loops (vd.set_mem m) vs (vd.data + vd.index x y i)).val
      = min 255 ((m (vd.data + vd.index x y i)).val
        + (bitmap_add_loops (vd.set_mem (fun _ => 0)) vs (vd.data + vd.index x y i)).val)
    rw [h1, h0]
    omega
  · have hne : ∀ x y i, x < vd.width → y < vd.height → i < 3 →
        vd.data + vd.index x y i ≠ a := fun x y i hx hy hi heq => ha ⟨x, y, i, hx, hy, hi, heq⟩
    have h1 := hframe a hne
    have h0 := hframe0 a hne
    have hm := (m a).isLt
    show (bitmap_add_loops (vd.set_mem m) vs a).val
      = min 255 ((m a).val + (bitmap_add_loops (vd.set_mem (fun _ => 0)) vs a).val)
    rw [h1, h0]
    show (m a).val = min 255 ((m a).val + 0)
    omega

/-- Two calls of `bitmap_add` on one destination give the same bitmap in
either order. -/
theorem bitmap_add_swap (D A B : bitmap_t) (hwf : D.wf) (hwA : D.width = A.width)
    (hhA : D.height = A.height) (hwB : D.width = B.width) (hhB : D.height = B.height) :
    ∃ d1 d2 r, bitmap_add D A = some d1 ∧ bitmap_add d1 B = some r ∧
      bitmap_add D B = some d2 ∧ bitmap_add d2 A = some r := by
  obtain ⟨kA, hkA⟩ := bitmap_add_loops_pointwise D A hwf
  obtain ⟨kB, hkB⟩ := bitmap_add_loops_pointwise D B hwf
  have eA : ∀ m, bitmap_add (D.set_mem m) A
      = some (D.set_mem (bitmap_add_loops (D.set_mem m) A)) := by
    intro m
    unfold bitmap_add
    rw [if_pos ⟨hwA, hhA⟩]
    rfl
  have eB : ∀ m, bitmap_add (D.set_mem m) B
      = some (D.set_mem (bitmap_add_loops (D.set_mem m) B)) := by
    intro m
    unfold bitmap_add
    rw [if_pos ⟨hwB, hhB⟩]
    rfl
  refine ⟨D.set_mem (bitmap_add_loops (D.set_mem D.mem) A),
    D.set_mem (bitmap_add_loops (D.set_mem D.mem) B),
    D.set_mem (bitmap_add_loops (D.set_mem (bitmap_add_loops (D.set_mem D.mem) A)) B),
    ?_, eB _, ?_, ?_⟩
  · exact eA D.mem
  · exact eB D.mem
  · rw [eA]
    apply congrArg some
    apply congrArg D.set_mem
    funext a
    exact (sat_add_comm (D.mem a) (kA a) (kB a) _ _ _ _ (hkA D.mem a) (hkB D.mem a)
      (hkB _ a) (hkA _ a)).symm

/-- A view of a bitmap with other bytes is the view with those bytes. -/
theorem bitmap_sub_set_mem (b : bitmap_t) (m : Nat → Fin 256) (x y w h : Nat) :
    bitmap_sub (b.set_mem m) x y w h = (bitmap_sub b x y w h).map fun v => v.set_mem m := by
  by_cases hin : x + w ≤ b.width ∧ y + h ≤ b.height
  · have h1 : x + w ≤ (b.set_mem m).width ∧ y + h ≤ (b.set_mem m).height := hin
    unfold bitmap_sub
    rw [if_pos hin, if_pos h1]
    rfl
  · have h1 : ¬ (x + w ≤ (b.set_mem m).width ∧ y + h ≤ (b.set_mem m).height) := hin
    unfold bitmap_sub
    rw [if_neg hin, if_neg h1]
    rfl

/-- A step that leaves the canvas as it is adds nothing. -/
theorem saturating_effect_id (c0 : bitmap_t) : saturating_effect c0 (fun c => some c) := by
  right
  refine ⟨fun _ => 0, fun m => ⟨m, rfl, fun a => ?_⟩⟩
  have := (m a).isLt
  show (m a).val = min 255 ((m a).val + 0)
  omega

/-- The effect of `bitmap_add_with_crop` on the destination. -/
theorem crop_effect (c0 spr : bitmap_t) (x y : Int) (hwf : c0.wf) :
    saturating_effect c0 (fun c => bitmap_add_with_crop c spr x y) := by
  by_cases hg : crop_outside c0 spr x y
  · right
    refine ⟨fun _ => 0, fun m => ⟨m, ?_, fun a => ?_⟩⟩
    · have hg1 : crop_outside (c0.set_mem m) spr x y := hg
      show bitmap_add_with_crop (c0.set_mem m) spr x y = some (c0.set_mem m)
      unfold bitmap_add_with_crop
      rw [if_pos hg1]
    · have := (m a).isLt
      show (m a).val = min 255 ((m a).val + 0)
      omega
  · have hform : ∀ m, bitmap_add_with_crop (c0.set_mem m) spr x y
        = match bitmap_sub spr (crop_sub_pos x) (crop_sub_pos y)
              (crop_sub_size c0.width spr.width x) (crop_sub_size c0.height spr.height y) with
          | none => none
          | some cropped_src =>
            match bitmap_sub (c0.set_mem m) (uadd (to_unsigned x) (crop_sub_pos x))
                (uadd (to_unsigned y) (crop_sub_pos y))
                (crop_sub_size c0.width spr.width x)
                (crop_sub_size c0.height spr.height y) with
            | none => none
            | some cropped_dest =>
              match bitmap_add cropped_dest cropped_src with
              | none => none
              | some added => some (c0.set_mem added.mem) := by
      intro m
      have hg1 : ¬ crop_outside (c0.set_mem m) spr x y := hg
      unfold bitmap_add_with_crop
      rw [if_neg hg1]
      rfl
    cases hs : bitmap_sub spr (crop_sub_pos x) (crop_sub_pos y)
        (crop_sub_size c0.width spr.width x) (crop_sub_size c0.height spr.height y) with
    | none =>
      left
      intro m
      show bitmap_add_with_crop (c0.set_mem m) spr x y = none
      rw [hform, hs]
    | some vs =>
      cases hd : bitmap_sub c0 (uadd (to_unsigned x) (crop_sub_pos x))
          (uadd (to_unsigned y) (crop_sub_pos y)) (crop_sub_size c0.width spr.width x)
          (crop_sub_size c0.height spr.height y) with
      | none =>
        left
        intro m
        show bitmap_add_with_crop (c0.set_mem m) spr x y = none
        rw [hform, hs, bitmap_sub_set_mem, hd]
        rfl
      | some vd =>
        have hvdwf : vd.wf := by
          unfold bitmap_sub at hd
          by_cases hin : uadd (to_unsigned x) (crop_sub_pos x)
              + crop_sub_size c0.width spr.width x ≤ c0.width ∧
              uadd (to_unsigned y) (crop_sub_pos y)
              + crop_sub_size c0.height spr.height y ≤ c0.height
          · obtain ⟨v, hv, hvwf, -⟩ := view_spec c0 hwf _ _ _ _ hin.1 hin.2
            unfold bitmap_sub at hv
            rw [hd] at hv
            cases hv
            exact hvwf
          · rw [if_neg hin] at hd
            cases hd
        by_cases hdim : vd.width = vs.width ∧ vd.height = vs.height
        · right
          obtain ⟨k, hk⟩ := bitmap_add_loops_pointwise vd vs hvdwf
          refine ⟨k, fun m => ⟨bitmap_add_loops (vd.set_mem m) vs, ?_, hk m⟩⟩
          show bitmap_add_with_crop (c0.set_mem m) spr x y = _
          rw [hform, hs, bitmap_sub_set_mem, hd]
          have hadd : bitmap_add (vd.set_mem m) vs
              = some ((vd.set_mem m).set_mem (bitmap_add_loops (vd.set_mem m) vs)) := by
            unfold bitmap_add
            rw [if_pos (show (vd.set_mem m).width = vs.width ∧ (vd.set_mem m).height = vs.height
              from hdim)]
            rfl
          show (match bitmap_add (vd.set_mem m) vs with
            | none => none
            | some added => some (c0.set_mem added.mem)) = _
          rw [hadd]
          rfl
        · left
          intro m
          show bitmap_add_with_crop (c0.set_mem m) spr x y = none
          rw [hform, hs, bitmap_sub_set_mem, hd]
          have hadd : bitmap_add (vd.set_mem m) vs = none := by
            unfold bitmap_add
            rw [if_neg (show ¬ ((vd.set_mem m).width = vs.width ∧
              (vd.set_mem m).height = vs.height) from hdim)]
          show (match bitmap_add (vd.set_mem m) vs with
            | none => none
            | some added => some (c0.set_mem added.mem)) = _
          rw [hadd]

section OrderTheorems

variable {α : Type} [LinearOrderedField α] [FloorRing α]

/-- The effect of the body of the loop of `render_frame` on the canvas. -/
theorem render_star_effect (bitmap_scale : bitmap_t → Nat → Nat → bitmap_t) (sqrtf : α → α)
    (circle : bitmap_t) (pos : α) (c0 : bitmap_t) (hwf : c0.wf) (s : star_t α) :
    saturating_effect c0 (fun c => render_star bitmap_scale sqrtf circle pos c s) := by
  by_cases hc : cull_test (star_vx s.x (star_dz pos s.z)) (star_vy s.y (star_dz pos s.z))
  · cases hsc : scale_circle bitmap_scale circle (apparent_size sqrtf s.x s.y (star_dz pos s.z))
      with
    | none =>
      left
      intro m
      show render_star bitmap_scale sqrtf circle pos (c0.set_mem m) s = none
      rw [render_star_eq, if_pos hc, hsc]
    | some star =>
      have h := crop_effect c0 star
        (float_to_int (star_vx s.x (star_dz pos s.z) - (star.width : α) / 2))
        (float_to_int (star_vy s.y (star_dz pos s.z) - (star.width : α) / 2)) hwf
      have e : (fun c => render_star bitmap_scale sqrtf circle pos c s)
          = (fun c => bitmap_add_with_crop c star
            (float_to_int (star_vx s.x (star_dz pos s.z) - (star.width : α) / 2))
            (float_to_int (star_vy s.y (star_dz pos s.z) - (star.width : α) / 2))) := by
        funext c
        rw [render_star_eq, if_pos hc, hsc]
      rw [e]
      exact h
  · have e : (fun c => render_star bitmap_scale sqrtf circle pos c s) = (fun c => some c) := by
      funext c
      rw [render_star_eq, if_neg hc]
    rw [e]
    exact saturating_effect_id c0

/-- The loop of `render_frame` on a canvas is the loop of the effects on its
bytes. -/
theorem render_loop_eq (bitmap_scale : bitmap_t → Nat → Nat → bitmap_t) (sqrtf : α → α)
    (circle : bitmap_t) (pos : α) (c0 : bitmap_t) (hwf : c0.wf) (stars : List (star_t α))
    (m0 : Nat → Fin 256) :
    stars.foldlM (render_star bitmap_scale sqrtf circle pos) (c0.set_mem m0)
      = (stars.foldl (render_mem_step bitmap_scale sqrtf circle pos c0) (some m0)).map
          c0.set_mem := by
  induction stars generalizing m0 with
  | nil => rfl
  | cons s t ih =>
    rw [List.foldlM_cons, List.foldl_cons]
    rcases render_star_effect bitmap_scale sqrtf circle pos c0 hwf s with hn | ⟨k, hk⟩
    · have h1 : render_star bitmap_scale sqrtf circle pos (c0.set_mem m0) s = none := hn m0
      have h2 : render_mem_step bitmap_scale sqrtf circle pos c0 (some m0) s = none := by
        show (render_star bitmap_scale sqrtf circle pos (c0.set_mem m0) s).map _ = none
        rw [h1]
        rfl
      rw [h1, h2]
      have h3 : ∀ l : List (star_t α),
          l.foldl (render_mem_step bitmap_scale sqrtf circle pos c0) none = none := by
        intro l
        induction l with
        | nil => rfl
        | cons a l ihl => exact ihl
      rw [h3]
      rfl
    · obtain ⟨m1, h1, -⟩ := hk m0
      have h1a : render_star bitmap_scale sqrtf circle pos (c0.set_mem m0) s
          = some (c0.set_mem m1) := h1
      have h2 : render_mem_step bitmap_scale sqrtf circle pos c0 (some m0) s = some m1 := by
        show (render_star bitmap_scale sqrtf circle pos (c0.set_mem m0) s).map _ = some m1
        rw [h1a]
        rfl
      rw [h1a, h2]
      exact ih m1

/-- The effects of two stars on the bytes of the canvas commute. -/
theorem render_mem_step_comm (bitmap_scale : bitmap_t → Nat → Nat → bitmap_t) (sqrtf : α → α)
    (circle : bitmap_t) (pos : α) (c0 : bitmap_t) (hwf : c0.wf) (s1 s2 : star_t α)
    (acc : Option (Nat → Fin 256)) :
    render_mem_step bitmap_scale sqrtf circle pos c0
        (render_mem_step bitmap_scale sqrtf circle pos c0 acc s1) s2
      = render_mem_step bitmap_scale sqrtf circle pos c0
        (render_mem_step bitmap_scale sqrtf circle pos c0 acc s2) s1 := by
  have hstep : ∀ (s : star_t α),
      (∀ m, render_mem_step bitmap_scale sqrtf circle pos c0 (some m) s = none) ∨
      ∃ k : Nat → Nat, ∀ m, ∃ m1,
        render_mem_step bitmap_scale sqrtf circle pos c0 (some m) s = some m1 ∧
        ∀ a, (m1 a).val = min 255 ((m a).val + k a) := by
    intro s
    rcases render_star_effect bitmap_scale sqrtf circle pos c0 hwf s with hn | ⟨k, hk⟩
    · left
      intro m
      have h1 : render_star bitmap_scale sqrtf circle pos (c0.set_mem m) s = none := hn m
      show (render_star bitmap_scale sqrtf circle pos (c0.set_mem m) s).map _ = none
      rw [h1]
      rfl
    · right
      refine ⟨k, fun m => ?_⟩
      obtain ⟨m1, h1, hv⟩ := hk m
      have h1a : render_star bitmap_scale sqrtf circle pos (c0.set_mem m) s
          = some (c0.set_mem m1) := h1
      refine ⟨m1, ?_, hv⟩
      show (render_star bitmap_scale sqrtf circle pos (c0.set_mem m) s).map _ = some m1
      rw [h1a]
      rfl
  have hnone : ∀ s : star_t α,
      render_mem_step bitmap_scale sqrtf circle pos c0 none s = none := fun _ => rfl
  cases acc with
  | none => rfl
  | some m =>
    rcases hstep s1 with hn1 | ⟨k1, hk1⟩
    · rw [hn1 m, hnone]
      cases h2 : render_mem_step bitmap_scale sqrtf circle pos c0 (some m) s2 with
      | none => rfl
      | some m2 => rw [hn1 m2]
    · rcases hstep s2 with hn2 | ⟨k2, hk2⟩
      · rw [hn2 m, hnone]
        cases h1 : render_mem_step bitmap_scale sqrtf circle pos c0 (some m) s1 with
        | none => rfl
        | some m1 => rw [hn2 m1]
      · obtain ⟨m1, e1, v1⟩ := hk1 m
        obtain ⟨m2, e2, v2⟩ := hk2 m
        obtain ⟨m12, e12, v12⟩ := hk2 m1
        obtain ⟨m21, e21, v21⟩ := hk1 m2
        rw [e1, e2, e12, e21]
        apply congrArg some
        funext a
        exact sat_add_comm (m a) (k1 a) (k2 a) _ _ _ _ (v1 a) (v2 a) (v12 a) (v21 a)

/-- The working canvas of `render_frame` does not depend on the order of the
stars. -/
theorem render_loop_perm (bitmap_scale : bitmap_t → Nat → Nat → bitmap_t) (sqrtf : α → α)
    (circle : bitmap_t) (pos : α) (stars1 stars2 : List (star_t α))
    (hperm : stars1.Perm stars2) :
    stars1.foldlM (render_star bitmap_scale sqrtf circle pos)
        (bitmap_new_empty FULL_WIDTH FULL_HEIGHT)
      = stars2.foldlM (render_star bitmap_scale sqrtf circle pos)
        (bitmap_new_empty FULL_WIDTH FULL_HEIGHT) := by
  have hwf : (bitmap_new_empty FULL_WIDTH FULL_HEIGHT).wf := by decide
  have h1 := render_loop_eq bitmap_scale sqrtf circle pos
    (bitmap_new_empty FULL_WIDTH FULL_HEIGHT) hwf stars1 (fun _ => 0)
  have h2 := render_loop_eq bitmap_scale sqrtf circle pos
    (bitmap_new_empty FULL_WIDTH FULL_HEIGHT) hwf stars2 (fun _ => 0)
  have e : (bitmap_new_empty FULL_WIDTH FULL_HEIGHT).set_mem (fun _ => 0)
      = bitmap_new_empty FULL_WIDTH FULL_HEIGHT := rfl
  rw [e] at h1 h2
  rw [h1, h2]
  apply congrArg
  exact hperm.foldl_eq' (fun x _ y _ z =>
    render_mem_step_comm bitmap_scale sqrtf circle pos _ hwf x y z) _

end OrderTheorems

/-- C17: compositing is order-independent: for bitmaps `D`, `A` and `B` of
equal dimensions (`D` laid out as an RGB bitmap), `bitmap_add (D, A)` followed
by `bitmap_add (D, B)` leaves the same bitmap as `bitmap_add (D, B)` followed
by `bitmap_add (D, A)`; and the working canvas of `render_frame`, hence the
image it returns, is the same for every order of the stars. -/
theorem compositing_order_independent {α : Type} [LinearOrderedField α] [FloorRing α]
    (D A B : bitmap_t) (hwf : D.wf) (hwA : D.width = A.width) (hhA : D.height = A.height)
    (hwB : D.width = B.width) (hhB : D.height = B.height)
    (bitmap_scale : bitmap_t → Nat → Nat → bitmap_t) (sqrtf : α → α) (circle : bitmap_t)
    (f : Int) (stars1 stars2 : List (star_t α)) (hperm : stars1.Perm stars2) :
    (∃ d1 d2 r, bitmap_add D A = some d1 ∧ bitmap_add d1 B = some r ∧
      bitmap_add D B = some d2 ∧ bitmap_add d2 A = some r) ∧
    stars1.foldlM (render_star bitmap_scale sqrtf circle (frame_pos f))
        (bitmap_new_empty FULL_WIDTH FULL_HEIGHT)
      = stars2.foldlM (render_star bitmap_scale sqrtf circle (frame_pos f))
        (bitmap_new_empty FULL_WIDTH FULL_HEIGHT) ∧
    render_frame bitmap_scale sqrtf stars1 circle f
      = render_frame bitmap_scale sqrtf stars2 circle f := by
  have hl := render_loop_perm bitmap_scale sqrtf circle (frame_pos f) stars1 stars2 hperm
  refine ⟨bitmap_add_swap D A B hwf hwA hhA hwB hhB, hl, ?_⟩
  unfold render_frame
  rw [hl]

/-- Two stars drawn in either order give the same frame, and two single pixels
added to a third in either order give the same pixel. -/
theorem compositing_order_independent_witness :
    (∃ d1 d2 r, bitmap_add gray100 gray200 = some d1 ∧ bitmap_add d1 gray100 = some r ∧
      bitmap_add gray100 gray100 = some d2 ∧ bitmap_add d2 gray200 = some r) ∧
    render_frame scale_blank (fun q : ℚ => q)
        [{ x := 60, y := 0, z := 100, size := 3 }, { x := 0, y := 70, z := 900, size := 5 }]
        (bitmap_new_empty 128 128) 7
      = render_frame scale_blank (fun q : ℚ => q)
        [{ x := 0, y := 70, z := 900, size := 5 }, { x := 60, y := 0, z := 100, size := 3 }]
        (bitmap_new_empty 128 128) 7 :=
  have h := compositing_order_independent gray100 gray200 gray100 (by decide) rfl rfl rfl rfl
    scale_blank (fun q : ℚ => q) (bitmap_new_empty 128 128) 7
    [{ x := 60, y := 0, z := 100, size := 3 }, { x := 0, y := 70, z := 900, size := 5 }]
    [{ x := 0, y := 70, z := 900, size := 5 }, { x := 60, y := 0, z := 100, size := 3 }]
    (List.Perm.swap _ _ _)
  ⟨h.1, h.2.2⟩

/-! ## The explicit memory and the bitmaps as values -/

theorem heap_eq (h1 h2 : heap) (hb : h1.bytes = h2.bytes) (hn : h1.next = h2.next) :
    h1 = h2 := by
  cases h1
  cases h2
  simp only [heap.mk.injEq]
  exact ⟨hb, hn⟩

theorem store_self (h : heap) (a : Nat) : h.store a (h.bytes a) = h := by
  refine heap_eq _ _ ?_ rfl
  show Function.update h.bytes a (h.bytes a) = h.bytes
  exact Function.update_eq_self a h.bytes

theorem store_store (h : heap) (a : Nat) (m1 m2 : Nat → Fin 256) :
    (h.store a m1).store a m2 = h.store a m2 := by
  refine heap_eq _ _ ?_ rfl
  show Function.update (Function.update h.bytes a m1) a m2 = Function.update h.bytes a m2
  exact Function.update_idem m1 m2 h.bytes

theorem store_bytes_same (h : heap) (a : Nat) (m : Nat → Fin 256) :
    (h.store a m).bytes a = m := by
  show Function.update h.bytes a m a = m
  exact Function.update_same a m h.bytes

theorem store_bytes_ne (h : heap) (a b : Nat) (m : Nat → Fin 256) (hab : b ≠ a) :
    (h.store a m).bytes b = h.bytes b := by
  show Function.update h.bytes a m b = h.bytes b
  exact Function.update_noteq hab m h.bytes

/-- A loop that stores into one allocation and reads another one is a loop on
the bytes of the first. -/
theorem foldl_store {κ : Type} (a b : Nat) (hab : b ≠ a)
    (g : (Nat → Fin 256) → (Nat → Fin 256) → κ → (Nat → Fin 256)) (l : List κ) (h0 : heap) :
    l.foldl (fun (h : heap) k => h.store a (g (h.bytes a) (h.bytes b) k)) h0
      = h0.store a (l.foldl (fun m k => g m (h0.bytes b) k) (h0.bytes a)) := by
  induction l generalizing h0 with
  | nil => exact (store_self h0 a).symm
  | cons k t ih =>
    rw [List.foldl_cons, List.foldl_cons, ih, store_store, store_bytes_same,
      store_bytes_ne h0 a b _ hab]

/-- The loops of `bitmap_add` on the memory store into the allocation of the
destination what the loops on values compute, when the source lies in another
allocation. -/
theorem heap_bitmap_add_loops (h0 : heap) (dest src : bitmap_ptr)
    (hne : src.alloc ≠ dest.alloc) :
    (List.range dest.height).foldl (fun h y =>
      (List.range dest.width).foldl (fun h x =>
        (List.range 3).foldl (Heap.bitmap_add_step dest src y x) h) h) h0
      = h0.store dest.alloc (bitmap_add_loops (dest.load h0) (src.load h0)) := by
  have hin : ∀ (y x : Nat) (h : heap),
      (List.range 3).foldl (Heap.bitmap_add_step dest src y x) h
        = h.store dest.alloc ((fun m S x => (List.range 3).foldl (fun m i =>
            bitmap_add_step (dest.load h0) (src.value S) y x m i) m)
          (h.bytes dest.alloc) (h.bytes src.alloc) x) := by
    intro y x h
    exact foldl_store dest.alloc src.alloc hne
      (fun m S i => bitmap_add_step (dest.load h0) (src.value S) y x m i) (List.range 3) h
  have hmid : ∀ (y : Nat) (h : heap),
      (List.range dest.width).foldl (fun h x =>
        (List.range 3).foldl (Heap.bitmap_add_step dest src y x) h) h
        = h.store dest.alloc ((fun m S y => (List.range dest.width).foldl (fun m x =>
            (List.range 3).foldl (fun m i =>
              bitmap_add_step (dest.load h0) (src.value S) y x m i) m) m)
          (h.bytes dest.alloc) (h.bytes src.alloc) y) := by
    intro y h
    have e : (fun (h : heap) x => (List.range 3).foldl (Heap.bitmap_add_step dest src y x) h)
        = (fun (h : heap) x => h.store dest.alloc ((fun m S x => (List.range 3).foldl (fun m i =>
            bitmap_add_step (dest.load h0) (src.value S) y x m i) m)
          (h.bytes dest.alloc) (h.bytes src.alloc) x)) := by
      funext h x
      exact hin y x h
    rw [e]
    exact foldl_store dest.alloc src.alloc hne
      (fun m S x => (List.range 3).foldl (fun m i =>
        bitmap_add_step (dest.load h0) (src.value S) y x m i) m) (List.range dest.width) h
  have e : (fun (h : heap) y => (List.range dest.width).foldl (fun h x =>
        (List.range 3).foldl (Heap.bitmap_add_step dest src y x) h) h)
      = (fun (h : heap) y => h.store dest.alloc ((fun m S y =>
          (List.range dest.width).foldl (fun m x => (List.range 3).foldl (fun m i =>
            bitmap_add_step (dest.load h0) (src.value S) y x m i) m) m)
          (h.bytes dest.alloc) (h.bytes src.alloc) y)) := by
    funext h y
    exact hmid y h
  rw [e]
  exact foldl_store dest.alloc src.alloc hne
    (fun m S y => (List.range dest.width).foldl (fun m x => (List.range 3).foldl (fun m i =>
      bitmap_add_step (dest.load h0) (src.value S) y x m i) m) m) (List.range dest.height) h0

/-- The view that `bitmap_sub` makes on the memory is the view on values and
lies in the allocation of its parent. -/
theorem heap_bitmap_sub (p : bitmap_ptr) (x y w ht : Nat) (m : Nat → Fin 256) :
    (Heap.bitmap_sub p x y w ht = none ∧ bitmap_sub (p.value m) x y w ht = none) ∨
    ∃ q, Heap.bitmap_sub p x y w ht = some q ∧ q.alloc = p.alloc ∧
      ∀ m1, bitmap_sub (p.value m1) x y w ht = some (q.value m1) := by
  by_cases hin : x + w ≤ p.width ∧ y + ht ≤ p.height
  · right
    refine ⟨_, if_pos hin, rfl, fun m1 => ?_⟩
    unfold bitmap_sub
    rw [if_pos (show x + w ≤ (p.value m1).width ∧ y + ht ≤ (p.value m1).height from hin)]
    rfl
  · left
    refine ⟨if_neg hin, ?_⟩
    unfold bitmap_sub
    rw [if_neg (show ¬ (x + w ≤ (p.value m).width ∧ y + ht ≤ (p.value m).height) from hin)]

/-- The function `bitmap_add` on the memory stores into the allocation of the
destination what `bitmap_add` on values computes, when the source lies in
another allocation. -/
theorem heap_bitmap_add (h : heap) (dest src : bitmap_ptr) (hne : src.alloc ≠ dest.alloc) :
    Heap.bitmap_add h dest src
      = (bitmap_add (dest.load h) (src.load h)).map fun d => h.store dest.alloc d.mem := by
  by_cases hdim : dest.width = src.width ∧ dest.height = src.height
  · unfold Heap.bitmap_add bitmap_add
    rw [if_pos hdim, if_pos (show (dest.load h).width = (src.load h).width ∧
      (dest.load h).height = (src.load h).height from hdim), heap_bitmap_add_loops h dest src hne]
    rfl
  · unfold Heap.bitmap_add bitmap_add
    rw [if_neg hdim, if_neg (show ¬ ((dest.load h).width = (src.load h).width ∧
      (dest.load h).height = (src.load h).height) from hdim)]
    rfl

/-- The function `bitmap_add_with_crop` on the memory stores into the
allocation of the destination what `bitmap_add_with_crop` on values computes,
when the source lies in another allocation. -/
theorem heap_bitmap_add_with_crop (h : heap) (dest src : bitmap_ptr) (x y : Int)
    (hne : src.alloc ≠ dest.alloc) :
    Heap.bitmap_add_with_crop h dest src x y
      = (bitmap_add_with_crop (dest.load h) (src.load h) x y).map
          fun d => h.store dest.alloc d.mem := by
  by_cases hg : crop_outside (dest.load h) (src.load h) x y
  · unfold Heap.bitmap_add_with_crop bitmap_add_with_crop
    rw [if_pos hg, if_pos (show uadd (to_unsigned x) src.width ≤ 0 ∨
      uadd (to_unsigned y) src.height ≤ 0 ∨ to_unsigned x ≥ dest.width ∨
      to_unsigned y ≥ dest.height from hg)]
    exact congrArg some (store_self h dest.alloc).symm
  · have hform : bitmap_add_with_crop (dest.load h) (src.load h) x y
        = match bitmap_sub (src.value (h.bytes src.alloc)) (crop_sub_pos x) (crop_sub_pos y)
              (crop_sub_size dest.width src.width x)
              (crop_sub_size dest.height src.height y) with
          | none => none
          | some cropped_src =>
            match bitmap_sub (dest.value (h.bytes dest.alloc))
                (uadd (to_unsigned x) (crop_sub_pos x))
                (uadd (to_unsigned y) (crop_sub_pos y))
                (crop_sub_size dest.width src.width x)
                (crop_sub_size dest.height src.height y) with
            | none => none
            | some cropped_dest =>
              match bitmap_add cropped_dest cropped_src with
              | none => none
              | some added => some ((dest.load h).set_mem added.mem) := by
      unfold bitmap_add_with_crop
      rw [if_neg hg]
      rfl
    have hformh : Heap.bitmap_add_with_crop h dest src x y
        = match Heap.bitmap_sub src (crop_sub_pos x) (crop_sub_pos y)
              (crop_sub_size dest.width src.width x)
              (crop_sub_size dest.height src.height y) with
          | none => none
          | some cropped_src =>
            match Heap.bitmap_sub dest (uadd (to_unsigned x) (crop_sub_pos x))
                (uadd (to_unsigned y) (crop_sub_pos y))
                (crop_sub_size dest.width src.width x)
                (crop_sub_size dest.height src.height y) with
            | none => none
            | some cropped_dest => Heap.bitmap_add h cropped_dest cropped_src := by
      unfold Heap.bitmap_add_with_crop
      rw [if_neg (show ¬ (uadd (to_unsigned x) src.width ≤ 0 ∨
        uadd (to_unsigned y) src.height ≤ 0 ∨ to_unsigned x ≥ dest.width ∨
        to_unsigned y ≥ dest.height) from hg)]
    rw [hform, hformh]
    rcases heap_bitmap_sub src (crop_sub_pos x) (crop_sub_pos y)
        (crop_sub_size dest.width src.width x) (crop_sub_size dest.height src.height y)
        (h.bytes src.alloc) with ⟨hs1, hs2⟩ | ⟨qs, hqs, hqsa, hqsv⟩
    · rw [hs1, hs2]
      rfl
    · rw [hqs, hqsv (h.bytes src.alloc)]
      rcases heap_bitmap_sub dest (uadd (to_unsigned x) (crop_sub_pos x))
          (uadd (to_unsigned y) (crop_sub_pos y)) (crop_sub_size dest.width src.width x)
          (crop_sub_size dest.height src.height y) (h.bytes dest.alloc)
          with ⟨hd1, hd2⟩ | ⟨qd, hqd, hqda, hqdv⟩
      · rw [hd1, hd2]
        rfl
      · rw [hqd, hqdv (h.bytes dest.alloc)]
        have hadd := heap_bitmap_add h qd qs (by rw [hqsa, hqda]; exact hne)
        have e1 : qd.load h = qd.value (h.bytes dest.alloc) := by
          unfold bitmap_ptr.load
          rw [hqda]
        have e2 : qs.load h = qs.value (h.bytes src.alloc) := by
          unfold bitmap_ptr.load
          rw [hqsa]
        rw [e1, e2, hqda] at hadd
        show Heap.bitmap_add h qd qs = _
        rw [hadd]
        dsimp only
        cases bitmap_add (qd.value (h.bytes dest.alloc)) (qs.value (h.bytes src.alloc)) with
        | none => rfl
        | some added => rfl

theorem allocate_bytes_new (h : heap) (m : Nat → Fin 256) : (h.allocate m).bytes h.next = m := by
  show Function.update h.bytes h.next m h.next = m
  exact Function.update_same h.next m h.bytes

theorem allocate_bytes_old (h : heap) (m : Nat → Fin 256) (a : Nat) (ha : a ≠ h.next) :
    (h.allocate m).bytes a = h.bytes a := by
  show Function.update h.bytes h.next m a = h.bytes a
  exact Function.update_noteq ha m h.bytes

theorem write_eq (h : heap) (a addr : Nat) (v : Fin 256) (m : Nat → Fin 256)
    (hm : h.bytes a = m) : h.write a addr v = h.store a (Function.update m addr v) := by
  unfold heap.write
  rw [hm]

/-- The function `bitmap_set_pixel` on the memory stores into the allocation of
the bitmap what `bitmap_set_pixel` on values computes. -/
theorem heap_bitmap_set_pixel (h : heap) (p : bitmap_ptr) (x y : Nat) (r g b : Fin 256) :
    Heap.bitmap_set_pixel h p x y r g b
      = (bitmap_set_pixel (p.load h) x y r g b).map fun d => h.store p.alloc d.mem := by
  by_cases hin : x < p.width ∧ y < p.height
  · unfold Heap.bitmap_set_pixel bitmap_set_pixel
    rw [if_pos hin, if_pos (show x < (p.load h).width ∧ y < (p.load h).height from hin)]
    apply congrArg some
    dsimp only
    rw [write_eq h p.alloc _ r (h.bytes p.alloc) rfl,
      write_eq _ p.alloc _ g _ (store_bytes_same h p.alloc _), store_store,
      write_eq _ p.alloc _ b _ (store_bytes_same h p.alloc _), store_store]
    rfl
  · unfold Heap.bitmap_set_pixel bitmap_set_pixel
    rw [if_neg hin, if_neg (show ¬ (x < (p.load h).width ∧ y < (p.load h).height) from hin)]
    rfl

/-- A call of `bitmap_add_with_crop` leaves the record of the destination as
it is. -/
theorem bitmap_add_with_crop_header (dest src : bitmap_t) (x y : Int) (d : bitmap_t)
    (h : bitmap_add_with_crop dest src x y = some d) : d = dest.set_mem d.mem := by
  unfold bitmap_add_with_crop at h
  split at h
  · cases h
    rfl
  · dsimp only at h
    split at h
    · cases h
    · split at h
      · cases h
      · split at h
        · cases h
        · cases h
          rfl

section HeapTheorems

variable {α : Type} [LinearOrderedField α] [FloorRing α]

/-- The function `scale_circle` on the memory returns, in a new allocation,
the sprite that `scale_circle` on values computes, and changes no other
allocation. -/
theorem heap_scale_circle (scale : bitmap_t → Nat → Nat → bitmap_t) (circle : bitmap_ptr)
    (h : heap) (size : α) :
    (scale_circle scale (circle.load h) size = none ∧
      Heap.scale_circle scale circle h size = none) ∨
    ∃ p h1, Heap.scale_circle scale circle h size = some (p, h1) ∧
      scale_circle scale (circle.load h) size = some (p.load h1) ∧ p.alloc = h.next ∧
      h1.next = h.next + 1 ∧ ∀ a, a ≠ h.next → h1.bytes a = h.bytes a := by
  by_cases hs : size ≤ 1
  · right
    have hp := heap_bitmap_set_pixel (Heap.bitmap_new_empty h 1 1).2
      (Heap.bitmap_new_empty h 1 1).1 0 0 (scale_gray size) (scale_gray size) (scale_gray size)
    have hload : (Heap.bitmap_new_empty h 1 1).1.load (Heap.bitmap_new_empty h 1 1).2
        = bitmap_new_empty 1 1 := by
      show bitmap_ptr.value _ ((h.allocate (fun _ => 0)).bytes h.next) = _
      rw [allocate_bytes_new]
      rfl
    rw [hload] at hp
    obtain ⟨M, hv⟩ : ∃ M, bitmap_set_pixel (bitmap_new_empty 1 1) 0 0 (scale_gray size)
        (scale_gray size) (scale_gray size) = some ((bitmap_new_empty 1 1).set_mem M) :=
      ⟨_, rfl⟩
    rw [hv] at hp
    refine ⟨(Heap.bitmap_new_empty h 1 1).1, (h.allocate (fun _ => 0)).store h.next M,
      ?_, ?_, rfl, rfl, ?_⟩
    · unfold Heap.scale_circle
      rw [if_pos hs, hp]
      rfl
    · unfold scale_circle
      rw [if_pos hs, hv]
      apply congrArg some
      show _ = bitmap_ptr.value _ (((h.allocate (fun _ => 0)).store h.next M).bytes h.next)
      rw [store_bytes_same]
      rfl
    · intro a ha
      rw [store_bytes_ne _ _ _ _ ha, allocate_bytes_old h _ a ha]
  · by_cases hassert : canvas_sub_size size ≥ CIRCLE_SIZE
    · rcases heap_bitmap_sub circle (canvas_border size) (canvas_border size)
          (canvas_sub_size size) (canvas_sub_size size) (h.bytes circle.alloc)
          with ⟨h1, h2⟩ | ⟨q, hq, hqa, hqv⟩
      · left
        constructor
        · unfold scale_circle
          rw [if_neg hs, if_pos hassert]
          show (match bitmap_sub (circle.value (h.bytes circle.alloc)) (canvas_border size)
            (canvas_border size) (canvas_sub_size size) (canvas_sub_size size) with
            | none => none
            | some canvas_sub => some (scale canvas_sub (canvas_real_pixel_size size)
                (canvas_real_pixel_size size))) = none
          rw [h2]
        · unfold Heap.scale_circle
          rw [if_neg hs, if_pos hassert, h1]
      · right
        refine ⟨(Heap.bitmap_scale scale h q (canvas_real_pixel_size size)
          (canvas_real_pixel_size size)).1, (Heap.bitmap_scale scale h q
          (canvas_real_pixel_size size) (canvas_real_pixel_size size)).2, ?_, ?_, rfl, rfl, ?_⟩
        · unfold Heap.scale_circle
          rw [if_neg hs, if_pos hassert, hq]
        · unfold scale_circle
          rw [if_neg hs, if_pos hassert]
          show (match bitmap_sub (circle.value (h.bytes circle.alloc)) (canvas_border size)
            (canvas_border size) (canvas_sub_size size) (canvas_sub_size size) with
            | none => none
            | some canvas_sub => some (scale canvas_sub (canvas_real_pixel_size size)
                (canvas_real_pixel_size size))) = _
          rw [hqv]
          apply congrArg some
          have hql : q.load h = q.value (h.bytes circle.alloc) := by
            unfold bitmap_ptr.load
            rw [hqa]
          unfold Heap.bitmap_scale
          rw [hql]
          show _ = bitmap_ptr.value _ ((h.allocate _).bytes h.next)
          rw [allocate_bytes_new]
          rfl
        · intro a ha
          exact allocate_bytes_old h _ a ha
    · left
      constructor
      · unfold scale_circle
        rw [if_neg hs, if_neg hassert]
      · unfold Heap.scale_circle
        rw [if_neg hs, if_neg hassert]

end HeapTheorems

section HeapRenderTheorems

variable {α : Type} [LinearOrderedField α] [FloorRing α]

/-- The body of the loop of `render_frame` on the memory leaves in the
allocation of the canvas what the body on values computes, and changes no
other allocation that existed before. -/
theorem heap_render_star (scale : bitmap_t → Nat → Nat → bitmap_t) (sqrtf : α → α)
    (circle : bitmap_ptr) (pos : α) (canvas : bitmap_ptr) (h : heap) (s : star_t α)
    (hcv : canvas.alloc < h.next) :
    (render_star scale sqrtf (circle.load h) pos (canvas.load h) s = none ∧
      Heap.render_star scale sqrtf circle pos canvas h s = none) ∨
    ∃ h1, Heap.render_star scale sqrtf circle pos canvas h s = some h1 ∧
      render_star scale sqrtf (circle.load h) pos (canvas.load h) s = some (canvas.load h1) ∧
      h.next ≤ h1.next ∧ ∀ a, a < h.next → a ≠ canvas.alloc → h1.bytes a = h.bytes a := by
  by_cases hc : cull_test (star_vx s.x (star_dz pos s.z)) (star_vy s.y (star_dz pos s.z))
  · rcases heap_scale_circle scale circle h (apparent_size sqrtf s.x s.y (star_dz pos s.z))
        with ⟨hv, hh⟩ | ⟨p, h1, hh, hv, hpa, hn, hb⟩
    · left
      constructor
      · rw [render_star_eq, if_pos hc, hv]
      · unfold Heap.render_star
        rw [if_pos hc, hh]
    · have hne : p.alloc ≠ canvas.alloc := by omega
      have hcl : canvas.load h1 = canvas.load h := by
        unfold bitmap_ptr.load
        rw [hb canvas.alloc (by omega)]
      have hcrop := heap_bitmap_add_with_crop h1 canvas p
        (float_to_int (star_vx s.x (star_dz pos s.z) - (p.width : α) / 2))
        (float_to_int (star_vy s.y (star_dz pos s.z) - (p.width : α) / 2)) hne
      rw [hcl] at hcrop
      have hval : render_star scale sqrtf (circle.load h) pos (canvas.load h) s
          = bitmap_add_with_crop (canvas.load h) (p.load h1)
            (float_to_int (star_vx s.x (star_dz pos s.z) - (p.width : α) / 2))
            (float_to_int (star_vy s.y (star_dz pos s.z) - (p.width : α) / 2)) := by
        rw [render_star_eq, if_pos hc, hv]
        rfl
      have hheap : Heap.render_star scale sqrtf circle pos canvas h s
          = Heap.bitmap_add_with_crop h1 canvas p
            (float_to_int (star_vx s.x (star_dz pos s.z) - (p.width : α) / 2))
            (float_to_int (star_vy s.y (star_dz pos s.z) - (p.width : α) / 2)) := by
        unfold Heap.render_star
        rw [if_pos hc, hh]
      rw [hval, hheap, hcrop]
      cases hres : bitmap_add_with_crop (canvas.load h) (p.load h1)
          (float_to_int (star_vx s.x (star_dz pos s.z) - (p.width : α) / 2))
          (float_to_int (star_vy s.y (star_dz pos s.z) - (p.width : α) / 2)) with
      | none =>
        left
        exact ⟨rfl, rfl⟩
      | some d =>
        right
        have hd := bitmap_add_with_crop_header _ _ _ _ d hres
        refine ⟨h1.store canvas.alloc d.mem, rfl, ?_, ?_, ?_⟩
        · apply congrArg some
          rw [hd]
          show (canvas.load h).set_mem d.mem
            = bitmap_ptr.value _ ((h1.store canvas.alloc d.mem).bytes canvas.alloc)
          rw [store_bytes_same]
          rfl
        · show h.next ≤ h1.next
          omega
        · intro a ha hac
          rw [store_bytes_ne _ _ _ _ hac]
          exact hb a (by omega)
  · right
    refine ⟨h, ?_, ?_, le_refl _, fun _ _ _ => rfl⟩
    · unfold Heap.render_star
      rw [if_neg hc]
    · rw [render_star_eq, if_neg hc]

/-- The loop of `render_frame` on the memory leaves in the allocation of the
canvas what the loop on values computes, and changes no other allocation that
existed before. -/
theorem heap_render_loop (scale : bitmap_t → Nat → Nat → bitmap_t) (sqrtf : α → α)
    (circle : bitmap_ptr) (pos : α) (canvas : bitmap_ptr) (hne : circle.alloc ≠ canvas.alloc)
    (stars : List (star_t α)) (h : heap) (hcv : canvas.alloc < h.next)
    (hci : circle.alloc < h.next) :
    (stars.foldlM (render_star scale sqrtf (circle.load h) pos) (canvas.load h) = none ∧
      stars.foldlM (Heap.render_star scale sqrtf circle pos canvas) h = none) ∨
    ∃ h1, stars.foldlM (Heap.render_star scale sqrtf circle pos canvas) h = some h1 ∧
      stars.foldlM (render_star scale sqrtf (circle.load h) pos) (canvas.load h)
        = some (canvas.load h1) ∧
      h.next ≤ h1.next ∧ ∀ a, a < h.next → a ≠ canvas.alloc → h1.bytes a = h.bytes a := by
  induction stars generalizing h with
  | nil =>
    right
    exact ⟨h, rfl, rfl, le_refl _, fun _ _ _ => rfl⟩
  | cons s t ih =>
    rcases heap_render_star scale sqrtf circle pos canvas h s hcv
        with ⟨hv, hh⟩ | ⟨h1, hh, hv, hn, hb⟩
    · left
      constructor
      · rw [List.foldlM_cons, hv]
        rfl
      · rw [List.foldlM_cons, hh]
        rfl
    · have hcl : circle.load h1 = circle.load h := by
        unfold bitmap_ptr.load
        rw [hb circle.alloc hci hne]
      rcases ih h1 (by omega) (by omega) with ⟨tv, th⟩ | ⟨h2, th, tv, tn, tb⟩
      · left
        rw [hcl] at tv
        constructor
        · rw [List.foldlM_cons, hv]
          exact tv
        · rw [List.foldlM_cons, hh]
          exact th
      · right
        rw [hcl] at tv
        refine ⟨h2, ?_, ?_, by omega, ?_⟩
        · rw [List.foldlM_cons, hh]
          exact th
        · rw [List.foldlM_cons, hv]
          exact tv
        · intro a ha hac
          rw [tb a (by omega) hac]
          exact hb a ha hac

/-- The function `render_frame` on the memory returns, in a new allocation,
the image that `render_frame` on values computes from the star field, the
content of the reference disc and the frame index, and changes no allocation
that existed before the call. -/
theorem heap_render_frame (scale : bitmap_t → Nat → Nat → bitmap_t) (sqrtf : α → α)
    (stars : List (star_t α)) (circle : bitmap_ptr) (h : heap) (frame : Int)
    (hci : circle.alloc < h.next) :
    (render_frame scale sqrtf stars (circle.load h) frame = none ∧
      Heap.render_frame scale sqrtf stars circle h frame = none) ∨
    ∃ out h1, Heap.render_frame scale sqrtf stars circle h frame = some (out, h1) ∧
      render_frame scale sqrtf stars (circle.load h) frame = some (out.load h1) ∧
      h.next ≤ out.alloc ∧ out.alloc < h1.next ∧
      ∀ a, a < h.next → h1.bytes a = h.bytes a := by
  have hcl : circle.load (Heap.bitmap_new_empty h FULL_WIDTH FULL_HEIGHT).2 = circle.load h := by
    unfold bitmap_ptr.load
    show bitmap_ptr.value _ ((h.allocate (fun _ => 0)).bytes circle.alloc) = _
    rw [allocate_bytes_old h _ _ (by omega)]
  have hcanvas : (Heap.bitmap_new_empty h FULL_WIDTH FULL_HEIGHT).1.load
      (Heap.bitmap_new_empty h FULL_WIDTH FULL_HEIGHT).2
      = bitmap_new_empty FULL_WIDTH FULL_HEIGHT := by
    show bitmap_ptr.value _ ((h.allocate (fun _ => 0)).bytes h.next) = _
    rw [allocate_bytes_new]
    rfl
  have hloop := heap_render_loop scale sqrtf circle (frame_pos frame)
    (Heap.bitmap_new_empty h FULL_WIDTH FULL_HEIGHT).1
    (show circle.alloc ≠ h.next by omega) stars
    (Heap.bitmap_new_empty h FULL_WIDTH FULL_HEIGHT).2
    (show h.next < h.next + 1 by omega) (show circle.alloc < h.next + 1 by omega)
  rw [hcl, hcanvas] at hloop
  rcases hloop with ⟨lv, lh⟩ | ⟨h2, lh, lv, ln, lb⟩
  · left
    constructor
    · unfold render_frame
      rw [lv]
    · unfold Heap.render_frame
      rw [lh]
  · right
    have hn2 : h.next + 1 ≤ h2.next := ln
    refine ⟨(Heap.bitmap_scale scale h2 (Heap.bitmap_new_empty h FULL_WIDTH FULL_HEIGHT).1
      OUTPUT_WIDTH OUTPUT_HEIGHT).1, (Heap.bitmap_scale scale h2
      (Heap.bitmap_new_empty h FULL_WIDTH FULL_HEIGHT).1 OUTPUT_WIDTH OUTPUT_HEIGHT).2,
      ?_, ?_, ?_, ?_, ?_⟩
    · unfold Heap.render_frame
      rw [lh]
    · unfold render_frame
      rw [lv]
      apply congrArg some
      show _ = bitmap_ptr.value _ ((h2.allocate _).bytes h2.next)
      rw [allocate_bytes_new]
      rfl
    · show h.next ≤ h2.next
      omega
    · show h2.next < h2.next + 1
      omega
    · intro a ha
      show (h2.allocate _).bytes a = h.bytes a
      rw [allocate_bytes_old h2 _ a (by omega)]
      have := lb a (show a < h.next + 1 by omega) (show a ≠ h.next by omega)
      rw [this]
      exact allocate_bytes_old h _ a (by omega)

/-- C13: `render_frame` returns an image that is a function of the star field,
the content of the reference disc and the frame index only, and it leaves the
reference disc as it is (the star field is only read): when an invocation on
a memory `h` that holds the reference disc returns the image `out1` and the
memory `h1`, a second invocation, on `h1`, returns an image with the same
bytes, and the reference disc and the first image are unchanged. -/
theorem render_frame_deterministic (scale : bitmap_t → Nat → Nat → bitmap_t) (sqrtf : α → α)
    (stars : List (star_t α)) (circle : bitmap_ptr) (h : heap) (frame : Int)
    (out1 : bitmap_ptr) (h1 : heap) (hci : circle.alloc < h.next)
    (hrun : Heap.render_frame scale sqrtf stars circle h frame = some (out1, h1)) :
    render_frame scale sqrtf stars (circle.load h) frame = some (out1.load h1) ∧
    circle.load h1 = circle.load h ∧
    ∃ out2 h2, Heap.render_frame scale sqrtf stars circle h1 frame = some (out2, h2) ∧
      out2.load h2 = out1.load h1 ∧ out1.load h2 = out1.load h1 ∧
      circle.load h2 = circle.load h := by
  rcases heap_render_frame scale sqrtf stars circle h frame hci
      with ⟨-, hnone⟩ | ⟨o, g, hsome, hval, hlo, hhi, hb⟩
  · rw [hnone] at hrun
    cases hrun
  · rw [hsome] at hrun
    cases hrun
    have hc1 : circle.load h1 = circle.load h := by
      unfold bitmap_ptr.load
      rw [hb circle.alloc hci]
    have hci1 : circle.alloc < h1.next := by omega
    rcases heap_render_frame scale sqrtf stars circle h1 frame hci1
        with ⟨hvnone, -⟩ | ⟨o2, g2, hsome2, hval2, hlo2, hhi2, hb2⟩
    · rw [hc1, hval] at hvnone
      cases hvnone
    · rw [hc1, hval] at hval2
      refine ⟨hval, hc1, o2, g2, hsome2, (Option.some.inj hval2).symm, ?_, ?_⟩
      · unfold bitmap_ptr.load
        rw [hb2 out1.alloc hhi]
      · unfold bitmap_ptr.load
        rw [hb2 circle.alloc hci1, hb circle.alloc hci]

end HeapRenderTheorems

/-- The sizes that `scale_circle` computes for the star at `(50, 0)` with the
depth 100. -/
theorem sample_sprite_sizes :
    1 < apparent_size Real.sqrt 50 0 100 ∧
    canvas_real_pixel_size (apparent_size Real.sqrt 50 0 100) = 101 ∧
    canvas_sub_size (apparent_size Real.sqrt 50 0 100) = 126 ∧
    canvas_border (apparent_size Real.sqrt 50 0 100) = 1 := by
  have hlo : (2545 / 100 : ℝ) < apparent_size Real.sqrt 50 0 100 :=
    lt_apparent_size 50 0 100 (2545 / 100) (by norm_num) (by norm_num) (by norm_num)
  have hhi : apparent_size Real.sqrt 50 0 100 < (255 / 10 : ℝ) :=
    apparent_size_lt 50 0 100 (255 / 10) (by norm_num) (by norm_num) (by norm_num)
  have hs : (1 : ℝ) < apparent_size Real.sqrt 50 0 100 := by linarith
  obtain ⟨h4, hnle, hnlt, -⟩ := canvas_real_pixel_size_spec _ hs
  obtain ⟨h102, h128, hle, hlt⟩ := canvas_sub_size_spec _ hs
  have hs0 : (0 : ℝ) < apparent_size Real.sqrt 50 0 100 := by linarith
  have hn : canvas_real_pixel_size (apparent_size Real.sqrt 50 0 100) = 101 := by
    have h1 : ((canvas_real_pixel_size (apparent_size Real.sqrt 50 0 100) : Nat) : ℝ)
        < ((102 : Nat) : ℝ) := by push_cast; linarith
    have h2 : ((100 : Nat) : ℝ)
        < ((canvas_real_pixel_size (apparent_size Real.sqrt 50 0 100) : Nat) : ℝ) := by
      push_cast; linarith
    have h1 := Nat.cast_lt.1 h1
    have h2 := Nat.cast_lt.1 h2
    omega
  rw [hn] at hle hlt
  rw [le_div_iff₀ hs0] at hle
  rw [div_lt_iff₀ hs0] at hlt
  have hk : canvas_sub_size (apparent_size Real.sqrt 50 0 100) = 126 := by
    have h1 : ((canvas_sub_size (apparent_size Real.sqrt 50 0 100) : Nat) : ℝ)
        < ((127 : Nat) : ℝ) := by
      push_cast
      push_cast at hle
      nlinarith
    have h2 : ((125 : Nat) : ℝ)
        < ((canvas_sub_size (apparent_size Real.sqrt 50 0 100) : Nat) : ℝ) := by
      push_cast
      push_cast at hlt
      nlinarith
    have h1 := Nat.cast_lt.1 h1
    have h2 := Nat.cast_lt.1 h2
    omega
  refine ⟨hs, hn, hk, ?_⟩
  unfold canvas_border
  rw [hk]
  decide

/-- The centre of the reference disc is white. -/
theorem disc_centre_white (i : Nat) (hi : i < 3) :
    (sample_disc.load disc_heap).get 64 64 i = 255 := by
  obtain ⟨hhit, -⟩ := init_circle_loops_spec ℚ
  have h := hhit 16 16 i (by norm_num) (by norm_num) hi
  have hg : circle_gray ℚ 16 16 = 255 := by
    unfold circle_gray circle_coord CIRCLE_SIZE
    norm_num
  rw [hg] at h
  have e : (sample_disc.load disc_heap).get 64 64 i
      = init_circle_loops ℚ ((bitmap_new_empty 128 128).data
          + (bitmap_new_empty 128 128).index (48 + 16) (48 + 16) i) := by
    simp only [bitmap_t.get, bitmap_t.index, bitmap_ptr.load, bitmap_ptr.value, sample_disc,
      disc_heap, bitmap_new_empty]
    rfl
  rw [e, h]

/-- At frame 0 the renderer on values, for the field of the one star at
`(50, 0, 1410)`, the reference disc of `init_circle` and nearest neighbour
resampling, returns an image whose pixel `(540, 288)` is white. -/
theorem render_frame_sample :
    cull_test (star_vx (50 : ℝ) (star_dz (frame_pos 0) 1410))
      (star_vy (0 : ℝ) (star_dz (frame_pos 0) 1410)) ∧
    ∃ out, render_frame scale_nearest Real.sqrt [{ x := 50, y := 0, z := 1410, size := 1 }]
        (sample_disc.load disc_heap) 0 = some out ∧
      (out.get 540 288 0).val = 255 := by
  obtain ⟨hs, hn, hk, hb⟩ := sample_sprite_sizes
  have hdz : star_dz (frame_pos 0 : ℝ) 1410 = 100 := by
    rw [star_dz_frame_zero 1410 1410 (by norm_num) (by norm_num) (by norm_num)]
    unfold CYLINDER_LENGTH VIEWPORT_DISTANCE
    norm_num
  have hvx : star_vx (50 : ℝ) 100 = 2304 := by
    unfold star_vx VIEWPORT_DISTANCE VIEWPORT_WIDTH FULL_WIDTH
    norm_num
  have hvy : star_vy (0 : ℝ) 100 = 1152 := by
    unfold star_vy VIEWPORT_DISTANCE VIEWPORT_HEIGHT VIEWPORT_WIDTH FULL_WIDTH FULL_HEIGHT
    norm_num
  have hc : cull_test (star_vx (50 : ℝ) 100) (star_vy (0 : ℝ) 100) := by
    rw [hvx, hvy]
    unfold cull_test MAX_STAR_SIZE FULL_WIDTH FULL_HEIGHT
    norm_num
  obtain ⟨v, hv, hsc⟩ := scale_circle_large scale_nearest (sample_disc.load disc_heap) rfl rfl
    (apparent_size Real.sqrt 50 0 100) hs
  rw [hn] at hsc
  rw [hb, hk] at hv
  have hve : v = (⟨126, 126, 3, 384, 387, (sample_disc.load disc_heap).mem⟩ : bitmap_t) := by
    unfold bitmap_sub at hv
    rw [if_pos (by decide)] at hv
    exact (Option.some.inj hv).symm
  have hox : float_to_int ((2304 : ℝ) - ((scale_nearest v 101 101).width : ℝ) / 2) = 2253 := by
    show float_to_int ((2304 : ℝ) - ((101 : Nat) : ℝ) / 2) = 2253
    unfold float_to_int
    rw [if_pos (by norm_num), Int.floor_eq_iff]
    norm_num
  have hoy : float_to_int ((1152 : ℝ) - ((scale_nearest v 101 101).width : ℝ) / 2) = 1101 := by
    show float_to_int ((1152 : ℝ) - ((101 : Nat) : ℝ) / 2) = 1101
    unfold float_to_int
    rw [if_pos (by norm_num), Int.floor_eq_iff]
    norm_num
  obtain ⟨-, d, hd, hdw, hdh, hpix⟩ := crop_inside_spec (bitmap_new_empty FULL_WIDTH FULL_HEIGHT)
    (scale_nearest v 101 101) 2253 1101 (by decide) (by show (101 : Nat) < 2147483648; decide)
    (by show (101 : Nat) < 2147483648; decide) (by decide) (by decide) (by decide) (by decide)
  have hstep : render_star scale_nearest Real.sqrt (sample_disc.load disc_heap) (frame_pos 0 : ℝ)
      (bitmap_new_empty FULL_WIDTH FULL_HEIGHT) { x := 50, y := 0, z := 1410, size := 1 }
      = some d := by
    rw [render_star_eq]
    simp only [hdz]
    rw [if_pos hc, hsc]
    simp only [hvx, hvy, hox, hoy]
    exact hd
  have hsprite : (scale_nearest v 101 101).get 51 51 0 = 255 := by
    have e : (scale_nearest v 101 101).get 51 51 0 = (sample_disc.load disc_heap).get 64 64 0 := by
      rw [hve]
      simp only [bitmap_t.get, bitmap_t.index, scale_nearest, UINT_MOD]
      rfl
    rw [e]
    exact disc_centre_white 0 (by norm_num)
  have hlit : (d.get 2304 1152 0).val = 255 := by
    have h := hpix 2304 1152 0 (by decide) (by decide) (by decide)
    rw [if_pos (by simp [scale_nearest, bitmap_new_empty, FULL_WIDTH, FULL_HEIGHT])] at h
    rw [h]
    have e : (2304 : Nat) - (2253 : Int).toNat = 51 := by decide
    have e2 : (1152 : Nat) - (1101 : Int).toNat = 51 := by decide
    rw [e, e2, hsprite]
    rfl
  refine ⟨by rw [hdz]; exact hc, scale_nearest d OUTPUT_WIDTH OUTPUT_HEIGHT, ?_, ?_⟩
  · unfold render_frame
    rw [List.foldlM_cons, hstep]
    rfl
  · have e : (scale_nearest d OUTPUT_WIDTH OUTPUT_HEIGHT).get 540 288 0 = d.get 2304 1152 0 := by
      simp only [bitmap_t.get, bitmap_t.index, scale_nearest, UINT_MOD, OUTPUT_WIDTH,
        OUTPUT_HEIGHT, hdw, hdh, bitmap_new_empty, FULL_WIDTH, FULL_HEIGHT]
    rw [e, hlit]

/-- Two successive invocations at frame 0, for the field of the one star at
`(50, 0, 1410)`, which passes the cull test, the reference disc of
`init_circle` in allocation 0 and nearest neighbour resampling: a sprite is
made and composited, both invocations return, the images have the same bytes,
and their pixel `(540, 288)` is white. -/
theorem render_frame_deterministic_witness :
    cull_test (star_vx (50 : ℝ) (star_dz (frame_pos 0) 1410))
      (star_vy (0 : ℝ) (star_dz (frame_pos 0) 1410)) ∧
    ∃ out1 h1 out2 h2,
      Heap.render_frame scale_nearest Real.sqrt [{ x := 50, y := 0, z := 1410, size := 1 }]
        sample_disc disc_heap 0 = some (out1, h1) ∧
      Heap.render_frame scale_nearest Real.sqrt [{ x := 50, y := 0, z := 1410, size := 1 }]
        sample_disc h1 0 = some (out2, h2) ∧
      out2.load h2 = out1.load h1 ∧ ((out1.load h1).get 540 288 0).val = 255 ∧
      ((out2.load h2).get 540 288 0).val = 255 := by
  obtain ⟨hc, out, hout, hlit⟩ := render_frame_sample
  refine ⟨hc, ?_⟩
  rcases heap_render_frame scale_nearest Real.sqrt [{ x := 50, y := 0, z := 1410, size := 1 }]
      sample_disc disc_heap 0 (by decide) with ⟨hnone, -⟩ | ⟨o, g, hsome, hval, -, -, -⟩
  · rw [hout] at hnone
    cases hnone
  · obtain ⟨hv1, -, out2, h2, hs2, he, -, -⟩ := render_frame_deterministic scale_nearest Real.sqrt
      [{ x := 50, y := 0, z := 1410, size := 1 }] sample_disc disc_heap 0 o g
      (by decide) hsome
    have ho : o.load g = out := by
      rw [hout] at hv1
      exact (Option.some.inj hv1).symm
    refine ⟨o, g, out2, h2, hsome, hs2, he, ?_, ?_⟩
    · rw [ho]
      exact hlit
    · rw [he, ho]
      exact hlit

end Starfield
